import Mathlib

/-!
# lsst::afw — Footprint, SpanSet and Peak catalogs

A shallow embedding of `src/detection/Footprint.cc` and of the pieces of the
geometry and table libraries it calls, of the array keys of `src/table/KeyBase.cc`,
of the array setters of the Python layer (`python/.../table/key.cc`, `base.cc`,
`schema.cc`), of the `maskToSpanSet` binding (`python/.../geom/spanSet.cc`) and of
the property helpers of `src/formatters/Utils.cc`.

Conventions of the embedding

* C++ `int` values are mathematical integers (`Int`). Where the source adds two
  `int`s (`Footprint::shift`) or converts a `float` to `int` (`addPeak`, the old
  form of `readPeaks`) the result is that of the 32-bit machine: a sum outside
  `[-2^31, 2^31)` wraps modulo `2^32`, and a float whose integer part is outside
  that range converts to `INT_MIN` (the language leaves both undefined).
* `float` values are modelled by `F32`: a finite binary32 number is an integer
  multiple `k` of `2^-149`, arithmetic rounds to nearest, ties to even, with a
  24-bit significand.  Infinities, NaN and the sign of zero are not represented,
  and the exponent range is not bounded above.
* `double` values (`Point2D` coordinates) are integer multiples of `2^-1074`.
* A member function that mutates `*this` is a function returning the new object.
* An iterator of a catalog is its (signed) distance from `begin()`.
* A call that can throw returns an `Outcome`: a value, or the `Failure` that ended it.
* Mask pixels are natural numbers; `&` is the bitwise and of natural numbers.
* An `int64_t` is an `Int` in `[-2^63, 2^63)`; its conversion to `unsigned long long`
  is the remainder modulo `2^64`.
* A `std::string` is the list of its `char`s; a `std::string` built from a C string
  ends before the first NUL.
* A `shared_ptr` that may be null is an `Option`.
-/

set_option maxRecDepth 20000
set_option exponentiation.threshold 2048

namespace Afw

/-! ## Machine integers -/

namespace CInt

/-- The values of a 32-bit `int`: `-2^31 ≤ v < 2^31`. -/
def InRange (v : Int) : Prop := -2147483648 ≤ v ∧ v < 2147483648

instance (v : Int) : Decidable (InRange v) := by unfold InRange; infer_instance

/-- The `int` that the machine holds for the mathematical result `v` of an `int`
addition: `v` itself when it is in range, and `v` reduced modulo `2^32` into
`[-2^31, 2^31)` when the addition overflows. -/
def wrap (v : Int) : Int := (v + 2147483648) % 4294967296 - 2147483648

/-- The value `INT_MIN`. -/
def min : Int := -2147483648

end CInt

/-! ## Binary floating point -/

namespace Binary32

/-- Worker of `ilog2`: halve `n` until it is below 2, at most `fuel` times. -/
def ilog2Aux : Nat → Nat → Nat
  | 0, _ => 0
  | fuel + 1, n => if n < 2 then 0 else ilog2Aux fuel (n / 2) + 1

/-- Position of the leading bit of `n` (0 for `n = 0`). -/
def ilog2 (n : Nat) : Nat := ilog2Aux n n

/-- Quotient `n / 2^s` rounded to the nearest integer, ties to the even one. -/
def rne (n s : Nat) : Nat :=
  let q := n / 2 ^ s
  let r := n % 2 ^ s
  if 2 ^ s < 2 * r ∨ (2 * r = 2 ^ s ∧ q % 2 = 1) then q + 1 else q

/-- The binary32 magnitude (in units of `2^-149`) nearest to `n / 2^t`:
below `2^24` units the grid is the integers (subnormals and the first binades),
above it the significand is cut to 24 bits. -/
def roundScaled (n t : Nat) : Nat :=
  if n < 2 ^ (24 + t) then rne n t
  else rne n (ilog2 n - 23) * 2 ^ (ilog2 n - 23 - t)

/-- Rounding of an integer number of units to binary32. -/
def roundNat (n : Nat) : Nat := roundScaled n 0

/-- Signed rounding: the sign is kept, the magnitude is rounded. -/
def roundInt (k : Int) : Int :=
  if k < 0 then -((roundNat k.natAbs : Nat) : Int) else ((roundNat k.natAbs : Nat) : Int)

end Binary32

/-- A `float`: the value `k * 2^-149`. -/
structure F32 where
  k : Int
deriving DecidableEq, Repr

/-- A `double`: the value `k * 2^-1074`. -/
structure F64 where
  k : Int
deriving DecidableEq, Repr

namespace F32

/-- Number of units in 1.0f. -/
def one : Nat := 2 ^ 149

/-- The values that are binary32 numbers: rounding leaves them alone. -/
def Valid (x : F32) : Prop := Binary32.roundInt x.k = x.k

instance (x : F32) : Decidable x.Valid := by unfold Valid; infer_instance

/-- The float 0.0f, the value of a freshly allocated field. -/
def zero : F32 := ⟨0⟩

/-- Conversion `int → float` (implicit in `float + int`). -/
def ofInt (i : Int) : F32 := ⟨Binary32.roundInt (i * (one : Nat))⟩

/-- Float addition `x + y`. -/
def add (x y : F32) : F32 := ⟨Binary32.roundInt (x.k + y.k)⟩

/-- The integer part of a float: the fractional part is discarded (truncation toward zero). -/
def trunc (x : F32) : Int := Int.tdiv x.k (one : Nat)

/-- Conversion `float → int`: the integer part of the float when it is a value of
`int`; otherwise the conversion instruction of the machine gives `INT_MIN`. -/
def toInt (x : F32) : Int := if CInt.InRange x.trunc then x.trunc else CInt.min

/-- Comparison `x > y`. -/
def gt (x y : F32) : Bool := decide (y.k < x.k)

/-- Conversion `float → double`, exact. -/
def toF64 (x : F32) : F64 := ⟨x.k * ((2 ^ 925 : Nat) : Int)⟩

end F32

/-- Conversion `double → float`: rounding to the nearest binary32 value. -/
def F64.toF32 (d : F64) : F32 :=
  if d.k < 0 then ⟨-((Binary32.roundScaled d.k.natAbs 925 : Nat) : Int)⟩
  else ⟨((Binary32.roundScaled d.k.natAbs 925 : Nat) : Int)⟩

/-! ## Geometry -/

/-- Modelled from the spec: `geom::Point2I`, an integer pixel position. -/
structure Point2I where
  x : Int
  y : Int
deriving DecidableEq, Repr

/-- Modelled from the spec: `geom::Point2D`, a position with `double` coordinates. -/
structure Point2D where
  x : F64
  y : F64
deriving DecidableEq, Repr

/-- Modelled from the spec: `geom::Box2I`, an integer box given by its inclusive
corners; it is empty when a maximum lies below the minimum. -/
structure Box2I where
  minX : Int
  minY : Int
  maxX : Int
  maxY : Int
deriving DecidableEq, Repr

/-- Modelled from the spec: the default-constructed (empty) `Box2I`. -/
def Box2I.empty : Box2I := ⟨0, 0, -1, -1⟩

/-- Modelled from the spec: `Box2I::contains(Point2I)`. -/
def Box2I.contains (b : Box2I) (p : Point2I) : Bool :=
  decide (b.minX ≤ p.x) && decide (p.x ≤ b.maxX) && decide (b.minY ≤ p.y) && decide (p.y ≤ b.maxY)

/-- Modelled from the spec: `geom::Span`, the pixels `x0..x1` (inclusive) of row `y`. -/
structure Span where
  y : Int
  x0 : Int
  x1 : Int
deriving DecidableEq, Repr

/-- Modelled from the spec: `Span::contains(Point2I)`. -/
def Span.contains (s : Span) (p : Point2I) : Bool :=
  decide (s.y = p.y) && decide (s.x0 ≤ p.x) && decide (p.x ≤ s.x1)

/-- Modelled from the spec: `geom::SpanSet`, an ordered sequence of Spans. -/
structure SpanSet where
  spans : List Span
deriving DecidableEq, Repr

/-- Modelled from the spec: a stable sort by a strict comparator `cmp`
(`cmp a b` says that `a` goes before `b`); insertion of `a` in front of a
sorted list: `a` passes the elements that go before it and no other. -/
def insertSorted {α : Type} (cmp : α → α → Bool) (a : α) : List α → List α
  | [] => [a]
  | b :: l => if cmp b a then b :: insertSorted cmp a l else a :: b :: l

/-- Modelled from the spec: stable sort (`std::stable_sort`) by the strict comparator `cmp`. -/
def stableSort {α : Type} (cmp : α → α → Bool) : List α → List α
  | [] => []
  | a :: l => insertSorted cmp a (stableSort cmp l)

namespace SpanSet

/-- Modelled from the spec: the order of normalized spans, by `y` then `minX`. -/
def spanBefore (a b : Span) : Bool :=
  decide (a.y < b.y) || (decide (a.y = b.y) && decide (a.x0 < b.x0))

/-- Modelled from the spec: merging of sorted spans that overlap or touch on a
row; `cur` is the span being grown. -/
def mergeSpans (cur : Span) : List Span → List Span
  | [] => [cur]
  | s :: rest =>
    if s.y = cur.y ∧ s.x0 ≤ cur.x1 + 1 then
      mergeSpans { cur with x1 := max cur.x1 s.x1 } rest
    else cur :: mergeSpans s rest

/-- Modelled from the spec: normalization of a span list: sorted by `(y, minX)`,
no two spans of a row overlapping or touching. -/
def normalize (l : List Span) : List Span :=
  match stableSort spanBefore l with
  | [] => []
  | s :: rest => mergeSpans s rest

/-- Modelled from the spec: `SpanSet::contains(Point2I)`. -/
def contains (s : SpanSet) (p : Point2I) : Bool :=
  s.spans.any (fun sp => sp.contains p)

/-- Modelled from the spec: `SpanSet::shiftedBy(dx, dy)`, every span translated. -/
def shiftedBy (s : SpanSet) (dx dy : Int) : SpanSet :=
  ⟨s.spans.map (fun sp => { y := sp.y + dy, x0 := sp.x0 + dx, x1 := sp.x1 + dx })⟩

/-- Modelled from the spec: a span cut to the rows and columns of a box, or
nothing when it lies outside. -/
def clipSpan (box : Box2I) (sp : Span) : Option Span :=
  if box.minY ≤ sp.y ∧ sp.y ≤ box.maxY ∧ max box.minX sp.x0 ≤ min box.maxX sp.x1 then
    some { y := sp.y, x0 := max box.minX sp.x0, x1 := min box.maxX sp.x1 }
  else none

/-- Modelled from the spec: `SpanSet::clippedTo(box)`: every span intersected
with the box, spans outside dropped, the result normalized again. -/
def clippedTo (s : SpanSet) (box : Box2I) : SpanSet :=
  ⟨normalize (s.spans.filterMap (clipSpan box))⟩

/-- Modelled from the spec: `SpanSet::overlaps`: some pixel belongs to both. -/
def overlaps (a b : SpanSet) : Bool :=
  a.spans.any (fun s => b.spans.any (fun t =>
    decide (s.y = t.y) && decide (max s.x0 t.x0 ≤ min s.x1 t.x1)))

/-- Modelled from the spec: `SpanSet::operator==`, equality of the span sequences. -/
def eq (a b : SpanSet) : Bool := decide (a.spans = b.spans)

end SpanSet

/-- Modelled from the spec: the coordinate-transform collaborator
(`image::XYTransformFromWcsPair`), an arbitrary mapping of points. -/
structure XYTransform where
  forwardTransform : Point2D → Point2D

/-! ## Peak catalogs -/

/-- Modelled from the spec: a table `Schema`, the ordered field names. -/
structure Schema where
  fields : List String
deriving DecidableEq, Repr

/-- Modelled from the spec: `detection::PeakRecord`, the fields of the minimal
peak schema: integer position, float position and peak value. -/
structure PeakRecord where
  ix : Int
  iy : Int
  fx : F32
  fy : F32
  peakValue : F32
deriving DecidableEq, Repr

/-- The float fields of a peak record. -/
inductive PeakFloatField where
  | fx
  | fy
  | peakValue
deriving DecidableEq, Repr

/-- Modelled from the spec: `table::Key<float>`: the field it addresses and its
validity (a default-constructed key is invalid). -/
structure FloatKey where
  valid : Bool
  field : PeakFloatField
deriving DecidableEq, Repr

/-- Modelled from the spec: the default-constructed `Key<float>()`. -/
def FloatKey.default : FloatKey := ⟨false, PeakFloatField.fx⟩

/-- Modelled from the spec: `Key::isValid`. -/
def FloatKey.isValid (key : FloatKey) : Bool := key.valid

/-- Modelled from the spec: `PeakTable::getPeakValueKey`. -/
def PeakTable.getPeakValueKey : FloatKey := ⟨true, PeakFloatField.peakValue⟩

/-- Modelled from the spec: `PeakTable::makeMinimalSchema`: the float position,
the integer position and the peak value (`readPeaks` names the float fields
`"f.x"`, `"f.y"` and `"peakValue"`). -/
def PeakTable.makeMinimalSchema : Schema := ⟨["f.x", "f.y", "i.x", "i.y", "peakValue"]⟩

namespace PeakRecord

/-- A freshly allocated record: every field zero. -/
def new : PeakRecord := ⟨0, 0, F32.zero, F32.zero, F32.zero⟩

/-- Modelled from the spec: `record.get(key)` for a float key. -/
def get (r : PeakRecord) (key : FloatKey) : F32 :=
  match key.field with
  | PeakFloatField.fx => r.fx
  | PeakFloatField.fy => r.fy
  | PeakFloatField.peakValue => r.peakValue

/-- Modelled from the spec: `PeakRecord::getI`, the integer position. -/
def getI (r : PeakRecord) : Point2I := ⟨r.ix, r.iy⟩

/-- Modelled from the spec: `PeakRecord::getF`, the float position as a `Point2D`. -/
def getF (r : PeakRecord) : Point2D := ⟨r.fx.toF64, r.fy.toF64⟩

end PeakRecord

/-- Modelled from the spec: `PeakCatalog`, an ordered sequence of records of one schema. -/
structure PeakCatalog where
  schema : Schema
  records : List PeakRecord
deriving DecidableEq, Repr

namespace PeakCatalog

/-- Modelled from the spec: `Catalog::size`. -/
def size (c : PeakCatalog) : Nat := c.records.length

/-- Modelled from the spec: `Catalog::sort(cmp)`, a stable sort by the comparator. -/
def sort (c : PeakCatalog) (cmp : PeakRecord → PeakRecord → Bool) : PeakCatalog :=
  { c with records := stableSort cmp c.records }

end PeakCatalog

/-! ## Footprint -/

/-- The state of a `Footprint`: `_spans`, `_peaks` and `_region`. -/
structure Footprint where
  spans : SpanSet
  peaks : PeakCatalog
  region : Box2I
deriving DecidableEq, Repr

/-- State of the loop of `removeOrphanPeaks`: the catalog, the iterator as its
distance from `begin()`, and whether `--iter` ever moved it before `begin()`. -/
structure OrphanLoop where
  peaks : List PeakRecord
  iter : Int
  beforeBegin : Bool
deriving DecidableEq, Repr

namespace Footprint

/-- Constructor `Footprint(inputSpans, peakSchema, region)`: an empty peak catalog. -/
def mk3 (inputSpans : SpanSet) (peakSchema : Schema) (region : Box2I) : Footprint :=
  { spans := inputSpans, peaks := ⟨peakSchema, []⟩, region := region }

/-- Embedding of `Footprint::setSpans`. -/
def setSpans (f : Footprint) (otherSpanSet : SpanSet) : Footprint :=
  { f with spans := otherSpanSet }

/-- Embedding of `Footprint::addPeak`: the new catalog and the record returned. `setIx(fx)`
and `setIy(fy)` take an `int`, so the float argument is converted. -/
def addPeak (f : Footprint) (fx fy height : F32) : Footprint × PeakRecord :=
  let p := PeakRecord.new
  let p := { p with ix := fx.toInt }
  let p := { p with iy := fy.toInt }
  let p := { p with fx := fx }
  let p := { p with fy := fy }
  let p := { p with peakValue := height }
  ({ f with peaks := { f.peaks with records := f.peaks.records ++ [p] } }, p)

/-- Embedding of `Footprint::sortPeaks`. -/
def sortPeaks (f : Footprint) (key : FloatKey) : Footprint :=
  let validatedKey := if key.isValid then key else PeakTable.getPeakValueKey
  { f with peaks := f.peaks.sort (fun a b => (a.get validatedKey).gt (b.get validatedKey)) }

/-- Embedding of `Footprint::shift`. `getIx() + dx` and `getIy() + dy` are `int`
additions; `getFx() + dx` and `getFy() + dy` are float additions, the offset
converted to float. -/
def shift (f : Footprint) (dx dy : Int) : Footprint :=
  let f := f.setSpans (f.spans.shiftedBy dx dy)
  { f with peaks := { f.peaks with records := f.peaks.records.map (fun peak =>
      let peak := { peak with ix := CInt.wrap (peak.ix + dx) }
      let peak := { peak with iy := CInt.wrap (peak.iy + dy) }
      let peak := { peak with fx := peak.fx.add (F32.ofInt dx) }
      let peak := { peak with fy := peak.fy.add (F32.ofInt dy) }
      peak) } }

/-- Embedding of `Footprint::contains`. -/
def contains (f : Footprint) (pix : Point2I) : Bool := f.spans.contains pix

/-- The loop of `Footprint::removeOrphanPeaks`, one iteration per unit of fuel:
the test `iter != end()`, the body and `++iter`. `erase(iter)` returns the
iterator of the element after the erased one, which has the same distance from
`begin()`. Reading the record at an iterator outside the catalog gives no result. -/
def removeOrphanPeaksLoop (spans : SpanSet) : Nat → OrphanLoop → Option OrphanLoop
  | 0, _ => none
  | fuel + 1, st =>
    if st.iter = st.peaks.length then some st
    else
      match (if 0 ≤ st.iter then st.peaks[st.iter.toNat]? else none) with
      | none => none
      | some pk =>
        if !spans.contains ⟨pk.ix, pk.iy⟩ then
          let erased := st.peaks.eraseIdx st.iter.toNat
          let iter := st.iter - 1
          removeOrphanPeaksLoop spans fuel
            ⟨erased, iter + 1, st.beforeBegin || decide (iter < 0)⟩
        else
          removeOrphanPeaksLoop spans fuel ⟨st.peaks, st.iter + 1, st.beforeBegin⟩

/-- Embedding of `Footprint::removeOrphanPeaks`: the loop started at `begin()`. -/
def removeOrphanPeaks (f : Footprint) : Option Footprint :=
  (removeOrphanPeaksLoop f.spans (f.peaks.records.length + 1) ⟨f.peaks.records, 0, false⟩).map
    (fun st => { f with peaks := { f.peaks with records := st.peaks } })

/-- Embedding of `Footprint::clipTo`. -/
def clipTo (f : Footprint) (box : Box2I) : Option Footprint :=
  (f.setSpans (f.spans.clippedTo box)).removeOrphanPeaks

/-- The loop of `Footprint::transform` over the peaks of the source footprint. -/
def transformPeaks (transform : XYTransform) (newFootprint : Footprint) :
    List PeakRecord → Footprint
  | [] => newFootprint
  | peak :: rest =>
    let newPoint := transform.forwardTransform ⟨peak.fx.toF64, peak.fx.toF64⟩
    transformPeaks transform
      (newFootprint.addPeak newPoint.x.toF32 newPoint.y.toF32 peak.peakValue).1 rest

/-- Embedding of `Footprint::transform`. The collaborators that are not part of the
Footprint are parameters: the type `Wcs`, the construction
`XYTransformFromWcsPair` of a transform from two of them, and
`SpanSet::transformedBy`. -/
def transform {Wcs : Type} (XYTransformFromWcsPair : Wcs → Wcs → XYTransform)
    (transformedBy : SpanSet → XYTransform → SpanSet)
    (f : Footprint) (source target : Wcs) (region : Box2I) (doClip : Bool) : Option Footprint :=
  let transform := XYTransformFromWcsPair target source
  let transformedSpan := transformedBy f.spans transform
  let newFootprint := mk3 transformedSpan f.peaks.schema region
  let newFootprint := transformPeaks transform newFootprint f.peaks.records
  if doClip then newFootprint.clipTo region else some newFootprint

/-- The loop of `Footprint::split` over the components. -/
def splitLoop (f : Footprint) (count : Nat) : List SpanSet → Option (List Footprint)
  | [] => some []
  | spanPtr :: rest =>
    let tmpFootprint := mk3 spanPtr f.peaks.schema f.region
    let tmpFootprint := { tmpFootprint with peaks := f.peaks }
    match (if count > 1 then tmpFootprint.removeOrphanPeaks else some tmpFootprint) with
    | none => none
    | some fp =>
      match splitLoop f count rest with
      | none => none
      | some footprintList => some (fp :: footprintList)

/-- Embedding of `Footprint::split`; `SpanSet::split` is a parameter. -/
def split (spanSetSplit : SpanSet → List SpanSet) (f : Footprint) : Option (List Footprint) :=
  let splitSpanSets := spanSetSplit f.spans
  splitLoop f splitSpanSets.length splitSpanSets

/-- Embedding of `Footprint::operator==`. -/
def eq (self other : Footprint) : Bool :=
  if self.peaks.size ≠ other.peaks.size then false
  else if !(self.peaks.records.all (fun selfPeak =>
      other.peaks.records.any (fun otherPeak =>
        decide (selfPeak.getI = otherPeak.getI) &&
        decide (selfPeak.getF = otherPeak.getF) &&
        decide (selfPeak.peakValue = otherPeak.peakValue)))) then false
  else self.spans.eq other.spans

end Footprint

/-- Modelled from the spec: `geom::Stencil`, the neighbourhood shapes that dilation and
erosion take (the values of the enumeration in the SpanSet binding). -/
inductive Stencil where
  | CIRCLE
  | BOX
  | MANHATTAN
deriving DecidableEq, Repr

namespace Footprint

/-- Embedding of `Footprint::dilate(int r, geom::Stencil s)`; `SpanSet::dilate(r, s)`
is a parameter. -/
def dilate (spanSetDilate : SpanSet → Int → Stencil → SpanSet) (f : Footprint) (r : Int)
    (s : Stencil) : Footprint :=
  f.setSpans (spanSetDilate f.spans r s)

/-- Embedding of `Footprint::dilate(geom::SpanSet const & other)`;
`SpanSet::dilate(other)` is a parameter. -/
def dilateBy (spanSetDilateBy : SpanSet → SpanSet → SpanSet) (f : Footprint)
    (other : SpanSet) : Footprint :=
  f.setSpans (spanSetDilateBy f.spans other)

/-- Embedding of `Footprint::erode(int r, geom::Stencil s)`; `SpanSet::erode(r, s)`
is a parameter. -/
def erode (spanSetErode : SpanSet → Int → Stencil → SpanSet) (f : Footprint) (r : Int)
    (s : Stencil) : Option Footprint :=
  (f.setSpans (spanSetErode f.spans r s)).removeOrphanPeaks

/-- Embedding of `Footprint::erode(geom::SpanSet const & other)`;
`SpanSet::erode(other)` is a parameter. -/
def erodeBy (spanSetErodeBy : SpanSet → SpanSet → SpanSet) (f : Footprint)
    (other : SpanSet) : Option Footprint :=
  (f.setSpans (spanSetErodeBy f.spans other)).removeOrphanPeaks

end Footprint

/-! ## Exceptions -/

/-- What ends a call without a value: an exception of the source (`LogicError`,
`LengthError`, `NotFoundError`, `RuntimeError`, `RangeError`, `TypeError`, the
exception of `LSST_ARCHIVE_ASSERT`) or behaviour that the language leaves undefined. -/
inductive Failure where
  | LogicError
  | LengthError
  | NotFoundError
  | RuntimeError
  | RangeError
  | TypeError
  | archiveAssertion
  | undefinedBehaviour
deriving DecidableEq, Repr

/-- The result of a call that can throw. -/
inductive Outcome (α : Type) where
  | ok (value : α)
  | fails (failure : Failure)
deriving DecidableEq, Repr

/-- Sequencing of calls: a failure ends the sequence. -/
def Outcome.bind {α β : Type} (x : Outcome α) (f : α → Outcome β) : Outcome β :=
  match x with
  | Outcome.ok a => f a
  | Outcome.fails e => Outcome.fails e

instance : Monad Outcome where
  pure := Outcome.ok
  bind := Outcome.bind

/-! ## Array keys (table/KeyBase.cc) -/

/-- Modelled from the spec: `Key<Array<U>>`: the offset of the field and its
element count; the count 0 denotes a variable-length array. -/
structure ArrayKey where
  offset : Nat
  size : Nat
deriving DecidableEq, Repr

/-- Modelled from the spec: `Key<Array<U>>::getSize`. -/
def ArrayKey.getSize (key : ArrayKey) : Int := key.size

/-- Modelled from the spec: `Key<Array<U>>::isVariableLength`. -/
def ArrayKey.isVariableLength (key : ArrayKey) : Bool := key.size == 0

namespace KeyBase

/-- Embedding of `KeyBase<Array<U>>::operator[]`; `detail::Access::extractElement`
is a parameter. -/
def subscript {K : Type} (extractElement : ArrayKey → Int → K) (self : ArrayKey) (i : Int) :
    Outcome K :=
  if self.isVariableLength then Outcome.fails Failure.LogicError
  else if i ≥ self.getSize ∨ i < 0 then Outcome.fails Failure.LengthError
  else Outcome.ok (extractElement self i)

/-- Embedding of `KeyBase<Array<U>>::slice`; `detail::Access::extractRange` is a parameter. -/
def slice {K : Type} (extractRange : ArrayKey → Int → Int → K) (self : ArrayKey)
    (begin_ end_ : Int) : Outcome K :=
  if self.isVariableLength then Outcome.fails Failure.LogicError
  else if begin_ > self.getSize ∨ begin_ < 0 then Outcome.fails Failure.LengthError
  else if end_ > self.getSize ∨ end_ < 0 then Outcome.fails Failure.LengthError
  else Outcome.ok (extractRange self begin_ end_)

end KeyBase

/-! ## Array setters of the Python layer -/

/-- Modelled from the spec: the storage of a record for elements of type `U`:
the block of fixed-length fields, addressed by offset, and the variable-length
arrays the record refers to, by the offset of their field. -/
structure ArrayRecord (U : Type) where
  block : List U
  varlen : List (Nat × List U)

namespace ArrayRecord

/-- Modelled from the spec: `record[key]` for a fixed-length key: the
`key.size` elements at the key's offset. -/
def view {U : Type} (record : ArrayRecord U) (key : ArrayKey) : List U :=
  (record.block.drop key.offset).take key.size

/-- Modelled from the spec: `ref = v` for the view `ref = record[key]`: a deep
copy of `v` over the elements of the view (of the same size). -/
def assignView {U : Type} (record : ArrayRecord U) (key : ArrayKey) (v : List U) :
    ArrayRecord U :=
  { record with block :=
      record.block.take key.offset ++ v ++ record.block.drop (key.offset + key.size) }

/-- Modelled from the spec: `record.set(key, array)` for a variable-length key:
the record refers to the array from then on. -/
def set {U : Type} (record : ArrayRecord U) (key : ArrayKey) (array : List U) :
    ArrayRecord U :=
  { record with varlen :=
      (key.offset, array) :: record.varlen.filter (fun e => e.1 != key.offset) }

/-- Modelled from the spec: `record[key]` for a variable-length key. -/
def getVariable {U : Type} (record : ArrayRecord U) (key : ArrayKey) : List U :=
  match record.varlen.find? (fun e => e.1 == key.offset) with
  | some e => e.2
  | none => []

end ArrayRecord

/-- Embedding of the `setter` of `declareKeyAccessors<Array<U>>` (python/table/key.cc):
the record after the call and the result of the call. -/
def declareKeyAccessors_setter {U : Type} (self : ArrayKey) (record : ArrayRecord U)
    (value : List U) : ArrayRecord U × Outcome Unit :=
  if self.getSize = 0 then
    (record.set self value, Outcome.ok ())
  else
    let v := value
    let ref := record.view self
    if v.length ≠ ref.length then (record, Outcome.fails Failure.LengthError)
    else (record.assignView self v, Outcome.ok ())

/-- Embedding of the `setter` of `declareBaseRecordArrayOverloads` (python/table/base.cc). -/
def declareBaseRecordArrayOverloads_setter {T : Type} (self : ArrayRecord T) (key : ArrayKey)
    (value : List T) : ArrayRecord T × Outcome Unit :=
  if key.getSize = 0 then
    (self.set key value, Outcome.ok ())
  else
    let v := value
    let ref := self.view key
    if v.length ≠ ref.length then (self, Outcome.fails Failure.LengthError)
    else (self.assignView key v, Outcome.ok ())

/-- Embedding of the `setter` of `addKeyAccessors<Array<U>>` (python/table/schema.cc). -/
def addKeyAccessors_setter {U : Type} (self : ArrayKey) (record : ArrayRecord U)
    (value : List U) : ArrayRecord U × Outcome Unit :=
  if self.getSize = 0 then
    (record.set self value, Outcome.ok ())
  else
    let v := value
    let ref := record.view self
    if v.length ≠ ref.length then (record, Outcome.fails Failure.LengthError)
    else (record.assignView self v, Outcome.ok ())

/-! ## Persistence (detection/Footprint.cc) -/

/-- Modelled from the spec: the value of one field of a record: an `int`, a
`float`, or a value that the embedding does not follow (a field of another
type, or one that was never written). -/
inductive FieldValue where
  | int (v : Int)
  | float (v : F32)
  | other
deriving DecidableEq, Repr

/-- Modelled from the spec: `table::BaseRecord`, the values of the fields in the
order of the schema; a `Key` is the position of its field. -/
structure BaseRecord where
  values : List FieldValue
deriving DecidableEq, Repr

/-- Modelled from the spec: `table::BaseCatalog`, an ordered sequence of records of one schema. -/
structure BaseCatalog where
  schema : Schema
  records : List BaseRecord
deriving DecidableEq, Repr

namespace Schema

/-- Modelled from the spec: `Schema::getFieldCount`. -/
def getFieldCount (s : Schema) : Int := s.fields.length

/-- Modelled from the spec: `Schema::contains(other)`: every field of `other` is a field of `s`. -/
def contains (s other : Schema) : Bool :=
  other.fields.all (fun name => s.fields.contains name)

/-- Modelled from the spec: `schema[name]` converted to a key: the position of
the field, `NotFoundError` for an unknown name. -/
def find (s : Schema) (name : String) : Outcome Nat :=
  if s.fields.contains name then Outcome.ok (s.fields.indexOf name)
  else Outcome.fails Failure.NotFoundError

end Schema

namespace BaseRecord

/-- Modelled from the spec: a record of the schema as `addNew` makes it, no field written. -/
def new (schema : Schema) : BaseRecord := ⟨schema.fields.map (fun _ => FieldValue.other)⟩

/-- Modelled from the spec: `record.get(key)` for a `Key<int>`; a key that does
not address an `int` of the record is a key of a foreign schema, and its use is
undefined. -/
def getInt (r : BaseRecord) (key : Nat) : Outcome Int :=
  match r.values[key]? with
  | some (FieldValue.int v) => Outcome.ok v
  | _ => Outcome.fails Failure.undefinedBehaviour

/-- Modelled from the spec: `record.get(key)` for a `Key<float>`. -/
def getFloat (r : BaseRecord) (key : Nat) : Outcome F32 :=
  match r.values[key]? with
  | some (FieldValue.float v) => Outcome.ok v
  | _ => Outcome.fails Failure.undefinedBehaviour

/-- Modelled from the spec: `record.set(key, value)` for a `Key<int>`. -/
def setInt (r : BaseRecord) (key : Nat) (v : Int) : BaseRecord :=
  ⟨r.values.set key (FieldValue.int v)⟩

end BaseRecord

/-- Modelled from the spec: `LSST_ARCHIVE_ASSERT(EXPR)`: the read fails at once
when the expression is false. -/
def archiveAssert (expr : Bool) : Outcome Unit :=
  if expr then Outcome.ok () else Outcome.fails Failure.archiveAssertion

namespace LegacyFootprintPersistenceHelper

/-- The schema of `LegacyFootprintPersistenceHelper`: the fields `y`, `x0`, `x1`
added in this order to an empty schema. -/
def spanSchema : Schema := ⟨["y", "x0", "x1"]⟩

/-- The key of `y`, the first field. -/
def spanY : Nat := 0

/-- The key of `x0`, the second field. -/
def spanX0 : Nat := 1

/-- The key of `x1`, the third field. -/
def spanX1 : Nat := 2

end LegacyFootprintPersistenceHelper

/-- Embedding of `spanSetPersistenceHelper`: the schema with the one field `id`
and the key of that field. -/
def spanSetPersistenceHelper : Schema × Nat := (⟨["id"]⟩, 0)

/-- Modelled from the spec: construction of a `SpanSet` from raw spans,
normalizing if requested. -/
def SpanSet.ofSpans (vec : List Span) (normalize : Bool) : SpanSet :=
  if normalize then ⟨SpanSet.normalize vec⟩ else ⟨vec⟩

/-- Modelled from the spec: `SchemaMapper`: the input schema, the output schema
and the mappings from keys of the input to fields of the output. -/
structure SchemaMapper where
  input : Schema
  output : Schema
  mappings : List (Nat × String)
deriving DecidableEq, Repr

namespace SchemaMapper

/-- Modelled from the spec: `SchemaMapper(input)`: nothing mapped, an empty output schema. -/
def ofInput (input : Schema) : SchemaMapper := ⟨input, ⟨[]⟩, []⟩

/-- Modelled from the spec: `addMinimalSchema(minimal)` on a mapper without
output fields: the output schema starts as `minimal`. -/
def addMinimalSchema (m : SchemaMapper) (minimal : Schema) : SchemaMapper :=
  { m with output := ⟨minimal.fields ++ m.output.fields⟩ }

/-- Modelled from the spec: `addMapping(inputKey, outputName)`: the input field
is mapped to the output field of that name, which is added when the output
schema has none. -/
def addMapping (m : SchemaMapper) (inputKey : Nat) (outputName : String) : SchemaMapper :=
  { m with
    output := if m.output.fields.contains outputName then m.output
      else ⟨m.output.fields ++ [outputName]⟩,
    mappings := m.mappings ++ [(inputKey, outputName)] }

/-- Modelled from the spec: `getOutputSchema`. -/
def getOutputSchema (m : SchemaMapper) : Schema := m.output

end SchemaMapper

namespace PeakRecord

/-- Modelled from the spec: the value a peak record holds for the field `name` of its schema. -/
def cell (p : PeakRecord) (name : String) : FieldValue :=
  if name = "f.x" then FieldValue.float p.fx
  else if name = "f.y" then FieldValue.float p.fy
  else if name = "i.x" then FieldValue.int p.ix
  else if name = "i.y" then FieldValue.int p.iy
  else if name = "peakValue" then FieldValue.float p.peakValue
  else FieldValue.other

/-- Modelled from the spec: the deep copy of a peak record into a catalog of the
same schema (`insert(..., deep = true)`). -/
def toBase (schema : Schema) (p : PeakRecord) : BaseRecord := ⟨schema.fields.map p.cell⟩

/-- Modelled from the spec: `newRecord->assign(other)` for records of the schema
`schema`: every field is copied. -/
def assign (schema : Schema) (other : BaseRecord) : Outcome PeakRecord := do
  let fx ← other.getFloat (← schema.find "f.x")
  let fy ← other.getFloat (← schema.find "f.y")
  let ix ← other.getInt (← schema.find "i.x")
  let iy ← other.getInt (← schema.find "i.y")
  let peakValue ← other.getFloat (← schema.find "peakValue")
  pure ⟨ix, iy, fx, fy, peakValue⟩

/-- Modelled from the spec: a float written to the field `name` of a peak record. -/
def setFloat (p : PeakRecord) (name : String) (v : F32) : PeakRecord :=
  if name = "f.x" then { p with fx := v }
  else if name = "f.y" then { p with fy := v }
  else if name = "peakValue" then { p with peakValue := v }
  else p

/-- Modelled from the spec: `newRecord->assign(other, mapper)`: the mapped
fields are copied, in the order of the mappings. -/
def assignMapped (p : PeakRecord) (other : BaseRecord) : List (Nat × String) → Outcome PeakRecord
  | [] => Outcome.ok p
  | (inputKey, outputName) :: rest => do
    let v ← other.getFloat inputKey
    assignMapped (p.setFloat outputName v) other rest

end PeakRecord

namespace Footprint

/-- Constructor `Footprint(inputSpans, region)`: the minimal peak schema, no peaks. -/
def mk2 (inputSpans : SpanSet) (region : Box2I) : Footprint :=
  { spans := inputSpans, peaks := ⟨PeakTable.makeMinimalSchema, []⟩, region := region }

/-- Modelled from the spec: `Footprint::setPeakSchema`: the peak catalog takes
the schema (the callers apply it to a footprint without peaks). -/
def setPeakSchema (f : Footprint) (peakSchema : Schema) : Footprint :=
  { f with peaks := { f.peaks with schema := peakSchema } }

/-- Embedding of `Footprint::write`: the catalogs saved through the handle, in
the order of the `saveCatalog` calls; `handle.put` is a parameter. -/
def write (put : SpanSet → Int) (f : Footprint) : List BaseCatalog :=
  let keys := spanSetPersistenceHelper
  let spanSetCat : BaseCatalog := ⟨keys.1, []⟩
  let record := BaseRecord.new keys.1
  let record := record.setInt keys.2 (put f.spans)
  let spanSetCat := { spanSetCat with records := spanSetCat.records ++ [record] }
  let peakCat : BaseCatalog := ⟨f.peaks.schema, []⟩
  let peakCat := { peakCat with
    records := peakCat.records ++ f.peaks.records.map (PeakRecord.toBase f.peaks.schema) }
  [spanSetCat, peakCat]

/-- The loop of the old-style branch of `readSpanSet`: one `Span` per record. -/
def readSpans : List BaseRecord → Outcome (List Span)
  | [] => Outcome.ok []
  | val :: rest => do
    let y ← val.getInt LegacyFootprintPersistenceHelper.spanY
    let x0 ← val.getInt LegacyFootprintPersistenceHelper.spanX0
    let x1 ← val.getInt LegacyFootprintPersistenceHelper.spanX1
    let tempVec ← readSpans rest
    pure (Span.mk y x0 x1 :: tempVec)

/-- Embedding of `Footprint::readSpanSet`; `archive.get` is a parameter.
`catalog.front()` of an empty catalog is undefined. -/
def readSpanSet (catalog : BaseCatalog) (archiveGet : Int → SpanSet) : Outcome Footprint := do
  let fieldCount := catalog.schema.getFieldCount
  archiveAssert (fieldCount == 1 || fieldCount == 3)
  let loadedSpanSet ←
    if fieldCount == 1 then
      let schemaAndKey := spanSetPersistenceHelper
      match catalog.records.head? with
      | none => Outcome.fails Failure.undefinedBehaviour
      | some front => do
        let persistedSpanSetId ← front.getInt schemaAndKey.2
        pure (archiveGet persistedSpanSetId)
    else do
      let tempVec ← readSpans catalog.records
      pure (SpanSet.ofSpans tempVec true)
  pure (mk2 loadedSpanSet Box2I.empty)

/-- The loop of the old-style branch of `readPeaks` over the records of
`peakCat`, on the catalog `peaks`. -/
def readPeaksLegacyLoop (mapper : SchemaMapper) : List BaseRecord → PeakCatalog →
    Outcome PeakCatalog
  | [], peaks => Outcome.ok peaks
  | peak :: rest, peaks => do
    let newPeak := PeakRecord.new
    let newPeak ← newPeak.assignMapped peak mapper.mappings
    let newPeak := { newPeak with ix := newPeak.fx.toInt }
    let newPeak := { newPeak with iy := newPeak.fy.toInt }
    readPeaksLegacyLoop mapper rest { peaks with records := peaks.records ++ [newPeak] }

/-- The old-style branch of `readPeaks`: the footprint after the call, and the
local variable `peaks` at the `return`. `auto peaks = loadedFootprint.getPeaks()`
declares a catalog of its own, a copy of the catalog of the footprint. -/
def readPeaksLegacy (peakCat : BaseCatalog) (loadedFootprint : Footprint) :
    Outcome (Footprint × PeakCatalog) := do
  let mapper := SchemaMapper.ofInput peakCat.schema
  let mapper := mapper.addMinimalSchema PeakTable.makeMinimalSchema
  let oldX ← peakCat.schema.find "x"
  let oldY ← peakCat.schema.find "y"
  let oldPeakValue ← peakCat.schema.find "value"
  let mapper := mapper.addMapping oldX "f.x"
  let mapper := mapper.addMapping oldY "f.y"
  let mapper := mapper.addMapping oldPeakValue "peakValue"
  let loadedFootprint := loadedFootprint.setPeakSchema mapper.getOutputSchema
  let peaks := loadedFootprint.peaks
  let peaks ← readPeaksLegacyLoop mapper peakCat.records peaks
  pure (loadedFootprint, peaks)

/-- The loop of the new-style branch of `readPeaks`, on the catalog of the footprint. -/
def readPeaksLoop (schema : Schema) : List BaseRecord → PeakCatalog → Outcome PeakCatalog
  | [], peaks => Outcome.ok peaks
  | peak :: rest, peaks => do
    let newPeak ← PeakRecord.assign schema peak
    readPeaksLoop schema rest { peaks with records := peaks.records ++ [newPeak] }

/-- Embedding of `Footprint::readPeaks`: the footprint after the call. In the
new-style branch `auto & peaks = loadedFootprint.getPeaks()` is the catalog of
the footprint itself. -/
def readPeaks (peakCat : BaseCatalog) (loadedFootprint : Footprint) : Outcome Footprint :=
  if !peakCat.schema.contains PeakTable.makeMinimalSchema then do
    let result ← readPeaksLegacy peakCat loadedFootprint
    pure result.1
  else do
    let loadedFootprint := loadedFootprint.setPeakSchema peakCat.schema
    let peaks ← readPeaksLoop peakCat.schema peakCat.records loadedFootprint.peaks
    pure { loadedFootprint with peaks := peaks }

end Footprint

/-- Embedding of `FootprintFactory::read`; `archive.get` is a parameter. -/
def FootprintFactory.read (archiveGet : Int → SpanSet) (catalogs : List BaseCatalog) :
    Outcome Footprint := do
  archiveAssert (catalogs.length == 2)
  match catalogs.head?, catalogs.getLast? with
  | some front, some back => do
    let loadedFootprint ← Footprint.readSpanSet front archiveGet
    Footprint.readPeaks back loadedFootprint
  | _, _ => Outcome.fails Failure.undefinedBehaviour

/-! ## Masks (python/geom/spanSet.cc) -/

/-- Modelled from the spec: `image::Mask<Pixel>`, a 2D array of pixel values,
row by row, with the origin `(x0, y0)` of its first pixel. -/
structure Mask where
  x0 : Int
  y0 : Int
  rows : List (List Nat)
deriving DecidableEq, Repr

/-- Modelled from the spec: the pixel of the mask at an image position, when
the position lies in the mask. -/
def Mask.get? (mask : Mask) (p : Point2I) : Option Nat :=
  if mask.y0 ≤ p.y ∧ mask.x0 ≤ p.x then
    match mask.rows[(p.y - mask.y0).toNat]? with
    | some row => row[(p.x - mask.x0).toNat]?
    | none => none
  else none

/-- Modelled from the spec: the scan of one row from column `x` on: the runs of
pixels that satisfy the predicate, as first and last column; `start` is the
first column of the run being scanned, if one has started. -/
def scanRuns (p : Nat → Bool) : List Nat → Nat → Option Nat → List (Nat × Nat)
  | [], _, none => []
  | [], x, some startValue => [(startValue, x - 1)]
  | v :: rest, x, none =>
    if p v then scanRuns p rest (x + 1) (some x) else scanRuns p rest (x + 1) none
  | v :: rest, x, some startValue =>
    if p v then scanRuns p rest (x + 1) (some startValue)
    else (startValue, x - 1) :: scanRuns p rest (x + 1) none

/-- Modelled from the spec: the scan of the rows from row `y` on: one `Span` per run. -/
def scanRows (p : Nat → Bool) (x0 y0 : Int) : List (List Nat) → Nat → List Span
  | [], _ => []
  | row :: rest, y =>
    (scanRuns p row 0 none).map (fun run => Span.mk (y + y0) (run.1 + x0) (run.2 + x0))
      ++ scanRows p x0 y0 rest (y + 1)

/-- Modelled from the spec: `maskToSpanSet(mask, predicate)`: the 2D array
scanned row by row, one `Span` per maximal run of pixels that satisfy the predicate. -/
def maskToSpanSet (mask : Mask) (p : Nat → Bool) : SpanSet :=
  ⟨scanRows p mask.x0 mask.y0 mask.rows 0⟩

/-- Embedding of the two-argument `maskToSpanSet` of `declareMaskToSpanSetFunction`:
the predicate is the `functor` of the lambda. -/
def declareMaskToSpanSetFunction (mask : Mask) (bitmask : Nat) : SpanSet :=
  let functor := fun (pixval : Nat) => (pixval &&& bitmask) == bitmask
  maskToSpanSet mask functor

/-- Modelled from the spec: `SpanSet::getArea`, the sum of the span widths. -/
def SpanSet.getArea (s : SpanSet) : Int :=
  (s.spans.map (fun sp => sp.x1 - sp.x0 + 1)).sum

/-! ## Properties (formatters/Utils.cc) -/

/-- Modelled from the spec: the types of the values a `daf::base::PropertySet`
holds that `Utils.cc` asks for; `other` stands for every further type. -/
inductive PropertyType where
  | bool
  | int
  | int64
  | double
  | string
  | other
deriving DecidableEq, Repr

/-- Modelled from the spec: one value of a property. -/
inductive PropertyValue where
  | bool (v : Bool)
  | int (v : Int)
  | int64 (v : Int)
  | double (v : F64)
  | string (v : String)
  | other
deriving DecidableEq, Repr

/-- Modelled from the spec: the `type_info` of a value. -/
def PropertyValue.type : PropertyValue → PropertyType
  | PropertyValue.bool _ => PropertyType.bool
  | PropertyValue.int _ => PropertyType.int
  | PropertyValue.int64 _ => PropertyType.int64
  | PropertyValue.double _ => PropertyType.double
  | PropertyValue.string _ => PropertyType.string
  | PropertyValue.other => PropertyType.other

/-- Modelled from the spec: a parameter of a `PropertySet`: its name (dotted
when it sits in a nested set) and its vector of values, which is never empty:
the values before the last one, and the last one. -/
structure Property where
  name : String
  earlier : List PropertyValue
  last : PropertyValue
deriving DecidableEq, Repr

/-- Modelled from the spec: `daf::base::PropertySet`, a library type from outside
the repository: the parameters, in the order in which `paramNames` lists them. -/
structure PropertySet where
  properties : List Property
deriving DecidableEq, Repr

namespace PropertySet

/-- Modelled from the spec: the lookup of a name. -/
def find (p : PropertySet) (name : String) : Option Property :=
  p.properties.find? (fun e => e.name == name)

/-- Modelled from the spec: `PropertySet::exists(name)`. -/
def exists_ (p : PropertySet) (name : String) : Bool := (p.find name).isSome

/-- Modelled from the spec: `PropertySet::isArray(name)`: the name has more than one value. -/
def isArray (p : PropertySet) (name : String) : Bool :=
  match p.find name with
  | some e => !e.earlier.isEmpty
  | none => false

/-- Modelled from the spec: `PropertySet::typeOf(name)`: the type of the last
value, `NotFoundError` for an unknown name. -/
def typeOf (p : PropertySet) (name : String) : Outcome PropertyType :=
  match p.find name with
  | some e => Outcome.ok e.last.type
  | none => Outcome.fails Failure.NotFoundError

/-- Modelled from the spec: `PropertySet::get<T>(name)`: the last value when it
has the type asked for, `TypeError` when it has another type, `NotFoundError`
for an unknown name. Here with the value as it is stored. -/
def get (p : PropertySet) (name : String) (type : PropertyType) : Outcome PropertyValue :=
  match p.find name with
  | some e => if e.last.type = type then Outcome.ok e.last else Outcome.fails Failure.TypeError
  | none => Outcome.fails Failure.NotFoundError

/-- Modelled from the spec: `PropertySet::getAsBool(name)`, which is `get<bool>(name)`. -/
def getAsBool (p : PropertySet) (name : String) : Outcome Bool :=
  match p.find name with
  | some e =>
    match e.last with
    | PropertyValue.bool v => Outcome.ok v
    | _ => Outcome.fails Failure.TypeError
  | none => Outcome.fails Failure.NotFoundError

/-- Modelled from the spec: `PropertySet::getAsInt(name)`: the last value of a
`bool` or `int` property converted to `int` (the `char` and `short` types it
also converts are not among the modelled types). -/
def getAsInt (p : PropertySet) (name : String) : Outcome Int :=
  match p.find name with
  | some e =>
    match e.last with
    | PropertyValue.bool v => Outcome.ok (if v then 1 else 0)
    | PropertyValue.int v => Outcome.ok v
    | _ => Outcome.fails Failure.TypeError
  | none => Outcome.fails Failure.NotFoundError

/-- Modelled from the spec: `PropertySet::getAsInt64(name)`: the last value of a
`bool`, `int` or `int64_t` property converted to `int64_t`. -/
def getAsInt64 (p : PropertySet) (name : String) : Outcome Int :=
  match p.find name with
  | some e =>
    match e.last with
    | PropertyValue.bool v => Outcome.ok (if v then 1 else 0)
    | PropertyValue.int v => Outcome.ok v
    | PropertyValue.int64 v => Outcome.ok v
    | _ => Outcome.fails Failure.TypeError
  | none => Outcome.fails Failure.NotFoundError

/-- Modelled from the spec: `PropertySet::paramNames(topLevelOnly)`: the names of
the parameters, without those of nested sets when `topLevelOnly` is set. -/
def paramNames (p : PropertySet) (topLevelOnly : Bool) : List String :=
  (p.properties.map (fun e => e.name)).filter (fun n => !topLevelOnly || !n.data.contains '.')

end PropertySet

/-- Embedding of `extractFpaExposureId`. The mask `0xfffffffe00000000LL` does not
fit `long long`, so it is an `unsigned long long` and the `&` is evaluated on the
value of `fpaExposureId` converted to that type. -/
def extractFpaExposureId (properties : Option PropertySet) : Outcome Int :=
  match properties with
  | none => Outcome.fails Failure.undefinedBehaviour
  | some properties =>
    if properties.isArray "fpaExposureId" then Outcome.fails Failure.RuntimeError
    else do
      let fpaExposureId ← properties.getAsInt64 "fpaExposureId"
      if fpaExposureId < 0 then Outcome.fails Failure.RangeError
      else if (fpaExposureId % ((2 ^ 64 : Nat) : Int)).toNat &&& 0xfffffffe00000000 ≠ 0 then
        Outcome.fails Failure.RangeError
      else pure fpaExposureId

/-- Embedding of `extractCcdId`. -/
def extractCcdId (properties : Option PropertySet) : Outcome Int :=
  match properties with
  | none => Outcome.fails Failure.undefinedBehaviour
  | some properties =>
    if properties.isArray "ccdId" then Outcome.fails Failure.RuntimeError
    else do
      let ccdId ← properties.getAsInt "ccdId"
      if ccdId < 0 then Outcome.fails Failure.RangeError
      else if ccdId > 255 then Outcome.fails Failure.RangeError
      else pure ccdId

/-- Embedding of `extractAmpId`. -/
def extractAmpId (properties : Option PropertySet) : Outcome Int :=
  match properties with
  | none => Outcome.fails Failure.undefinedBehaviour
  | some properties =>
    if properties.isArray "ampId" then Outcome.fails Failure.RuntimeError
    else do
      let ampId ← properties.getAsInt "ampId"
      if ampId < 0 then Outcome.fails Failure.RangeError
      else if ampId > 63 then Outcome.fails Failure.RangeError
      else do
        let ccdId ← extractCcdId (some properties)
        pure ((ccdId <<< (6 : Int)) + ampId)

/-- Embedding of `extractOptionalFlag`. -/
def extractOptionalFlag (properties : Option PropertySet) (name : String) : Outcome Bool :=
  match properties with
  | some p => if p.exists_ name then p.getAsBool name else Outcome.ok false
  | none => Outcome.ok false

/-- Position of the last occurrence of `c` in the text after position `i`, or `found`. -/
def rfindAux (c : Char) : List Char → Nat → Option Nat → Option Nat
  | [], _, found => found
  | x :: rest, i, found => rfindAux c rest (i + 1) (if x = c then some i else found)

/-- Behaviour of `std::string::rfind(char)` of the standard library: the position of the last
occurrence, `none` for `npos`. -/
def rfind (s : List Char) (c : Char) : Option Nat := rfindAux c s 0 none

/-- Behaviour of the format `%-Ns` of `boost::format` on a string: left-justified in
`width` columns. -/
def leftJustify (width : Nat) (s : List Char) : List Char :=
  s ++ List.replicate (width - s.length) ' '

/-- Behaviour of the format `%20d` of `boost::format` on an `int`: the decimal digits,
right-justified in 20 columns. -/
def format20d (v : Int) : List Char :=
  List.replicate (20 - (toString v).data.length) ' ' ++ (toString v).data

/-- Behaviour of the standard library: the `std::string` made from the C string `s.c_str()`:
the characters before the first NUL. -/
def cstr (s : List Char) : List Char := s.takeWhile (fun c => c ≠ Char.ofNat 0)

/-- The body of the loop of `formatFitsProperties` for the parameter name `i`: the
card `out`. The text of a `double` in the format `%20.15g` is a parameter; the
character 39 is the single quote of the format of a string. -/
def fitsCard (format20g : F64 → List Char) (prop : PropertySet) (i : String) :
    Outcome (List Char) := do
  let lastPeriod := rfind i.data '.'
  let name := match lastPeriod with
    | none => i.data
    | some pos => i.data.drop (pos + 1)
  let type ← prop.typeOf i
  let out : List Char := []
  let out :=
    if name.length > 8 then out ++ ("HIERARCH = ".data ++ name)
    else leftJustify 8 name ++ "= ".data
  let out ←
    if type = PropertyType.int then do
      match ← prop.get i PropertyType.int with
      | PropertyValue.int v => pure (out ++ format20d v)
      | _ => Outcome.fails Failure.TypeError
    else if type = PropertyType.double then do
      match ← prop.get i PropertyType.double with
      | PropertyValue.double v => pure (out ++ format20g v)
      | _ => Outcome.fails Failure.TypeError
    else if type = PropertyType.string then do
      match ← prop.get i PropertyType.string with
      | PropertyValue.string v =>
        pure (out ++ ([Char.ofNat 39] ++ leftJustify 67 v.data ++ [Char.ofNat 39, ' ']))
      | _ => Outcome.fails Failure.TypeError
    else pure out
  let len := out.length
  let out := if len < 80 then out ++ List.replicate (80 - len) ' ' else out.take 80
  pure out

/-- The loop of `formatFitsProperties` over the parameter names, on the text `sout`. -/
def formatFitsLoop (format20g : F64 → List Char) (prop : PropertySet) :
    List String → List Char → Outcome (List Char)
  | [], sout => Outcome.ok sout
  | i :: rest, sout => do
    let out ← fitsCard format20g prop i
    formatFitsLoop format20g prop rest (sout ++ out)

/-- Embedding of `formatFitsProperties`: the string returned is made from `sout.c_str()`. -/
def formatFitsProperties (format20g : F64 → List Char) (prop : Option PropertySet) :
    Outcome String :=
  match prop with
  | none => Outcome.fails Failure.undefinedBehaviour
  | some prop => do
    let paramNames := prop.paramNames false
    let sout ← formatFitsLoop format20g prop paramNames []
    pure (String.mk (cstr sout))

/-- Embedding of `countFitsHeaderCards`. -/
def countFitsHeaderCards (prop : Option PropertySet) : Outcome Int :=
  match prop with
  | none => Outcome.fails Failure.undefinedBehaviour
  | some prop => Outcome.ok ((prop.paramNames false).length : Int)

/-! ## Definitions used in the statements -/

/-- Whether the loop of `removeOrphanPeaks`, from the state that has kept `done`
and still has `rest` to visit, moves the iterator before `begin()`. -/
def Footprint.orphanFlag (spans : SpanSet) (done rest : List PeakRecord) (b : Bool) : Bool :=
  b || (done.isEmpty && match rest with
    | [] => false
    | p :: _ => !spans.contains ⟨p.ix, p.iy⟩)

/-- The footprint `split` builds for the component `c`, when `count` components result. -/
def Footprint.splitPart (f : Footprint) (count : Nat) (c : SpanSet) : Footprint :=
  { spans := c,
    peaks := { f.peaks with records :=
      if count > 1 then f.peaks.records.filter (fun p => c.contains ⟨p.ix, p.iy⟩)
      else f.peaks.records },
    region := f.region }

/-- The peak that `transform` adds for `peak`. -/
def Footprint.transformedPeak (transform : XYTransform) (peak : PeakRecord) : PeakRecord :=
  { ix := (transform.forwardTransform ⟨peak.fx.toF64, peak.fx.toF64⟩).x.toF32.toInt,
    iy := (transform.forwardTransform ⟨peak.fx.toF64, peak.fx.toF64⟩).y.toF32.toInt,
    fx := (transform.forwardTransform ⟨peak.fx.toF64, peak.fx.toF64⟩).x.toF32,
    fy := (transform.forwardTransform ⟨peak.fx.toF64, peak.fx.toF64⟩).y.toF32,
    peakValue := peak.peakValue }

/-- A span that lies within the rows and columns of a box. -/
def Span.within (box : Box2I) (sp : Span) : Prop :=
  box.minY ≤ sp.y ∧ sp.y ≤ box.maxY ∧ box.minX ≤ sp.x0 ∧ sp.x1 ≤ box.maxX

/-- The name that `formatFitsProperties` writes for the parameter `i`: the text
after the last period. -/
def fitsName (i : String) : List Char :=
  match rfind i.data '.' with
  | none => i.data
  | some pos => i.data.drop (pos + 1)

/-- The start of a card: the name in 8 columns and `= `, or `HIERARCH = ` and the name. -/
def fitsKeyword (name : List Char) : List Char :=
  if name.length > 8 then "HIERARCH = ".data ++ name else leftJustify 8 name ++ "= ".data

/-- The text that a card holds for a value: none for a type other than `int`,
`double` and `std::string`. -/
def fitsValue (format20g : F64 → List Char) : PropertyValue → List Char
  | PropertyValue.int v => format20d v
  | PropertyValue.double v => format20g v
  | PropertyValue.string v => [Char.ofNat 39] ++ leftJustify 67 v.data ++ [Char.ofNat 39, ' ']
  | _ => []

/-- The card that the loop of `formatFitsProperties` builds for the parameter `i`. -/
def fitsCardText (format20g : F64 → List Char) (prop : PropertySet) (i : String) : List Char :=
  match prop.find i with
  | some e =>
    ((fitsKeyword (fitsName i) ++ fitsValue format20g e.last) ++
      List.replicate (80 - (fitsKeyword (fitsName i) ++ fitsValue format20g e.last).length) ' ').take 80
  | none => []

/-! ## Concrete inputs -/

/-- A footprint of one pixel at (0, 0) whose only peak sits at (5, 5), outside the spans. -/
def splitExample : Footprint :=
  { spans := ⟨[⟨0, 0, 0⟩]⟩,
    peaks := ⟨PeakTable.makeMinimalSchema, [⟨5, 5, F32.ofInt 5, F32.ofInt 5, F32.ofInt 1⟩]⟩,
    region := ⟨0, 0, 9, 9⟩ }

/-- Two pixels at (0, 0) and (10, 10), with a peak on each and a third peak outside. -/
def twoSquares : Footprint :=
  { spans := ⟨[⟨0, 0, 0⟩, ⟨10, 10, 10⟩]⟩,
    peaks := ⟨PeakTable.makeMinimalSchema, [⟨0, 0, F32.ofInt 0, F32.ofInt 0, F32.ofInt 3⟩,
                     ⟨10, 10, F32.ofInt 10, F32.ofInt 10, F32.ofInt 2⟩,
                     ⟨4, 4, F32.ofInt 4, F32.ofInt 4, F32.ofInt 1⟩]⟩,
    region := ⟨0, 0, 19, 19⟩ }

/-- The two components of `twoSquares`. -/
def twoSquaresSplit (_ : SpanSet) : List SpanSet := [⟨[⟨0, 0, 0⟩]⟩, ⟨[⟨10, 10, 10⟩]⟩]

/-- The float 0.5f. -/
def F32.half : F32 := ⟨((2 ^ 148 : Nat) : Int)⟩

/-- A footprint of one pixel at (0, 0) whose only peak has `ix = INT_MAX = 2147483647`. -/
def shiftOverflowExample : Footprint :=
  { spans := ⟨[⟨0, 0, 0⟩]⟩,
    peaks := ⟨PeakTable.makeMinimalSchema,
      [⟨2147483647, 0, F32.zero, F32.zero, F32.ofInt 1⟩]⟩,
    region := ⟨0, 0, 9, 9⟩ }

/-- A footprint of one pixel with one peak at the float position (0.5, 0.5), value 1. -/
def shiftExample : Footprint :=
  { spans := ⟨[⟨0, 0, 0⟩]⟩,
    peaks := ⟨PeakTable.makeMinimalSchema, [⟨0, 0, F32.half, F32.half, F32.ofInt 1⟩]⟩,
    region := ⟨0, 0, 9, 9⟩ }

/-- Two footprints that differ in the float position of their peak only. -/
def eqExampleA : Footprint :=
  { spans := ⟨[⟨0, 0, 0⟩]⟩,
    peaks := ⟨PeakTable.makeMinimalSchema, [⟨0, 0, F32.half, F32.zero, F32.ofInt 1⟩]⟩,
    region := ⟨0, 0, 9, 9⟩ }

/-- See `eqExampleA`. -/
def eqExampleB : Footprint :=
  { spans := ⟨[⟨0, 0, 0⟩]⟩,
    peaks := ⟨PeakTable.makeMinimalSchema, [⟨0, 0, F32.zero, F32.zero, F32.ofInt 1⟩]⟩,
    region := ⟨0, 0, 9, 9⟩ }

/-- The identity mapping of points. -/
def identityTransform : XYTransform := ⟨fun p => p⟩

/-- A footprint with one peak at the float position (1.0, 2.0), value 5. -/
def transformExample : Footprint :=
  { spans := ⟨[⟨2, 1, 1⟩]⟩,
    peaks := ⟨PeakTable.makeMinimalSchema, [⟨1, 2, F32.ofInt 1, F32.ofInt 2, F32.ofInt 5⟩]⟩,
    region := ⟨0, 0, 9, 9⟩ }

/-- A catalog with two peaks of equal value, the second with the lower `ix`, and a third, brighter. -/
def sortExample : Footprint :=
  { spans := ⟨[⟨0, 0, 9⟩]⟩,
    peaks := ⟨PeakTable.makeMinimalSchema,
      [⟨5, 0, F32.ofInt 5, F32.ofInt 0, F32.ofInt 1⟩,
       ⟨2, 0, F32.ofInt 2, F32.ofInt 0, F32.ofInt 1⟩,
       ⟨7, 0, F32.ofInt 7, F32.ofInt 0, F32.ofInt 3⟩]⟩,
    region := ⟨0, 0, 9, 9⟩ }

/-- A record of four elements, and the key of the two-element array at offset 1. -/
def arrayExample : ArrayRecord Int := ⟨[10, 20, 30, 40], []⟩

/-- See `arrayExample`. -/
def arrayExampleKey : ArrayKey := ⟨1, 2⟩

/-- The float 1.5f. -/
def F32.oneAndHalf : F32 := ⟨3 * ((2 ^ 148 : Nat) : Int)⟩

/-- The float 2.5f. -/
def F32.twoAndHalf : F32 := ⟨5 * ((2 ^ 148 : Nat) : Int)⟩

/-- A peak catalog of the old form: float fields `x`, `y`, `value`, one record (1.5, 2.5, 10). -/
def legacyPeakCat : BaseCatalog :=
  ⟨⟨["x", "y", "value"]⟩,
    [⟨[FieldValue.float F32.oneAndHalf, FieldValue.float F32.twoAndHalf,
        FieldValue.float (F32.ofInt 10)]⟩]⟩

/-- The footprint that `readSpanSet` hands to `readPeaks`: spans, no peaks. -/
def loadedExample : Footprint := Footprint.mk2 ⟨[⟨0, 0, 3⟩, ⟨1, 0, 3⟩, ⟨2, 0, 3⟩]⟩ Box2I.empty

/-- The 3x3 mask that is zero but for the pixel (1, 1), which is 1. -/
def maskExample : Mask := ⟨0, 0, [[0, 0, 0], [0, 1, 0], [0, 0, 0]]⟩

/-- Two equal peaks at (0, 0) with value 1. -/
def eqDuplicateA : Footprint :=
  { spans := ⟨[⟨0, 0, 1⟩]⟩,
    peaks := ⟨PeakTable.makeMinimalSchema, [⟨0, 0, F32.ofInt 0, F32.ofInt 0, F32.ofInt 1⟩,
                     ⟨0, 0, F32.ofInt 0, F32.ofInt 0, F32.ofInt 1⟩]⟩,
    region := ⟨0, 0, 9, 9⟩ }

/-- The peak of `eqDuplicateA` once, and a second peak at (1, 0) with value 2. -/
def eqDuplicateB : Footprint :=
  { spans := ⟨[⟨0, 0, 1⟩]⟩,
    peaks := ⟨PeakTable.makeMinimalSchema, [⟨0, 0, F32.ofInt 0, F32.ofInt 0, F32.ofInt 1⟩,
                     ⟨1, 0, F32.ofInt 1, F32.ofInt 0, F32.ofInt 2⟩]⟩,
    region := ⟨0, 0, 9, 9⟩ }

/-- A set with `ampId` = 3 and `ccdId` = 2. -/
def ampExample : PropertySet :=
  ⟨[⟨"ampId", [], PropertyValue.int 3⟩, ⟨"ccdId", [], PropertyValue.int 2⟩]⟩

/-- A set with `fpaExposureId` = 2^33 - 1. -/
def fpaExample : PropertySet :=
  ⟨[⟨"fpaExposureId", [], PropertyValue.int64 8589934591⟩]⟩

/-- A set whose property `flag` has the two values false, true. -/
def flagArrayExample : PropertySet :=
  ⟨[⟨"flag", [PropertyValue.bool false], PropertyValue.bool true⟩]⟩

/-- A set whose property `flag` is the `int` 1. -/
def flagIntExample : PropertySet := ⟨[⟨"flag", [], PropertyValue.int 1⟩]⟩

/-- Three parameters: an `int` in a nested set, a string under a long name, a `bool`. -/
def fitsExample : PropertySet :=
  ⟨[⟨"a.NAXIS", [], PropertyValue.int 2⟩, ⟨"LONGKEYWORD", [], PropertyValue.string "x"⟩,
    ⟨"B", [], PropertyValue.bool true⟩]⟩

/-- One string parameter `A` whose value is `x`, a NUL and `y`. -/
def fitsNulExample : PropertySet :=
  ⟨[⟨"A", [], PropertyValue.string (String.mk ['x', Char.ofNat 0, 'y'])⟩]⟩

/-! ## Lemmas on the arithmetic and on the SpanSet operations -/

theorem Binary32.roundInt_neg (k : Int) : Binary32.roundInt (-k) = -Binary32.roundInt k := by
  unfold Binary32.roundInt
  rcases lt_trichotomy k 0 with h | h | h
  · have h1 : ¬ (-k < 0) := by omega
    simp [h, h1]
  · subst h
    have h0 : Binary32.roundNat 0 = 0 := by decide
    simp [h0]
  · have h1 : ¬ (k < 0) := by omega
    have h2 : -k < 0 := by omega
    simp [h1, h2]

theorem F32.add_ofInt_cancel (x : F32) (d : Int) (hx : x.Valid)
    (hd : (F32.ofInt d).k = d * (F32.one : Nat))
    (hs : (x.add (F32.ofInt d)).k = x.k + d * (F32.one : Nat)) :
    (x.add (F32.ofInt d)).add (F32.ofInt (-d)) = x := by
  have hneg : (F32.ofInt (-d)).k = -(d * (F32.one : Nat)) := by
    have hk : (F32.ofInt (-d)).k = Binary32.roundInt (-(d * (F32.one : Nat))) := by
      simp [F32.ofInt]
    rw [hk, Binary32.roundInt_neg]
    have h2 : Binary32.roundInt (d * (F32.one : Nat)) = d * (F32.one : Nat) := by
      simpa [F32.ofInt] using hd
    rw [h2]
  cases x with
  | mk k =>
    simp only [F32.add, F32.mk.injEq] at hs ⊢
    rw [hs, hneg]
    have hk : k + d * (F32.one : Nat) + -(d * (F32.one : Nat)) = k := by ring
    rw [hk]
    exact hx

theorem SpanSet.shiftedBy_shiftedBy_neg (s : SpanSet) (dx dy : Int) :
    (s.shiftedBy dx dy).shiftedBy (-dx) (-dy) = s := by
  cases s with
  | mk spans =>
    simp only [SpanSet.shiftedBy, List.map_map, SpanSet.mk.injEq]
    conv_rhs => rw [← List.map_id spans]
    apply List.map_congr_left
    intro sp _
    cases sp
    simp

theorem Footprint.eq_self (f : Footprint) : Footprint.eq f f = true := by
  have hall : (f.peaks.records.all (fun selfPeak =>
      f.peaks.records.any (fun otherPeak =>
        decide (selfPeak.getI = otherPeak.getI) &&
        decide (selfPeak.getF = otherPeak.getF) &&
        decide (selfPeak.peakValue = otherPeak.peakValue)))) = true := by
    rw [List.all_eq_true]
    intro p hp
    rw [List.any_eq_true]
    exact ⟨p, hp, by simp⟩
  simp [Footprint.eq, hall, SpanSet.eq]

theorem Footprint.removeOrphanPeaksLoop_eq (spans : SpanSet) :
    ∀ (rest done : List PeakRecord) (fuel : Nat) (b : Bool), rest.length < fuel →
      Footprint.removeOrphanPeaksLoop spans fuel ⟨done ++ rest, done.length, b⟩ =
        some ⟨done ++ rest.filter (fun p => spans.contains ⟨p.ix, p.iy⟩),
          ((done ++ rest.filter (fun p => spans.contains ⟨p.ix, p.iy⟩)).length : Nat),
          Footprint.orphanFlag spans done rest b⟩ := by
  intro rest
  induction rest with
  | nil =>
    intro done fuel b hfuel
    cases fuel with
    | zero => simp at hfuel
    | succ fuel =>
      simp [Footprint.removeOrphanPeaksLoop, Footprint.orphanFlag]
  | cons p rest ih =>
    intro done fuel b hfuel
    cases fuel with
    | zero => simp at hfuel
    | succ fuel =>
      have hfuel2 : rest.length < fuel := by simpa using hfuel
      have hne : ¬ ((done.length : Int) = ((done ++ p :: rest).length : Nat)) := by
        simp only [List.length_append, List.length_cons]; omega
      have hget : (done ++ p :: rest)[done.length]? = some p := by
        rw [List.getElem?_append_right (le_refl _)]
        simp
      have hnn : (0 : Int) ≤ (done.length : Int) := by omega
      unfold Footprint.removeOrphanPeaksLoop
      simp only [hne, if_false, hnn, if_true, Int.toNat_ofNat, hget]
      by_cases hk : spans.contains ⟨p.ix, p.iy⟩ = true
      · have h1 := ih (done ++ [p]) fuel b hfuel2
        simp only [List.append_assoc, List.singleton_append, List.length_append,
          List.length_singleton, Nat.cast_add, Nat.cast_one] at h1
        simp only [hk, Bool.not_true, Bool.false_eq_true, if_false, h1, List.filter_cons_of_pos,
          Option.some.injEq, OrphanLoop.mk.injEq, true_and]
        refine ⟨by simp, ?_⟩
        simp [Footprint.orphanFlag, hk]
      · have hk2 : spans.contains ⟨p.ix, p.iy⟩ = false := by simpa using hk
        have her : (done ++ p :: rest).eraseIdx done.length = done ++ rest := by
          rw [List.eraseIdx_append_of_length_le (le_refl _)]
          simp
        have h1 := ih done fuel (b || decide ((done.length : Int) - 1 < 0)) hfuel2
        simp only [hk2, Bool.not_false, if_true, her, Int.sub_add_cancel, h1,
          Option.some.injEq, OrphanLoop.mk.injEq]
        refine ⟨by simp [hk2], by simp [hk2], ?_⟩
        cases done with
        | nil => simp [Footprint.orphanFlag, hk2]
        | cons d ds =>
          have : ¬ ((↑(ds.length) : Int) + 1 - 1 < 0) := by omega
          simp [Footprint.orphanFlag, hk2, this]

theorem Footprint.removeOrphanPeaks_eq (f : Footprint) :
    f.removeOrphanPeaks = some { f with peaks := { f.peaks with
      records := f.peaks.records.filter (fun p => f.spans.contains ⟨p.ix, p.iy⟩) } } := by
  have h := Footprint.removeOrphanPeaksLoop_eq f.spans f.peaks.records [] 
    (f.peaks.records.length + 1) false (Nat.lt_succ_self _)
  simp only [List.nil_append, List.length_nil, Nat.cast_zero] at h
  simp [Footprint.removeOrphanPeaks, h]

theorem Footprint.clipTo_eq (f : Footprint) (box : Box2I) :
    f.clipTo box = some { f with spans := f.spans.clippedTo box, peaks := { f.peaks with
      records := f.peaks.records.filter
        (fun p => (f.spans.clippedTo box).contains ⟨p.ix, p.iy⟩) } } := by
  simp [Footprint.clipTo, Footprint.removeOrphanPeaks_eq, Footprint.setSpans]

theorem Footprint.splitLoop_eq (f : Footprint) (count : Nat) (comps : List SpanSet) :
    Footprint.splitLoop f count comps = some (comps.map (Footprint.splitPart f count)) := by
  induction comps with
  | nil => rfl
  | cons c rest ih =>
    unfold Footprint.splitLoop
    by_cases hc : count > 1
    · simp [hc, ih, Footprint.removeOrphanPeaks_eq, Footprint.splitPart, Footprint.mk3]
    · simp [hc, ih, Footprint.splitPart, Footprint.mk3]

theorem Footprint.split_eq (spanSetSplit : SpanSet → List SpanSet) (f : Footprint) :
    f.split spanSetSplit = some ((spanSetSplit f.spans).map
      (Footprint.splitPart f (spanSetSplit f.spans).length)) := by
  simp [Footprint.split, Footprint.splitLoop_eq]

theorem F32.toF64_injective (x y : F32) (h : x.toF64 = y.toF64) : x = y := by
  cases x with
  | mk a =>
    cases y with
    | mk b =>
      simp only [F32.toF64, F64.mk.injEq] at h
      have hpos : ((2 ^ 925 : Nat) : Int) ≠ 0 := by positivity
      have := mul_right_cancel₀ hpos h
      simp [this]

theorem Footprint.eq_iff (a b : Footprint) :
    Footprint.eq a b = true ↔
      a.peaks.size = b.peaks.size ∧
      (∀ p ∈ a.peaks.records, ∃ q ∈ b.peaks.records,
        p.ix = q.ix ∧ p.iy = q.iy ∧ p.fx = q.fx ∧ p.fy = q.fy ∧ p.peakValue = q.peakValue) ∧
      a.spans = b.spans := by
  have hmatch : ∀ p q : PeakRecord,
      (decide (p.getI = q.getI) && decide (p.getF = q.getF) &&
        decide (p.peakValue = q.peakValue)) = true ↔
      (p.ix = q.ix ∧ p.iy = q.iy ∧ p.fx = q.fx ∧ p.fy = q.fy ∧ p.peakValue = q.peakValue) := by
    intro p q
    simp only [PeakRecord.getI, PeakRecord.getF, Bool.and_eq_true, decide_eq_true_eq,
      Point2I.mk.injEq, Point2D.mk.injEq]
    constructor
    · rintro ⟨⟨⟨h1, h2⟩, h3, h4⟩, h5⟩
      exact ⟨h1, h2, F32.toF64_injective _ _ h3, F32.toF64_injective _ _ h4, h5⟩
    · rintro ⟨h1, h2, h3, h4, h5⟩
      exact ⟨⟨⟨h1, h2⟩, by rw [h3], by rw [h4]⟩, h5⟩
  have hall : (a.peaks.records.all (fun selfPeak =>
      b.peaks.records.any (fun otherPeak =>
        decide (selfPeak.getI = otherPeak.getI) &&
        decide (selfPeak.getF = otherPeak.getF) &&
        decide (selfPeak.peakValue = otherPeak.peakValue)))) = true ↔
      (∀ p ∈ a.peaks.records, ∃ q ∈ b.peaks.records,
        p.ix = q.ix ∧ p.iy = q.iy ∧ p.fx = q.fx ∧ p.fy = q.fy ∧ p.peakValue = q.peakValue) := by
    rw [List.all_eq_true]
    constructor
    · intro h p hp
      obtain ⟨q, hq, hm⟩ := List.any_eq_true.mp (h p hp)
      exact ⟨q, hq, (hmatch p q).mp hm⟩
    · intro h p hp
      obtain ⟨q, hq, hm⟩ := h p hp
      exact List.any_eq_true.mpr ⟨q, hq, (hmatch p q).mpr hm⟩
  unfold Footprint.eq
  by_cases hs : a.peaks.size = b.peaks.size
  · by_cases hp : (a.peaks.records.all (fun selfPeak =>
        b.peaks.records.any (fun otherPeak =>
          decide (selfPeak.getI = otherPeak.getI) &&
          decide (selfPeak.getF = otherPeak.getF) &&
          decide (selfPeak.peakValue = otherPeak.peakValue)))) = true
    · have hp2 := hall.mp hp
      simp only [hs, ne_eq, not_true_eq_false, if_false, hp, Bool.not_true, Bool.false_eq_true,
        SpanSet.eq, decide_eq_true_eq, true_and]
      constructor
      · intro h
        have hsp : a.spans = b.spans := by
          cases hsa : a.spans with
          | mk sa =>
            cases hsb : b.spans with
            | mk sb =>
              rw [hsa, hsb] at h
              simpa using h
        exact ⟨hp2, hsp⟩
      · intro h
        rw [h.2]
    · have hp2 : ¬ _ := fun h => hp (hall.mpr h)
      simp only [hs, ne_eq, not_true_eq_false, if_false, hp, Bool.not_false, if_true,
        Bool.false_eq_true, false_iff, true_and, not_and]
      intro h
      exact absurd h hp2
  · simp [hs]

theorem Footprint.transformPeaks_eq (transform : XYTransform) (peaks : List PeakRecord) :
    ∀ nf : Footprint, Footprint.transformPeaks transform nf peaks =
      { nf with peaks := { nf.peaks with
          records := nf.peaks.records ++ peaks.map (Footprint.transformedPeak transform) } } := by
  induction peaks with
  | nil => intro nf; simp [Footprint.transformPeaks]
  | cons p rest ih =>
    intro nf
    simp [Footprint.transformPeaks, ih, Footprint.addPeak, Footprint.transformedPeak,
      PeakRecord.new]

theorem insertSorted_perm {α : Type} (cmp : α → α → Bool) (a : α) (l : List α) :
    (insertSorted cmp a l).Perm (a :: l) := by
  induction l with
  | nil => simp [insertSorted]
  | cons b l ih =>
    unfold insertSorted
    split
    · exact (List.Perm.cons b ih).trans (List.Perm.swap a b l)
    · exact List.Perm.refl _

theorem stableSort_perm {α : Type} (cmp : α → α → Bool) (l : List α) :
    (stableSort cmp l).Perm l := by
  induction l with
  | nil => simp [stableSort]
  | cons a l ih =>
    unfold stableSort
    exact (insertSorted_perm cmp a _).trans (List.Perm.cons a ih)

theorem insertSorted_sorted {α : Type} (key : α → Int) (a : α) (l : List α)
    (h : l.Pairwise (fun x y => key y ≤ key x)) :
    (insertSorted (fun x y => decide (key y < key x)) a l).Pairwise
      (fun x y => key y ≤ key x) := by
  induction l with
  | nil => simp [insertSorted]
  | cons b l ih =>
    unfold insertSorted
    rw [List.pairwise_cons] at h
    by_cases hc : key a < key b
    · simp only [hc, decide_True, if_true]
      rw [List.pairwise_cons]
      refine ⟨?_, ih h.2⟩
      intro y hy
      have hy2 := (insertSorted_perm (fun x y => decide (key y < key x)) a l).mem_iff.mp hy
      rcases List.mem_cons.mp hy2 with rfl | hyl
      · omega
      · exact h.1 y hyl
    · simp only [hc, decide_False, Bool.false_eq_true, if_false]
      rw [List.pairwise_cons, List.pairwise_cons]
      refine ⟨?_, h.1, h.2⟩
      intro y hy
      rcases List.mem_cons.mp hy with rfl | hyl
      · omega
      · have := h.1 y hyl
        omega

theorem stableSort_sorted {α : Type} (key : α → Int) (l : List α) :
    (stableSort (fun x y => decide (key y < key x)) l).Pairwise
      (fun x y => key y ≤ key x) := by
  induction l with
  | nil => simp [stableSort]
  | cons a l ih =>
    unfold stableSort
    exact insertSorted_sorted key a _ ih

theorem SpanSet.mergeSpans_within (box : Box2I) (rest : List Span) :
    ∀ cur : Span, cur.within box → (∀ s ∈ rest, s.within box) →
      ∀ s ∈ SpanSet.mergeSpans cur rest, s.within box := by
  induction rest with
  | nil =>
    intro cur hcur _ s hs
    simp only [SpanSet.mergeSpans, List.mem_singleton] at hs
    rw [hs]; exact hcur
  | cons r rest ih =>
    intro cur hcur hrest s hs
    have hr : r.within box := hrest r (List.mem_cons_self _ _)
    have hrest2 : ∀ s ∈ rest, s.within box := fun s hs => hrest s (List.mem_cons_of_mem _ hs)
    unfold SpanSet.mergeSpans at hs
    split at hs
    · refine ih _ ?_ hrest2 s hs
      unfold Span.within at hcur hr ⊢
      simp only
      refine ⟨hcur.1, hcur.2.1, hcur.2.2.1, ?_⟩
      exact max_le hcur.2.2.2 hr.2.2.2
    · rcases List.mem_cons.mp hs with rfl | hs2
      · exact hcur
      · exact ih r hr hrest2 s hs2

theorem SpanSet.normalize_within (box : Box2I) (l : List Span)
    (h : ∀ s ∈ l, s.within box) : ∀ s ∈ SpanSet.normalize l, s.within box := by
  have hsorted : ∀ s ∈ stableSort SpanSet.spanBefore l, s.within box :=
    fun s hs => h s ((stableSort_perm _ l).mem_iff.mp hs)
  unfold SpanSet.normalize
  cases hl : stableSort SpanSet.spanBefore l with
  | nil => simp
  | cons a rest =>
    rw [hl] at hsorted
    exact SpanSet.mergeSpans_within box rest a (hsorted a (List.mem_cons_self _ _))
      (fun s hs => hsorted s (List.mem_cons_of_mem _ hs))

theorem SpanSet.clippedTo_within (s : SpanSet) (box : Box2I) (pt : Point2I)
    (h : (s.clippedTo box).contains pt = true) : box.contains pt = true := by
  have hall : ∀ sp ∈ (s.clippedTo box).spans, sp.within box := by
    apply SpanSet.normalize_within
    intro sp hsp
    obtain ⟨a, _, ha⟩ := List.mem_filterMap.mp hsp
    unfold SpanSet.clipSpan at ha
    split at ha
    · rename_i hc
      simp only [Option.some.injEq] at ha
      subst ha
      unfold Span.within
      exact ⟨hc.1, hc.2.1, le_max_left _ _, min_le_left _ _⟩
    · simp at ha
  obtain ⟨sp, hsp, hc⟩ := List.any_eq_true.mp h
  have hw := hall sp hsp
  unfold Span.within at hw
  simp only [Span.contains, Bool.and_eq_true, decide_eq_true_eq] at hc
  simp only [Box2I.contains, Bool.and_eq_true, decide_eq_true_eq]
  omega

theorem CInt.wrap_of_inRange (v : Int) (h : CInt.InRange v) : CInt.wrap v = v := by
  unfold CInt.InRange at h
  unfold CInt.wrap
  omega

theorem CInt.wrap_inRange (v : Int) : CInt.InRange (CInt.wrap v) := by
  unfold CInt.InRange CInt.wrap
  omega

theorem CInt.wrap_add_neg (v d : Int) (h : CInt.InRange v) :
    CInt.wrap (CInt.wrap (v + d) + -d) = v := by
  unfold CInt.InRange at h
  unfold CInt.wrap
  omega

theorem F32.trunc_spec (x : F32) :
    x.trunc.natAbs = x.k.natAbs / F32.one ∧ (0 ≤ x.k → 0 ≤ x.trunc) ∧ (x.k ≤ 0 → x.trunc ≤ 0) := by
  refine ⟨?_, ?_, ?_⟩
  · simp only [F32.trunc, Int.natAbs_tdiv, Int.natAbs_ofNat]
    rfl
  · intro h
    exact Int.tdiv_nonneg h (Int.ofNat_nonneg _)
  · intro h
    have h2 : (0 : Int) ≤ -x.k := by omega
    have h3 := Int.tdiv_nonneg h2 (Int.ofNat_nonneg F32.one)
    rw [Int.neg_tdiv] at h3
    unfold F32.trunc
    omega

theorem F32.toInt_of_inRange (x : F32) (h : CInt.InRange x.trunc) : x.toInt = x.trunc := by
  simp [F32.toInt, h]

theorem F32.toInt_of_not_inRange (x : F32) (h : ¬ CInt.InRange x.trunc) :
    x.toInt = -2147483648 := by
  simp [F32.toInt, h, CInt.min]

namespace Binary32

theorem ilog2Aux_spec : ∀ (fuel n : Nat), 1 ≤ n → n ≤ fuel →
    2 ^ ilog2Aux fuel n ≤ n ∧ n < 2 ^ (ilog2Aux fuel n + 1) := by
  intro fuel
  induction fuel with
  | zero => intro n h1 h2; omega
  | succ fuel ih =>
    intro n h1 h2
    unfold ilog2Aux
    by_cases h : n < 2
    · simp only [h, if_true]
      have : n = 1 := by omega
      subst this
      simp
    · simp only [h, if_false]
      have hn : 1 ≤ n / 2 := by omega
      have hf : n / 2 ≤ fuel := by omega
      obtain ⟨a, b⟩ := ih (n / 2) hn hf
      rw [pow_succ, pow_succ]
      rw [pow_succ] at b
      constructor <;> omega

theorem ilog2_spec (n : Nat) (h : 1 ≤ n) : 2 ^ ilog2 n ≤ n ∧ n < 2 ^ (ilog2 n + 1) :=
  ilog2Aux_spec n n h (le_refl n)

theorem ilog2_unique (n e : Nat) (h1 : 2 ^ e ≤ n) (h2 : n < 2 ^ (e + 1)) : ilog2 n = e := by
  have hn : 1 ≤ n := le_trans (Nat.one_le_two_pow) h1
  obtain ⟨a, b⟩ := ilog2_spec n hn
  have c1 : 2 ^ e < 2 ^ (ilog2 n + 1) := lt_of_le_of_lt h1 b
  have c2 : 2 ^ ilog2 n < 2 ^ (e + 1) := lt_of_le_of_lt a h2
  have d1 := (Nat.pow_lt_pow_iff_right (by norm_num : 1 < 2)).mp c1
  have d2 := (Nat.pow_lt_pow_iff_right (by norm_num : 1 < 2)).mp c2
  omega

theorem rne_bounds (n s : Nat) : n / 2 ^ s ≤ rne n s ∧ rne n s ≤ n / 2 ^ s + 1 := by
  unfold rne
  simp only
  split <;> constructor <;> omega

theorem rne_exact (m s : Nat) : rne (m * 2 ^ s) s = m := by
  have hpos : 0 < 2 ^ s := Nat.two_pow_pos s
  unfold rne
  simp only [Nat.mul_mod_left, Nat.mul_div_cancel _ hpos]
  have : ¬ (2 ^ s < 2 * 0 ∨ 2 * 0 = 2 ^ s ∧ m % 2 = 1) := by omega
  simp only [this, if_false]

theorem roundNat_small (n : Nat) (h : n < 2 ^ 24) : roundNat n = n := by
  unfold roundNat roundScaled
  have h2 : n < 2 ^ (24 + 0) := by simpa using h
  simp only [h2, if_true]
  have := rne_exact n 0
  simpa using this

theorem roundNat_normal (m u : Nat) (h1 : 2 ^ 23 ≤ m) (h2 : m < 2 ^ 24) :
    roundNat (m * 2 ^ u) = m * 2 ^ u := by
  cases u with
  | zero => simpa using roundNat_small m h2
  | succ u =>
    have hlog : ilog2 (m * 2 ^ (u + 1)) = 23 + (u + 1) := by
      apply ilog2_unique
      · rw [pow_add 2 23 (u + 1)]; exact Nat.mul_le_mul_right _ h1
      · have : 23 + (u + 1) + 1 = 24 + (u + 1) := by omega
        rw [this, pow_add 2 24 (u + 1)]
        exact Nat.mul_lt_mul_of_pos_right h2 (Nat.two_pow_pos _)
    have hbig : ¬ (m * 2 ^ (u + 1) < 2 ^ (24 + 0)) := by
      have : 2 ^ 23 * 2 ^ (u + 1) ≤ m * 2 ^ (u + 1) := Nat.mul_le_mul_right _ h1
      have h3 : 2 ^ 24 ≤ 2 ^ 23 * 2 ^ (u + 1) := by
        rw [← pow_add]
        exact Nat.pow_le_pow_right (by norm_num) (by omega)
      simp only [Nat.add_zero, not_lt]
      omega
    unfold roundNat roundScaled
    simp only [hbig, if_false, hlog]
    have hs : 23 + (u + 1) - 23 = u + 1 := by omega
    simp only [hs, Nat.sub_zero, rne_exact]

theorem roundNat_pow (u : Nat) : roundNat (2 ^ 24 * 2 ^ u) = 2 ^ 24 * 2 ^ u := by
  have h : 2 ^ 24 * 2 ^ u = 2 ^ 23 * 2 ^ (u + 1) := by
    rw [← pow_add, ← pow_add]
    congr 1
    omega
  rw [h]
  exact roundNat_normal (2 ^ 23) (u + 1) (le_refl _) (by norm_num)

theorem roundScaled_fixed (n t : Nat) : roundNat (roundScaled n t) = roundScaled n t := by
  unfold roundScaled
  by_cases h : n < 2 ^ (24 + t)
  · simp only [h, if_true]
    have hq : n / 2 ^ t < 2 ^ 24 := by
      rw [Nat.div_lt_iff_lt_mul (Nat.two_pow_pos t), ← pow_add]
      exact h
    have hb := (rne_bounds n t).2
    by_cases hr : rne n t < 2 ^ 24
    · exact roundNat_small _ hr
    · have : rne n t = 2 ^ 24 * 2 ^ 0 := by simp; omega
      rw [this]
      exact roundNat_pow 0
  · simp only [h, if_false]
    have hge : 2 ^ (24 + t) ≤ n := by omega
    have hn : 1 ≤ n := le_trans Nat.one_le_two_pow hge
    obtain ⟨a, b⟩ := ilog2_spec n hn
    have he : 24 + t ≤ ilog2 n := by
      have c : 2 ^ (24 + t) < 2 ^ (ilog2 n + 1) := lt_of_le_of_lt hge b
      have := (Nat.pow_lt_pow_iff_right (by norm_num : 1 < 2)).mp c
      omega
    have hs : ilog2 n = (ilog2 n - 23) + 23 := by omega
    have hq1 : 2 ^ 23 ≤ n / 2 ^ (ilog2 n - 23) := by
      rw [Nat.le_div_iff_mul_le (Nat.two_pow_pos _), ← pow_add]
      have : 23 + (ilog2 n - 23) = ilog2 n := by omega
      rw [this]; exact a
    have hq2 : n / 2 ^ (ilog2 n - 23) < 2 ^ 24 := by
      rw [Nat.div_lt_iff_lt_mul (Nat.two_pow_pos _), ← pow_add]
      have : 24 + (ilog2 n - 23) = ilog2 n + 1 := by omega
      rw [this]; exact b
    obtain ⟨b1, b2⟩ := rne_bounds n (ilog2 n - 23)
    by_cases hr : rne n (ilog2 n - 23) < 2 ^ 24
    · exact roundNat_normal _ _ (le_trans hq1 b1) hr
    · have : rne n (ilog2 n - 23) = 2 ^ 24 := by omega
      rw [this]
      exact roundNat_pow _

theorem roundNat_fixed (n : Nat) : roundNat (roundNat n) = roundNat n :=
  roundScaled_fixed n 0

theorem roundNat_eq_zero (n : Nat) (h : roundNat n = 0) : n = 0 := by
  by_contra hn
  unfold roundNat roundScaled at h
  by_cases hs : n < 2 ^ (24 + 0)
  · simp only [hs, if_true] at h
    have := rne_exact n 0
    simp only [pow_zero, mul_one] at this
    omega
  · simp only [hs, if_false] at h
    have hge : 2 ^ 24 ≤ n := by simpa using hs
    have hn1 : 1 ≤ n := by omega
    obtain ⟨a, b⟩ := ilog2_spec n hn1
    have hq1 : 1 ≤ n / 2 ^ (ilog2 n - 23) := by
      rw [Nat.le_div_iff_mul_le (Nat.two_pow_pos _), one_mul]
      exact le_trans (Nat.pow_le_pow_right (by norm_num) (Nat.sub_le _ _)) a
    have b1 := (rne_bounds n (ilog2 n - 23)).1
    rcases Nat.mul_eq_zero.mp h with h0 | h0
    · omega
    · have := Nat.two_pow_pos (ilog2 n - 23 - 0)
      omega

theorem roundInt_natAbs (n : Nat) (neg : Bool) :
    roundInt (if neg then -((roundNat n : Nat) : Int) else ((roundNat n : Nat) : Int)) =
      (if neg then -((roundNat n : Nat) : Int) else ((roundNat n : Nat) : Int)) := by
  cases neg with
  | false =>
    simp only [Bool.false_eq_true, if_false]
    unfold roundInt
    have : ¬ (((roundNat n : Nat) : Int) < 0) := by omega
    simp only [this, if_false, Int.natAbs_ofNat, roundNat_fixed]
  | true =>
    simp only [if_true]
    rw [roundInt_neg]
    unfold roundInt
    have : ¬ (((roundNat n : Nat) : Int) < 0) := by omega
    simp only [this, if_false, Int.natAbs_ofNat, roundNat_fixed]

theorem roundInt_fixed (k : Int) : roundInt (roundInt k) = roundInt k := by
  have h := roundInt_natAbs k.natAbs (decide (k < 0))
  unfold roundInt
  unfold roundInt at h
  by_cases hk : k < 0
  · simp only [hk, decide_True, if_true] at h ⊢
    exact h
  · simp only [hk, decide_False, Bool.false_eq_true, if_false] at h ⊢
    exact h

end Binary32

theorem F32.ofInt_valid (i : Int) : (F32.ofInt i).Valid :=
  Binary32.roundInt_fixed _

theorem F32.add_valid (x y : F32) : (x.add y).Valid :=
  Binary32.roundInt_fixed _

theorem F64.toF32_valid (d : F64) : d.toF32.Valid := by
  unfold F64.toF32 F32.Valid
  have h := Binary32.roundScaled_fixed d.k.natAbs 925
  unfold Binary32.roundInt
  by_cases hk : d.k < 0
  · simp only [hk, if_true]
    by_cases h0 : Binary32.roundScaled d.k.natAbs 925 = 0
    · simp [h0, Binary32.roundNat_small]
    · have hneg : -((Binary32.roundScaled d.k.natAbs 925 : Nat) : Int) < 0 := by omega
      simp only [hneg, if_true, Int.natAbs_neg, Int.natAbs_ofNat, h]
  · simp only [hk, if_false]
    have hnn : ¬ (((Binary32.roundScaled d.k.natAbs 925 : Nat) : Int) < 0) := by omega
    simp only [hnn, if_false, Int.natAbs_ofNat, h]

theorem insertSorted_filter_key {α : Type} (key : α → Int) (v : Int) (a : α) (l : List α) :
    (insertSorted (fun x y => decide (key y < key x)) a l).filter (fun r => decide (key r = v))
      = (a :: l).filter (fun r => decide (key r = v)) := by
  induction l with
  | nil => simp [insertSorted]
  | cons b l ih =>
    unfold insertSorted
    by_cases hc : key a < key b
    · simp only [hc, decide_True, if_true]
      rw [List.filter_cons, ih]
      by_cases ha : key a = v
      · have hb : ¬ key b = v := by omega
        simp [List.filter_cons, ha, hb]
      · simp [List.filter_cons, ha]
    · simp only [hc, decide_False, Bool.false_eq_true, if_false]

theorem stableSort_filter_key {α : Type} (key : α → Int) (v : Int) (l : List α) :
    (stableSort (fun x y => decide (key y < key x)) l).filter (fun r => decide (key r = v))
      = l.filter (fun r => decide (key r = v)) := by
  induction l with
  | nil => simp [stableSort]
  | cons a l ih =>
    unfold stableSort
    rw [insertSorted_filter_key, List.filter_cons, List.filter_cons, ih]

theorem stableSort_keeps_order {α : Type} (key : α → Int) (l : List α) (p q : α)
    (hpq : [p, q].Sublist l) (hkey : key p = key q) :
    [p, q].Sublist (stableSort (fun x y => decide (key y < key x)) l) := by
  have h1 : ([p, q].filter (fun r => decide (key r = key q))).Sublist
      (l.filter (fun r => decide (key r = key q))) := hpq.filter _
  have h2 : [p, q].filter (fun r => decide (key r = key q)) = [p, q] := by
    simp [List.filter_cons, hkey]
  rw [h2, ← stableSort_filter_key key (key q) l] at h1
  exact h1.trans (List.filter_sublist _)

theorem ArrayRecord.view_length {U : Type} (record : ArrayRecord U) (key : ArrayKey)
    (hfit : key.offset + key.size ≤ record.block.length) :
    (record.view key).length = key.size := by
  simp only [ArrayRecord.view, List.length_take, List.length_drop]
  omega

theorem ArrayRecord.view_assignView {U : Type} (record : ArrayRecord U) (key : ArrayKey)
    (v : List U) (hfit : key.offset + key.size ≤ record.block.length)
    (hv : v.length = key.size) :
    (record.assignView key v).view key = v := by
  have hlen : (record.block.take key.offset).length = key.offset := by
    rw [List.length_take]; omega
  simp only [ArrayRecord.view, ArrayRecord.assignView, List.append_assoc]
  rw [List.drop_append_of_le_length (by omega), List.drop_of_length_le (by omega),
    List.nil_append, ← hv, List.take_left']
  rfl

theorem ArrayRecord.getVariable_set {U : Type} (record : ArrayRecord U) (key : ArrayKey)
    (v : List U) : (record.set key v).getVariable key = v := by
  simp [ArrayRecord.getVariable, ArrayRecord.set]

theorem Schema.find_of_mem (s : Schema) (name : String) (h : name ∈ s.fields) :
    s.find name = Outcome.ok (s.fields.indexOf name) := by
  simp [Schema.find, h]

theorem PeakRecord.toBase_getElem (schema : Schema) (p : PeakRecord) (name : String)
    (h : name ∈ schema.fields) :
    (PeakRecord.toBase schema p).values[schema.fields.indexOf name]? = some (p.cell name) := by
  have hlt : schema.fields.indexOf name < schema.fields.length := List.indexOf_lt_length.mpr h
  simp only [PeakRecord.toBase, List.getElem?_map, List.getElem?_eq_getElem hlt,
    List.getElem_indexOf hlt, Option.map_some']

theorem Schema.mem_of_contains (s other : Schema) (h : s.contains other = true)
    (name : String) (hn : name ∈ other.fields) : name ∈ s.fields := by
  simp only [Schema.contains, List.all_eq_true] at h
  simpa using h name hn

theorem PeakRecord.assign_toBase (schema : Schema) (p : PeakRecord)
    (h : schema.contains PeakTable.makeMinimalSchema = true) :
    PeakRecord.assign schema (PeakRecord.toBase schema p) = Outcome.ok p := by
  have hfx := Schema.mem_of_contains schema _ h "f.x" (by decide)
  have hfy := Schema.mem_of_contains schema _ h "f.y" (by decide)
  have hix := Schema.mem_of_contains schema _ h "i.x" (by decide)
  have hiy := Schema.mem_of_contains schema _ h "i.y" (by decide)
  have hpv := Schema.mem_of_contains schema _ h "peakValue" (by decide)
  have e1 : (PeakRecord.toBase schema p).getFloat (schema.fields.indexOf "f.x")
      = Outcome.ok p.fx := by
    simp [BaseRecord.getFloat, PeakRecord.toBase_getElem schema p _ hfx, PeakRecord.cell]
  have e2 : (PeakRecord.toBase schema p).getFloat (schema.fields.indexOf "f.y")
      = Outcome.ok p.fy := by
    simp [BaseRecord.getFloat, PeakRecord.toBase_getElem schema p _ hfy, PeakRecord.cell]
  have e3 : (PeakRecord.toBase schema p).getInt (schema.fields.indexOf "i.x")
      = Outcome.ok p.ix := by
    simp [BaseRecord.getInt, PeakRecord.toBase_getElem schema p _ hix, PeakRecord.cell]
  have e4 : (PeakRecord.toBase schema p).getInt (schema.fields.indexOf "i.y")
      = Outcome.ok p.iy := by
    simp [BaseRecord.getInt, PeakRecord.toBase_getElem schema p _ hiy, PeakRecord.cell]
  have e5 : (PeakRecord.toBase schema p).getFloat (schema.fields.indexOf "peakValue")
      = Outcome.ok p.peakValue := by
    simp [BaseRecord.getFloat, PeakRecord.toBase_getElem schema p _ hpv, PeakRecord.cell]
  simp only [PeakRecord.assign, Schema.find_of_mem _ _ hfx, Schema.find_of_mem _ _ hfy,
    Schema.find_of_mem _ _ hix, Schema.find_of_mem _ _ hiy, Schema.find_of_mem _ _ hpv,
    bind, Outcome.bind, e1, e2, e3, e4, e5, pure]

theorem Footprint.readPeaksLoop_toBase (schema : Schema)
    (h : schema.contains PeakTable.makeMinimalSchema = true) (l : List PeakRecord) :
    ∀ acc : PeakCatalog, Footprint.readPeaksLoop schema (l.map (PeakRecord.toBase schema)) acc
      = Outcome.ok { acc with records := acc.records ++ l } := by
  induction l with
  | nil => intro acc; simp [Footprint.readPeaksLoop]
  | cons p l ih =>
    intro acc
    simp only [List.map_cons, Footprint.readPeaksLoop, PeakRecord.assign_toBase schema p h,
      bind, Outcome.bind, ih]
    simp

theorem Footprint.readSpanSet_id (name : String) (id : Int) (rest : List BaseRecord)
    (get : Int → SpanSet) :
    Footprint.readSpanSet ⟨⟨[name]⟩, ⟨[FieldValue.int id]⟩ :: rest⟩ get
      = Outcome.ok (Footprint.mk2 (get id) Box2I.empty) := rfl

theorem Footprint.readPeaks_toBase (schema : Schema) (l : List PeakRecord) (g : Footprint)
    (hschema : schema.contains PeakTable.makeMinimalSchema = true) :
    Footprint.readPeaks ⟨schema, l.map (PeakRecord.toBase schema)⟩ g
      = Outcome.ok { g with peaks := ⟨schema, g.peaks.records ++ l⟩ } := by
  have hno : (!schema.contains PeakTable.makeMinimalSchema) = false := by
    simp [hschema]
  simp only [Footprint.readPeaks, hno, Bool.false_eq_true, if_false, bind, Outcome.bind,
    Footprint.setPeakSchema, Footprint.readPeaksLoop_toBase schema hschema l, pure]

theorem Footprint.read_write_eq (put : SpanSet → Int) (get : Int → SpanSet) (f : Footprint)
    (hschema : f.peaks.schema.contains PeakTable.makeMinimalSchema = true) :
    FootprintFactory.read get (f.write put)
      = Outcome.ok { spans := get (put f.spans), peaks := f.peaks, region := Box2I.empty } := by
  have h1 := Footprint.readSpanSet_id "id" (put f.spans) [] get
  have h2 := Footprint.readPeaks_toBase f.peaks.schema f.peaks.records
    (Footprint.mk2 (get (put f.spans)) Box2I.empty) hschema
  have hw : f.write put = [⟨⟨["id"]⟩, [⟨[FieldValue.int (put f.spans)]⟩]⟩,
      ⟨f.peaks.schema, f.peaks.records.map (PeakRecord.toBase f.peaks.schema)⟩] := rfl
  have hr : ∀ a b : BaseCatalog, FootprintFactory.read get [a, b]
      = (Footprint.readSpanSet a get).bind (fun g => Footprint.readPeaks b g) :=
    fun a b => rfl
  rw [hw, hr, h1]
  simp only [Outcome.bind]
  rw [h2]
  simp only [Footprint.mk2, List.nil_append]

theorem Footprint.readSpans_rows (rows : List (Int × Int × Int)) :
    Footprint.readSpans (rows.map (fun r =>
        (⟨[FieldValue.int r.1, FieldValue.int r.2.1, FieldValue.int r.2.2]⟩ : BaseRecord)))
      = Outcome.ok (rows.map (fun r => Span.mk r.1 r.2.1 r.2.2)) := by
  induction rows with
  | nil => rfl
  | cons r rows ih =>
    simp only [List.map_cons, Footprint.readSpans, bind, Outcome.bind, ih, pure]
    rfl

theorem scanRuns_mem (p : Nat → Bool) : ∀ (vals : List Nat) (x : Nat) (start : Option Nat),
    (∀ s, start = some s → s < x) → ∀ j : Nat,
    ((∃ run ∈ scanRuns p vals x start, run.1 ≤ j ∧ j ≤ run.2) ↔
      ((∃ s, start = some s ∧ s ≤ j ∧ j < x) ∨
       (x ≤ j ∧ ∃ v, vals[j - x]? = some v ∧ p v = true))) := by
  intro vals
  induction vals with
  | nil =>
    intro x start hinv j
    cases start with
    | none => simp [scanRuns]
    | some s =>
      have hs := hinv s rfl
      simp only [scanRuns, List.mem_singleton, exists_eq_left]
      constructor
      · intro h; exact Or.inl ⟨s, rfl, h.1, by omega⟩
      · rintro (⟨s2, hs2, h1, h2⟩ | ⟨_, w, hw, _⟩)
        · cases hs2
          exact ⟨h1, by omega⟩
        · simp at hw
  | cons v rest ih =>
    intro x start hinv j
    have hcons : ∀ w, ((v :: rest)[j - x]? = some w ∧ x ≤ j) ↔
        ((j = x ∧ w = v) ∨ (x + 1 ≤ j ∧ rest[j - (x + 1)]? = some w)) := by
      intro w
      by_cases hj : j = x
      · subst hj
        simp only [Nat.sub_self, List.getElem?_cons_zero, Option.some.injEq, le_refl, and_true,
          true_and]
        constructor
        · intro h; exact Or.inl h.symm
        · rintro (h | h)
          · exact h.symm
          · omega
      · constructor
        · rintro ⟨h, hx⟩
          right
          have h1 : j - x = (j - (x + 1)) + 1 := by omega
          rw [h1, List.getElem?_cons_succ] at h
          exact ⟨by omega, h⟩
        · rintro (h | ⟨hx, h⟩)
          · exact absurd h.1 hj
          · have h1 : j - x = (j - (x + 1)) + 1 := by omega
            rw [h1, List.getElem?_cons_succ]
            exact ⟨h, by omega⟩
    cases start with
    | none =>
      by_cases hp : p v = true
      · have hinv2 : ∀ s, some x = some s → s < x + 1 := by
          intro s hs; cases hs; omega
        simp only [scanRuns, hp, if_true]
        rw [ih (x + 1) (some x) hinv2 j]
        constructor
        · rintro (⟨s, hs, h1, h2⟩ | ⟨h1, w, hw, hpw⟩)
          · cases hs
            right
            have hj : j = x := by omega
            exact ⟨by omega, v, ((hcons v).mpr (Or.inl ⟨hj, rfl⟩)).1, hp⟩
          · right
            exact ⟨by omega, w, ((hcons w).mpr (Or.inr ⟨h1, hw⟩)).1, hpw⟩
        · rintro (⟨s, hs, _⟩ | ⟨h1, w, hw, hpw⟩)
          · cases hs
          · rcases (hcons w).mp ⟨hw, h1⟩ with ⟨hj, _⟩ | ⟨hx, hr⟩
            · left; exact ⟨x, rfl, by omega, by omega⟩
            · right; exact ⟨hx, w, hr, hpw⟩
      · have hinv2 : ∀ s, (none : Option Nat) = some s → s < x + 1 := by
          intro s hs; cases hs
        simp only [scanRuns, hp, Bool.false_eq_true, if_false]
        rw [ih (x + 1) none hinv2 j]
        constructor
        · rintro (⟨s, hs, _⟩ | ⟨h1, w, hw, hpw⟩)
          · cases hs
          · right
            exact ⟨by omega, w, ((hcons w).mpr (Or.inr ⟨h1, hw⟩)).1, hpw⟩
        · rintro (⟨s, hs, _⟩ | ⟨h1, w, hw, hpw⟩)
          · cases hs
          · rcases (hcons w).mp ⟨hw, h1⟩ with ⟨_, hwv⟩ | ⟨hx, hr⟩
            · rw [hwv] at hpw; exact absurd hpw hp
            · right; exact ⟨hx, w, hr, hpw⟩
    | some s0 =>
      have hs0 := hinv s0 rfl
      by_cases hp : p v = true
      · have hinv2 : ∀ s, some s0 = some s → s < x + 1 := by
          intro s hs; cases hs; omega
        simp only [scanRuns, hp, if_true]
        rw [ih (x + 1) (some s0) hinv2 j]
        constructor
        · rintro (⟨s, hs, h1, h2⟩ | ⟨h1, w, hw, hpw⟩)
          · cases hs
            by_cases hj : j = x
            · right
              exact ⟨by omega, v, ((hcons v).mpr (Or.inl ⟨hj, rfl⟩)).1, hp⟩
            · left; exact ⟨s0, rfl, h1, by omega⟩
          · right
            exact ⟨by omega, w, ((hcons w).mpr (Or.inr ⟨h1, hw⟩)).1, hpw⟩
        · rintro (⟨s, hs, h1, h2⟩ | ⟨h1, w, hw, hpw⟩)
          · cases hs
            left; exact ⟨s0, rfl, h1, by omega⟩
          · rcases (hcons w).mp ⟨hw, h1⟩ with ⟨hj, _⟩ | ⟨hx, hr⟩
            · left; exact ⟨s0, rfl, by omega, by omega⟩
            · right; exact ⟨hx, w, hr, hpw⟩
      · have hinv2 : ∀ s, (none : Option Nat) = some s → s < x + 1 := by
          intro s hs; cases hs
        simp only [scanRuns, hp, Bool.false_eq_true, if_false, List.mem_cons, exists_eq_or_imp]
        rw [ih (x + 1) none hinv2 j]
        constructor
        · rintro (⟨h1, h2⟩ | ⟨s, hs, _⟩ | ⟨h1, w, hw, hpw⟩)
          · left; exact ⟨s0, rfl, h1, by omega⟩
          · cases hs
          · right
            exact ⟨by omega, w, ((hcons w).mpr (Or.inr ⟨h1, hw⟩)).1, hpw⟩
        · rintro (⟨s, hs, h1, h2⟩ | ⟨h1, w, hw, hpw⟩)
          · cases hs
            left; exact ⟨h1, by omega⟩
          · rcases (hcons w).mp ⟨hw, h1⟩ with ⟨_, hwv⟩ | ⟨hx, hr⟩
            · rw [hwv] at hpw; exact absurd hpw hp
            · right; right; exact ⟨hx, w, hr, hpw⟩

theorem scanRuns_bounds (p : Nat → Bool) : ∀ (vals : List Nat) (x : Nat) (start : Option Nat),
    (∀ s, start = some s → s < x) → ∀ run ∈ scanRuns p vals x start,
      run.1 ≤ run.2 ∧ (∀ s, start = some s → s ≤ run.1) ∧ (start = none → x ≤ run.1) := by
  intro vals
  induction vals with
  | nil =>
    intro x start hinv run hrun
    cases start with
    | none => simp [scanRuns] at hrun
    | some s =>
      have hs := hinv s rfl
      simp only [scanRuns, List.mem_singleton] at hrun
      subst hrun
      refine ⟨(by simp only; omega), ?_, (by intro h; cases h)⟩
      intro s2 h2; cases h2; exact le_refl _
  | cons v rest ih =>
    intro x start hinv run hrun
    cases start with
    | none =>
      by_cases hp : p v = true
      · simp only [scanRuns, hp, if_true] at hrun
        have h := ih (x + 1) (some x) (by intro s hs; cases hs; omega) run hrun
        exact ⟨h.1, (by intro s hs; cases hs), fun _ => h.2.1 x rfl⟩
      · simp only [scanRuns, hp, Bool.false_eq_true, if_false] at hrun
        have h := ih (x + 1) none (by intro s hs; cases hs) run hrun
        exact ⟨h.1, (by intro s hs; cases hs), fun _ => (by have := h.2.2 rfl; omega)⟩
    | some s0 =>
      have hs0 := hinv s0 rfl
      by_cases hp : p v = true
      · simp only [scanRuns, hp, if_true] at hrun
        have h := ih (x + 1) (some s0) (by intro s hs; cases hs; omega) run hrun
        exact ⟨h.1, h.2.1, (by intro h; cases h)⟩
      · simp only [scanRuns, hp, Bool.false_eq_true, if_false, List.mem_cons] at hrun
        rcases hrun with rfl | hrun
        · refine ⟨(by simp only; omega), ?_, (by intro h; cases h)⟩
          intro s hs; cases hs; exact le_refl _
        · have h := ih (x + 1) none (by intro s hs; cases hs) run hrun
          refine ⟨h.1, ?_, (by intro h; cases h)⟩
          intro s hs; cases hs
          have := h.2.2 rfl
          omega

theorem scanRuns_sorted (p : Nat → Bool) : ∀ (vals : List Nat) (x : Nat) (start : Option Nat),
    (∀ s, start = some s → s < x) →
      (scanRuns p vals x start).Pairwise (fun r t => r.2 + 1 < t.1) := by
  intro vals
  induction vals with
  | nil =>
    intro x start _
    cases start <;> simp [scanRuns]
  | cons v rest ih =>
    intro x start hinv
    cases start with
    | none =>
      by_cases hp : p v = true
      · simp only [scanRuns, hp, if_true]
        exact ih (x + 1) (some x) (by intro s hs; cases hs; omega)
      · simp only [scanRuns, hp, Bool.false_eq_true, if_false]
        exact ih (x + 1) none (by intro s hs; cases hs)
    | some s0 =>
      have hs0 := hinv s0 rfl
      by_cases hp : p v = true
      · simp only [scanRuns, hp, if_true]
        exact ih (x + 1) (some s0) (by intro s hs; cases hs; omega)
      · simp only [scanRuns, hp, Bool.false_eq_true, if_false, List.pairwise_cons]
        refine ⟨?_, ih (x + 1) none (by intro s hs; cases hs)⟩
        intro t ht
        have h := (scanRuns_bounds p rest (x + 1) none (by intro s hs; cases hs) t ht).2.2 rfl
        omega

theorem scanRuns_row (p : Nat → Bool) (row : List Nat) (j : Nat) :
    (∃ run ∈ scanRuns p row 0 none, run.1 ≤ j ∧ j ≤ run.2) ↔
      ∃ v, row[j]? = some v ∧ p v = true := by
  rw [scanRuns_mem p row 0 none (by intro s hs; cases hs) j]
  constructor
  · rintro (⟨s, hs, _⟩ | ⟨_, h⟩)
    · cases hs
    · simpa using h
  · intro h
    right
    exact ⟨Nat.zero_le _, by simpa using h⟩

theorem mem_scanRows (p : Nat → Bool) (x0 y0 : Int) : ∀ (rows : List (List Nat)) (y : Nat)
    (sp : Span), sp ∈ scanRows p x0 y0 rows y ↔
      ∃ (i : Nat) (row : List Nat) (run : Nat × Nat), rows[i]? = some row ∧
        run ∈ scanRuns p row 0 none ∧
        sp = Span.mk (((y + i : Nat) : Int) + y0) (run.1 + x0) (run.2 + x0) := by
  intro rows
  induction rows with
  | nil => intro y sp; simp [scanRows]
  | cons row rest ih =>
    intro y sp
    simp only [scanRows, List.mem_append, List.mem_map, ih]
    constructor
    · rintro (⟨run, hrun, rfl⟩ | ⟨i, r, run, hr, hrun, rfl⟩)
      · exact ⟨0, row, run, by simp, hrun, by simp⟩
      · refine ⟨i + 1, r, run, by simpa using hr, hrun, ?_⟩
        have : ((y + 1 + i : Nat) : Int) = ((y + (i + 1) : Nat) : Int) := by push_cast; ring
        rw [this]
    · rintro ⟨i, r, run, hr, hrun, rfl⟩
      cases i with
      | zero =>
        simp only [List.getElem?_cons_zero, Option.some.injEq] at hr
        subst hr
        exact Or.inl ⟨run, hrun, by simp⟩
      | succ i =>
        right
        refine ⟨i, r, run, by simpa using hr, hrun, ?_⟩
        have : ((y + 1 + i : Nat) : Int) = ((y + (i + 1) : Nat) : Int) := by push_cast; ring
        rw [this]

theorem scanRows_sorted (p : Nat → Bool) (x0 y0 : Int) : ∀ (rows : List (List Nat)) (y : Nat),
    (scanRows p x0 y0 rows y).Pairwise
      (fun s t => s.y < t.y ∨ (s.y = t.y ∧ s.x1 + 1 < t.x0)) := by
  intro rows
  induction rows with
  | nil => intro y; simp [scanRows]
  | cons row rest ih =>
    intro y
    simp only [scanRows]
    rw [List.pairwise_append]
    refine ⟨?_, ih (y + 1), ?_⟩
    · rw [List.pairwise_map]
      refine (scanRuns_sorted p row 0 none (by intro s hs; cases hs)).imp ?_
      intro r t h
      right
      simp only [true_and]
      omega
    · intro s hs t ht
      left
      obtain ⟨run, _, rfl⟩ := List.mem_map.mp hs
      obtain ⟨i, r, run2, _, _, rfl⟩ := (mem_scanRows p x0 y0 rest (y + 1) t).mp ht
      simp only
      push_cast
      omega

theorem Mask.get?_eq_some (mask : Mask) (pt : Point2I) (v : Nat) :
    mask.get? pt = some v ↔
      ∃ (i j : Nat) (row : List Nat), mask.rows[i]? = some row ∧ row[j]? = some v ∧
        pt.y = (i : Int) + mask.y0 ∧ pt.x = (j : Int) + mask.x0 := by
  unfold Mask.get?
  constructor
  · intro h
    split at h
    · rename_i hc
      cases hrow : mask.rows[(pt.y - mask.y0).toNat]? with
      | none => simp [hrow] at h
      | some row =>
        simp only [hrow] at h
        refine ⟨_, _, row, hrow, h, ?_, ?_⟩
        · rw [Int.toNat_of_nonneg (by omega)]; omega
        · rw [Int.toNat_of_nonneg (by omega)]; omega
    · cases h
  · rintro ⟨i, j, row, hrow, hv, hy, hx⟩
    have hc : mask.y0 ≤ pt.y ∧ mask.x0 ≤ pt.x := by omega
    have e1 : (pt.y - mask.y0).toNat = i := by rw [hy]; simp
    have e2 : (pt.x - mask.x0).toNat = j := by rw [hx]; simp
    simp only [hc, and_self, if_true, e1, e2, hrow, hv]

theorem maskToSpanSet_contains (mask : Mask) (p : Nat → Bool) (pt : Point2I) :
    (maskToSpanSet mask p).contains pt = true ↔
      ∃ v, mask.get? pt = some v ∧ p v = true := by
  simp only [maskToSpanSet, SpanSet.contains, List.any_eq_true]
  constructor
  · rintro ⟨sp, hsp, hc⟩
    obtain ⟨i, row, run, hrow, hrun, rfl⟩ := (mem_scanRows p mask.x0 mask.y0 mask.rows 0 sp).mp hsp
    simp only [Span.contains, Bool.and_eq_true, decide_eq_true_eq] at hc
    have hx0 : mask.x0 ≤ pt.x := by omega
    obtain ⟨v, hv, hpv⟩ := (scanRuns_row p row (pt.x - mask.x0).toNat).mp
      ⟨run, hrun, by omega, by omega⟩
    refine ⟨v, (Mask.get?_eq_some mask pt v).mpr ⟨i, _, row, hrow, hv, ?_, ?_⟩, hpv⟩
    · have := hc.1.1
      push_cast at this
      omega
    · rw [Int.toNat_of_nonneg (by omega)]; omega
  · rintro ⟨v, hv, hpv⟩
    obtain ⟨i, j, row, hrow, hj, hy, hx⟩ := (Mask.get?_eq_some mask pt v).mp hv
    obtain ⟨run, hrun, h1, h2⟩ := (scanRuns_row p row j).mpr ⟨v, hj, hpv⟩
    refine ⟨_, (mem_scanRows p mask.x0 mask.y0 mask.rows 0 _).mpr ⟨i, row, run, hrow, hrun, rfl⟩, ?_⟩
    simp only [Span.contains, Bool.and_eq_true, decide_eq_true_eq]
    push_cast
    omega

theorem maskToSpanSet_run (mask : Mask) (p : Nat → Bool) (s : Span)
    (hs : s ∈ (maskToSpanSet mask p).spans) (pt : Point2I)
    (hpt : pt.y = s.y ∧ (pt.x = s.x0 - 1 ∨ pt.x = s.x1 + 1)) :
    s.x0 ≤ s.x1 ∧ ∀ v, mask.get? pt = some v → p v ≠ true := by
  have hne : s.x0 ≤ s.x1 := by
    obtain ⟨i, row, run, _, hrun, rfl⟩ :=
      (mem_scanRows p mask.x0 mask.y0 mask.rows 0 s).mp hs
    have := (scanRuns_bounds p row 0 none (by intro s hs; cases hs) run hrun).1
    simp only
    omega
  refine ⟨hne, ?_⟩
  intro v hv hpv
  have hc := (maskToSpanSet_contains mask p pt).mpr ⟨v, hv, hpv⟩
  simp only [SpanSet.contains, List.any_eq_true] at hc
  obtain ⟨t, ht, htc⟩ := hc
  simp only [Span.contains, Bool.and_eq_true, decide_eq_true_eq] at htc
  have hsorted := scanRows_sorted p mask.x0 mask.y0 mask.rows 0
  have hsym : (maskToSpanSet mask p).spans.Pairwise (fun s t =>
      (s.y < t.y ∨ (s.y = t.y ∧ s.x1 + 1 < t.x0)) ∨
      (t.y < s.y ∨ (t.y = s.y ∧ t.x1 + 1 < s.x0))) := hsorted.imp (fun h => Or.inl h)
  by_cases hst : s = t
  · subst hst
    omega
  · have h := List.Pairwise.forall (fun a b hab => Or.symm hab) hsym hs ht hst
    omega

theorem land_idMask_eq_zero_iff (n : Nat) (h : n < 2 ^ 64) :
    n &&& 0xfffffffe00000000 = 0 ↔ n < 2 ^ 33 := by
  have hmask : (0xfffffffe00000000 : Nat) = 2 ^ 33 * (2 ^ 31 - 1) := by norm_num
  have hbit : ∀ i, (0xfffffffe00000000 : Nat).testBit i = (decide (33 ≤ i) && decide (i - 33 < 31)) := by
    intro i
    rw [hmask, Nat.testBit_mul_pow_two, Nat.testBit_two_pow_sub_one]
  constructor
  · intro h0
    by_contra hge
    have hge2 : n ≥ 2 ^ 33 := by omega
    obtain ⟨i, hi, hbi⟩ := Nat.ge_two_pow_implies_high_bit_true hge2
    have hi64 : i < 64 := by
      by_contra h64
      have hle : 2 ^ 64 ≤ 2 ^ i := Nat.pow_le_pow_right (by norm_num) (by omega)
      have := Nat.testBit_lt_two_pow (lt_of_lt_of_le h hle)
      rw [this] at hbi
      exact Bool.false_ne_true hbi
    have hb : (n &&& 0xfffffffe00000000).testBit i = true := by
      rw [Nat.testBit_and, hbi, hbit]
      have h1 : 33 ≤ i := hi
      have h2 : i - 33 < 31 := by omega
      simp [h1, h2]
    rw [h0, Nat.zero_testBit] at hb
    exact Bool.false_ne_true hb
  · intro hlt
    apply Nat.eq_of_testBit_eq
    intro i
    rw [Nat.testBit_and, Nat.zero_testBit, hbit]
    by_cases hi : 33 ≤ i
    · have hle : 2 ^ 33 ≤ 2 ^ i := Nat.pow_le_pow_right (by norm_num) hi
      rw [Nat.testBit_lt_two_pow (lt_of_lt_of_le hlt hle)]
      simp
    · simp [hi]

/-- The value that `&` sees: a non-negative `int64_t` converts to itself. -/
theorem int64_toUnsigned (v : Int) (h0 : 0 ≤ v) (h1 : v < ((2 ^ 63 : Nat) : Int)) :
    (v % ((2 ^ 64 : Nat) : Int)).toNat = v.toNat ∧ v.toNat < 2 ^ 64 := by
  have h2 : v < ((2 ^ 64 : Nat) : Int) := by
    have : ((2 ^ 63 : Nat) : Int) < ((2 ^ 64 : Nat) : Int) := by norm_num
    omega
  rw [Int.emod_eq_of_lt h0 h2]
  refine ⟨rfl, ?_⟩
  have : (v.toNat : Int) = v := Int.toNat_of_nonneg h0
  omega

theorem extractCcdId_eq (p : PropertySet) (ccdId : Int)
    (hccd : p.find "ccdId" = some ⟨"ccdId", [], PropertyValue.int ccdId⟩) :
    extractCcdId (some p) =
      if ccdId < 0 then Outcome.fails Failure.RangeError
      else if ccdId > 255 then Outcome.fails Failure.RangeError
      else Outcome.ok ccdId := by
  simp only [extractCcdId, PropertySet.isArray, PropertySet.getAsInt, hccd, List.isEmpty_nil,
    Bool.not_true, Bool.false_eq_true, if_false, bind, Outcome.bind, pure]

theorem extractAmpId_eq (p : PropertySet) (ampId ccdId : Int)
    (hamp : p.find "ampId" = some ⟨"ampId", [], PropertyValue.int ampId⟩)
    (hccd : p.find "ccdId" = some ⟨"ccdId", [], PropertyValue.int ccdId⟩) :
    extractAmpId (some p) =
      if ampId < 0 then Outcome.fails Failure.RangeError
      else if ampId > 63 then Outcome.fails Failure.RangeError
      else if ccdId < 0 then Outcome.fails Failure.RangeError
      else if ccdId > 255 then Outcome.fails Failure.RangeError
      else Outcome.ok ((ccdId <<< (6 : Int)) + ampId) := by
  simp only [extractAmpId, PropertySet.isArray, PropertySet.getAsInt, hamp, List.isEmpty_nil,
    Bool.not_true, Bool.false_eq_true, if_false, bind, Outcome.bind, pure,
    extractCcdId_eq p ccdId hccd]
  split_ifs <;> rfl

theorem rfindAux_not_mem (c : Char) (l : List Char) (hc : c ∉ l) :
    ∀ (i : Nat) (found : Option Nat), rfindAux c l i found = found := by
  induction l with
  | nil => intro i found; rfl
  | cons x rest ih =>
    intro i found
    have hx : ¬ x = c := fun h => hc (by simp [h])
    have hrest : c ∉ rest := fun h => hc (List.mem_cons_of_mem _ h)
    simp only [rfindAux, if_neg hx]
    exact ih hrest _ _

theorem rfindAux_last (c : Char) (post : List Char) (hc : c ∉ post) :
    ∀ (pre : List Char) (i : Nat) (found : Option Nat),
      rfindAux c (pre ++ c :: post) i found = some (i + pre.length) := by
  intro pre
  induction pre with
  | nil =>
    intro i found
    simp only [List.nil_append, rfindAux, if_true, List.length_nil, Nat.add_zero]
    exact rfindAux_not_mem c post hc _ _
  | cons x rest ih =>
    intro i found
    show rfindAux c (rest ++ c :: post) (i + 1) (if x = c then some i else found)
      = some (i + (rest.length + 1))
    rw [ih]
    congr 1
    omega

theorem exists_last_occurrence (c : Char) (l : List Char) (hc : c ∈ l) :
    ∃ pre post, l = pre ++ c :: post ∧ c ∉ post := by
  induction l with
  | nil => simp at hc
  | cons x rest ih =>
    by_cases hrest : c ∈ rest
    · obtain ⟨pre, post, h1, h2⟩ := ih hrest
      exact ⟨x :: pre, post, by rw [h1]; rfl, h2⟩
    · have hx : c = x := by
        rcases List.mem_cons.mp hc with h | h
        · exact h
        · exact absurd h hrest
      exact ⟨[], rest, by rw [hx]; rfl, hrest⟩

theorem fitsName_spec (i : String) :
    '.' ∉ fitsName i ∧ (i.data = fitsName i ∨ ∃ pre, i.data = pre ++ '.' :: fitsName i) := by
  by_cases hc : '.' ∈ i.data
  · obtain ⟨pre, post, h1, h2⟩ := exists_last_occurrence '.' i.data hc
    have hr : rfind i.data '.' = some pre.length := by
      rw [rfind, h1, rfindAux_last '.' post h2]
      simp
    have hn : fitsName i = post := by
      simp only [fitsName, hr]
      rw [h1]
      simp
    rw [hn]
    exact ⟨h2, Or.inr ⟨pre, h1⟩⟩
  · have hr : rfind i.data '.' = none := rfindAux_not_mem '.' i.data hc 0 none
    have hn : fitsName i = i.data := by simp only [fitsName, hr]
    rw [hn]
    exact ⟨hc, Or.inl rfl⟩

theorem fitsCard_eq (format20g : F64 → List Char) (p : PropertySet) (i : String)
    (e : Property) (he : p.find i = some e) :
    fitsCard format20g p i = Outcome.ok (fitsCardText format20g p i) := by
  have hpad : ∀ out : List Char,
      (if out.length < 80 then out ++ List.replicate (80 - out.length) ' ' else out.take 80)
        = (out ++ List.replicate (80 - out.length) ' ').take 80 := by
    intro out
    by_cases h : out.length < 80
    · rw [if_pos h, List.take_of_length_le]
      simp
      omega
    · rw [if_neg h]
      have : 80 - out.length = 0 := by omega
      rw [this]
      simp
  have hname : (match rfind i.data '.' with
      | none => i.data
      | some pos => i.data.drop (pos + 1)) = fitsName i := rfl
  have hkey : (if (fitsName i).length > 8 then ([] : List Char) ++ ("HIERARCH = ".data ++ fitsName i)
      else leftJustify 8 (fitsName i) ++ "= ".data) = fitsKeyword (fitsName i) := by
    simp [fitsKeyword]
  unfold fitsCard
  simp only [hname, hkey, PropertySet.typeOf, PropertySet.get, he, bind, Outcome.bind, pure,
    fitsCardText, hpad]
  cases hl : e.last <;> simp [PropertyValue.type, fitsValue, Outcome.bind]

theorem PropertySet.find_of_paramName (p : PropertySet) (i : String)
    (hi : i ∈ p.paramNames false) : ∃ e, p.find i = some e := by
  simp only [PropertySet.paramNames, Bool.not_false, Bool.true_or, List.filter_true,
    List.mem_map] at hi
  obtain ⟨e, he, hname⟩ := hi
  have : (p.properties.find? (fun e => e.name == i)).isSome = true := by
    rw [List.find?_isSome]
    exact ⟨e, he, by simp [hname]⟩
  exact Option.isSome_iff_exists.mp this

theorem formatFitsLoop_eq (format20g : F64 → List Char) (p : PropertySet) :
    ∀ (names : List String) (sout : List Char), (∀ i ∈ names, ∃ e, p.find i = some e) →
      formatFitsLoop format20g p names sout
        = Outcome.ok (sout ++ (names.map (fitsCardText format20g p)).flatten) := by
  intro names
  induction names with
  | nil => intro sout _; simp [formatFitsLoop]
  | cons i rest ih =>
    intro sout h
    obtain ⟨e, he⟩ := h i (List.mem_cons_self _ _)
    simp only [formatFitsLoop, fitsCard_eq format20g p i e he, bind, Outcome.bind]
    rw [ih _ (fun j hj => h j (List.mem_cons_of_mem _ hj))]
    simp

theorem fitsCardText_length (format20g : F64 → List Char) (p : PropertySet) (i : String)
    (e : Property) (he : p.find i = some e) : (fitsCardText format20g p i).length = 80 := by
  simp only [fitsCardText, he, List.length_take, List.length_append, List.length_replicate]
  omega

theorem flatten_length_of_all (n : Nat) (cards : List (List Char))
    (h : ∀ card ∈ cards, card.length = n) : cards.flatten.length = n * cards.length := by
  induction cards with
  | nil => simp
  | cons c rest ih =>
    simp only [List.flatten_cons, List.length_append, List.length_cons]
    rw [h c (List.mem_cons_self _ _), ih (fun x hx => h x (List.mem_cons_of_mem _ hx))]
    ring

theorem cstr_of_no_nul (s : List Char) (h : Char.ofNat 0 ∉ s) : cstr s = s := by
  unfold cstr
  rw [List.takeWhile_eq_self_iff]
  intro c hc
  have : c ≠ Char.ofNat 0 := fun heq => h (heq ▸ hc)
  simpa using this

/-! ## Footprint::shift -/

/-- C1 (as stated, refuted): the peak with `ix = 2147483647` shifted by `dx = 1`
has `ix = -2147483648` afterwards, not `ix + dx = 2147483648`: the `int` sum
`getIx() + dx` overflows. -/
theorem Footprint.shift_overflows :
    shiftOverflowExample.peaks.records.map (fun p => p.ix) = [2147483647] ∧
    (shiftOverflowExample.shift 1 0).peaks.records.map (fun p => p.ix) = [-2147483648] ∧
    (-2147483648 : Int) ≠ 2147483647 + 1 := by
  decide

/-- C1 (amended): `shift(dx, dy)` replaces the spans by the old spans
`shiftedBy(dx, dy)`, keeps the region and the schema, and keeps the peaks in
number and order, the peak at each position having `ix + dx` when that sum is a
value of `int`, `iy + dy` when that sum is a value of `int`, the float sums
`fx + dx`, `fy + dy` (the offset converted to float, the sum rounded) and its old
value. -/
theorem Footprint.shift_spec (f : Footprint) (dx dy : Int) :
    (f.shift dx dy).spans = f.spans.shiftedBy dx dy ∧
    (f.shift dx dy).region = f.region ∧
    (f.shift dx dy).peaks.schema = f.peaks.schema ∧
    List.Forall₂ (fun p q =>
        (-2147483648 ≤ p.ix + dx ∧ p.ix + dx < 2147483648 → q.ix = p.ix + dx) ∧
        (-2147483648 ≤ p.iy + dy ∧ p.iy + dy < 2147483648 → q.iy = p.iy + dy) ∧
        q.fx = p.fx.add (F32.ofInt dx) ∧ q.fy = p.fy.add (F32.ofInt dy) ∧
        q.peakValue = p.peakValue)
      f.peaks.records (f.shift dx dy).peaks.records := by
  refine ⟨rfl, rfl, rfl, ?_⟩
  simp only [Footprint.shift, Footprint.setSpans]
  rw [List.forall₂_map_right_iff]
  apply List.forall₂_same.mpr
  intro p _
  exact ⟨fun h => CInt.wrap_of_inRange _ h, fun h => CInt.wrap_of_inRange _ h, rfl, rfl, rfl⟩

/-- C1 (amended), at a concrete input: the peak at (0, 0) with float position
(0.5, 0.5) shifted by (3, -2) is at (3, -2) with float position (3.5, -1.5). -/
theorem Footprint.shift_spec_witness :
    (∀ p ∈ shiftExample.peaks.records,
      (-2147483648 ≤ p.ix + 3 ∧ p.ix + 3 < 2147483648) ∧
      (-2147483648 ≤ p.iy + -2 ∧ p.iy + -2 < 2147483648)) ∧
    (shiftExample.shift 3 (-2)).peaks.records
      = [⟨3, -2, ⟨7 * ((2 ^ 148 : Nat) : Int)⟩, ⟨-3 * ((2 ^ 148 : Nat) : Int)⟩, F32.ofInt 1⟩] ∧
    List.Forall₂ (fun p q =>
        (-2147483648 ≤ p.ix + 3 ∧ p.ix + 3 < 2147483648 → q.ix = p.ix + 3) ∧
        (-2147483648 ≤ p.iy + -2 ∧ p.iy + -2 < 2147483648 → q.iy = p.iy + -2) ∧
        q.fx = p.fx.add (F32.ofInt 3) ∧ q.fy = p.fy.add (F32.ofInt (-2)) ∧
        q.peakValue = p.peakValue)
      shiftExample.peaks.records (shiftExample.shift 3 (-2)).peaks.records :=
  ⟨by decide, by decide, (Footprint.shift_spec shiftExample 3 (-2)).2.2.2⟩

/-- C2 (as stated, refuted): the peak at float position 0.5 shifted by
`2^24 = 16777216` columns and back ends at float position 0.0, because
`0.5f + 16777216.0f` rounds to `16777216.0f`; the footprint that results is not
equal to the original, structurally or by `operator==`. -/
theorem Footprint.shift_unshift_not_exact :
    (∀ p ∈ shiftExample.peaks.records, p.fx.Valid ∧ p.fy.Valid ∧ p.peakValue.Valid) ∧
    shiftExample.peaks.records.map (fun p => p.fx) = [F32.half] ∧
    ((shiftExample.shift 16777216 0).shift (-16777216) 0).peaks.records.map (fun p => p.fx)
      = [F32.zero] ∧
    (shiftExample.shift 16777216 0).shift (-16777216) 0 ≠ shiftExample ∧
    Footprint.eq ((shiftExample.shift 16777216 0).shift (-16777216) 0) shiftExample = false := by
  decide

/-- C2 (amended): `shift(dx, dy)` followed by `shift(-dx, -dy)` restores the
spans, the region and every peak's `ix`, `iy` (values of `int`) and peak value;
when moreover the peaks' float coordinates are binary32 values, the offsets
convert to float without rounding and the sums `fx + dx`, `fy + dy` are exact,
it restores `fx` and `fy` too, and the result is the original footprint (also by
`operator==`). -/
theorem Footprint.shift_unshift (f : Footprint) (dx dy : Int) :
    ((f.shift dx dy).shift (-dx) (-dy)).spans = f.spans ∧
    ((f.shift dx dy).shift (-dx) (-dy)).region = f.region ∧
    List.Forall₂ (fun p q => (CInt.InRange p.ix → q.ix = p.ix) ∧
        (CInt.InRange p.iy → q.iy = p.iy) ∧ q.peakValue = p.peakValue)
      f.peaks.records ((f.shift dx dy).shift (-dx) (-dy)).peaks.records ∧
    ((∀ p ∈ f.peaks.records, CInt.InRange p.ix ∧ CInt.InRange p.iy) →
      (∀ p ∈ f.peaks.records, p.fx.Valid ∧ p.fy.Valid) →
      (F32.ofInt dx).k = dx * (F32.one : Nat) →
      (F32.ofInt dy).k = dy * (F32.one : Nat) →
      (∀ p ∈ f.peaks.records,
        (p.fx.add (F32.ofInt dx)).k = p.fx.k + dx * (F32.one : Nat) ∧
        (p.fy.add (F32.ofInt dy)).k = p.fy.k + dy * (F32.one : Nat)) →
      (f.shift dx dy).shift (-dx) (-dy) = f ∧
      Footprint.eq ((f.shift dx dy).shift (-dx) (-dy)) f = true) := by
  have hspans : ((f.shift dx dy).shift (-dx) (-dy)).spans = f.spans := by
    simp only [Footprint.shift, Footprint.setSpans]
    exact SpanSet.shiftedBy_shiftedBy_neg f.spans dx dy
  refine ⟨hspans, rfl, ?_, ?_⟩
  · simp only [Footprint.shift, Footprint.setSpans, List.map_map]
    rw [List.forall₂_map_right_iff]
    apply List.forall₂_same.mpr
    intro p _
    exact ⟨fun h => CInt.wrap_add_neg p.ix dx h, fun h => CInt.wrap_add_neg p.iy dy h, rfl⟩
  · intro hint hvalid hdx hdy hexact
    have hpeaks : ((f.shift dx dy).shift (-dx) (-dy)).peaks.records = f.peaks.records := by
      simp only [Footprint.shift, Footprint.setSpans, List.map_map]
      conv_rhs => rw [← List.map_id f.peaks.records]
      apply List.map_congr_left
      intro p hp
      have hx := F32.add_ofInt_cancel p.fx dx (hvalid p hp).1 hdx (hexact p hp).1
      have hy := F32.add_ofInt_cancel p.fy dy (hvalid p hp).2 hdy (hexact p hp).2
      have hix := CInt.wrap_add_neg p.ix dx (hint p hp).1
      have hiy := CInt.wrap_add_neg p.iy dy (hint p hp).2
      cases p
      simp only [Function.comp_apply, id_eq, PeakRecord.mk.injEq]
      simp only at hx hy hix hiy
      exact ⟨hix, hiy, hx, hy, trivial⟩
    have hall : (f.shift dx dy).shift (-dx) (-dy) = f := by
      cases f with
      | mk spans peaks region =>
        cases peaks with
        | mk schema records =>
          simp only [Footprint.shift, Footprint.setSpans] at hspans hpeaks ⊢
          simp only [Footprint.mk.injEq, PeakCatalog.mk.injEq]
          exact ⟨hspans, ⟨trivial, hpeaks⟩, trivial⟩
    exact ⟨hall, by rw [hall]; exact Footprint.eq_self f⟩

/-- C2 (amended), at a concrete input: the one-peak footprint at (0.5, 0.5)
shifted by (3, -2) and back. -/
theorem Footprint.shift_unshift_witness :
    (∀ p ∈ shiftExample.peaks.records, CInt.InRange p.ix ∧ CInt.InRange p.iy) ∧
    (∀ p ∈ shiftExample.peaks.records, p.fx.Valid ∧ p.fy.Valid) ∧
    (F32.ofInt 3).k = 3 * (F32.one : Nat) ∧
    (F32.ofInt (-2)).k = (-2) * (F32.one : Nat) ∧
    (∀ p ∈ shiftExample.peaks.records,
        (p.fx.add (F32.ofInt 3)).k = p.fx.k + 3 * (F32.one : Nat) ∧
        (p.fy.add (F32.ofInt (-2))).k = p.fy.k + (-2) * (F32.one : Nat)) ∧
    ((shiftExample.shift 3 (-2)).shift (-3) (-(-2)) = shiftExample ∧
      Footprint.eq ((shiftExample.shift 3 (-2)).shift (-3) (-(-2))) shiftExample = true) :=
  ⟨by decide, by decide, by decide, by decide, by decide,
    (Footprint.shift_unshift shiftExample 3 (-2)).2.2.2 (by decide) (by decide) (by decide)
      (by decide) (by decide)⟩

/-! ## Footprint::clipTo -/

/-- C3: `clipTo(box)` returns; afterwards the spans are the old spans
`clippedTo(box)`, every peak left in the catalog has its integer position in the
new spans, and no peak whose integer position is in the new spans has been
removed: the catalog is the old one filtered, in order, by containment. -/
theorem Footprint.clipTo_spec (f : Footprint) (box : Box2I) :
    ∃ g, f.clipTo box = some g ∧
      g.spans = f.spans.clippedTo box ∧
      g.region = f.region ∧
      g.peaks.schema = f.peaks.schema ∧
      (∀ p ∈ g.peaks.records, g.spans.contains ⟨p.ix, p.iy⟩ = true) ∧
      (∀ p ∈ f.peaks.records, g.spans.contains ⟨p.ix, p.iy⟩ = true → p ∈ g.peaks.records) ∧
      g.peaks.records = f.peaks.records.filter (fun p => g.spans.contains ⟨p.ix, p.iy⟩) := by
  refine ⟨_, Footprint.clipTo_eq f box, rfl, rfl, rfl, ?_, ?_, rfl⟩
  · intro p hp
    exact (List.mem_filter.mp hp).2
  · intro p hp hc
    exact List.mem_filter.mpr ⟨hp, hc⟩

/-! ## Footprint::split -/

/-- C4 (as stated, refuted): when the spans form one component, `split` returns
the footprint with all its peaks, the peak at (5, 5) included although the
component's spans do not contain (5, 5). -/
theorem Footprint.split_single_keeps_orphan :
    Footprint.split (fun s => [s]) splitExample = some [splitExample] ∧
    (⟨5, 5, F32.ofInt 5, F32.ofInt 5, F32.ofInt 1⟩ : PeakRecord) ∈ splitExample.peaks.records ∧
    splitExample.spans.contains ⟨5, 5⟩ = false := by
  decide

/-- C4 (amended): `split` returns one footprint per SpanSet of the spans'
`split()`, in the same order, each with that component as spans, the original
region and peak schema; when two or more components result each holds exactly
the peaks of `f` whose integer position lies in its component, in order, and
when one component results it holds a copy of the whole peak catalog. -/
theorem Footprint.split_spec (spanSetSplit : SpanSet → List SpanSet) (f : Footprint) :
    ∃ outs, f.split spanSetSplit = some outs ∧
      List.Forall₂ (fun c o => o.spans = c ∧ o.region = f.region ∧
          o.peaks.schema = f.peaks.schema ∧
          o.peaks.records =
            if 1 < (spanSetSplit f.spans).length then
              f.peaks.records.filter (fun p => c.contains ⟨p.ix, p.iy⟩)
            else f.peaks.records)
        (spanSetSplit f.spans) outs := by
  refine ⟨_, Footprint.split_eq spanSetSplit f, ?_⟩
  rw [List.forall₂_map_right_iff]
  apply List.forall₂_same.mpr
  intro c _
  simp [Footprint.splitPart]

/-- C5: when the spans split into two or more pairwise disjoint components that
cover the spans, `split` returns, no peak of `f` is kept by two different
outputs, and a peak whose integer position lies in the spans of `f` is kept by one. -/
theorem Footprint.split_no_duplicate (spanSetSplit : SpanSet → List SpanSet) (f : Footprint)
    (htwo : 2 ≤ (spanSetSplit f.spans).length)
    (hdisj : (spanSetSplit f.spans).Pairwise
      (fun a b => ∀ pt, ¬ (a.contains pt = true ∧ b.contains pt = true)))
    (hcover : ∀ pt, f.spans.contains pt = true →
      ∃ c ∈ spanSetSplit f.spans, c.contains pt = true) :
    ∃ outs, f.split spanSetSplit = some outs ∧
      outs.length = (spanSetSplit f.spans).length ∧
      ∀ p ∈ f.peaks.records,
        (∀ (i j : Nat) (o1 o2 : Footprint), outs[i]? = some o1 → outs[j]? = some o2 →
          p ∈ o1.peaks.records → p ∈ o2.peaks.records → i = j) ∧
        (f.spans.contains ⟨p.ix, p.iy⟩ = true →
          ∃ (i : Nat) (o : Footprint), outs[i]? = some o ∧ p ∈ o.peaks.records) := by
  have hgt : (spanSetSplit f.spans).length > 1 := by omega
  refine ⟨_, Footprint.split_eq spanSetSplit f, by simp, ?_⟩
  intro p hp
  have key : ∀ (i : Nat) (o : Footprint), ((spanSetSplit f.spans).map
      (Footprint.splitPart f (spanSetSplit f.spans).length))[i]? = some o →
      p ∈ o.peaks.records →
      ∃ c, (spanSetSplit f.spans)[i]? = some c ∧ c.contains ⟨p.ix, p.iy⟩ = true := by
    intro i o ho hmem
    rw [List.getElem?_map] at ho
    cases hci : (spanSetSplit f.spans)[i]? with
    | none => simp [hci] at ho
    | some c =>
      simp only [hci, Option.map_some', Option.some.injEq] at ho
      subst ho
      simp only [Footprint.splitPart, hgt, if_true] at hmem
      exact ⟨c, rfl, (List.mem_filter.mp hmem).2⟩
  constructor
  · intro i j o1 o2 h1 h2 m1 m2
    obtain ⟨c1, hc1, k1⟩ := key i o1 h1 m1
    obtain ⟨c2, hc2, k2⟩ := key j o2 h2 m2
    by_contra hij
    rw [List.pairwise_iff_getElem] at hdisj
    obtain ⟨hi, e1⟩ := List.getElem?_eq_some_iff.mp hc1
    obtain ⟨hj, e2⟩ := List.getElem?_eq_some_iff.mp hc2
    rcases Nat.lt_or_gt_of_ne hij with hlt | hlt
    · exact hdisj i j hi hj hlt ⟨p.ix, p.iy⟩ ⟨by rw [e1]; exact k1, by rw [e2]; exact k2⟩
    · exact hdisj j i hj hi hlt ⟨p.ix, p.iy⟩ ⟨by rw [e2]; exact k2, by rw [e1]; exact k1⟩
  · intro hin
    obtain ⟨c, hc, hcp⟩ := hcover _ hin
    obtain ⟨i, hi, hic⟩ := List.getElem_of_mem hc
    refine ⟨i, Footprint.splitPart f (spanSetSplit f.spans).length c, ?_, ?_⟩
    · rw [List.getElem?_map, List.getElem?_eq_getElem hi, hic]; rfl
    · simp only [Footprint.splitPart, hgt, if_true]
      exact List.mem_filter.mpr ⟨hp, hcp⟩


/-- C5 at a concrete input: two pixels at (0, 0) and (10, 10) and their two components. -/
theorem Footprint.split_no_duplicate_witness :
    2 ≤ (twoSquaresSplit twoSquares.spans).length ∧
    (twoSquaresSplit twoSquares.spans).Pairwise
      (fun a b => ∀ pt, ¬ (a.contains pt = true ∧ b.contains pt = true)) ∧
    (∀ pt, twoSquares.spans.contains pt = true →
      ∃ c ∈ twoSquaresSplit twoSquares.spans, c.contains pt = true) ∧
    ∃ outs, twoSquares.split twoSquaresSplit = some outs ∧
      outs.length = (twoSquaresSplit twoSquares.spans).length ∧
      ∀ p ∈ twoSquares.peaks.records,
        (∀ (i j : Nat) (o1 o2 : Footprint), outs[i]? = some o1 → outs[j]? = some o2 →
          p ∈ o1.peaks.records → p ∈ o2.peaks.records → i = j) ∧
        (twoSquares.spans.contains ⟨p.ix, p.iy⟩ = true →
          ∃ (i : Nat) (o : Footprint), outs[i]? = some o ∧ p ∈ o.peaks.records) := by
  have h1 : (twoSquaresSplit twoSquares.spans).Pairwise
      (fun a b => ∀ pt, ¬ (a.contains pt = true ∧ b.contains pt = true)) := by
    simp [twoSquaresSplit, SpanSet.contains, Span.contains]
    intro pt h _ _ h2
    omega
  have h2 : ∀ pt, twoSquares.spans.contains pt = true →
      ∃ c ∈ twoSquaresSplit twoSquares.spans, c.contains pt = true := by
    intro pt
    simp [twoSquaresSplit, twoSquares, SpanSet.contains, Span.contains]
  exact ⟨by decide, h1, h2,
    Footprint.split_no_duplicate twoSquaresSplit twoSquares (by decide) h1 h2⟩

/-! ## Footprint::operator== -/

/-- C6 (as stated, refuted): two footprints with equal spans and one peak each,
equal in `ix`, `iy` and peak value but with float positions 0.5 and 0.0, are
not equal: the float coordinates take part in the comparison. -/
theorem Footprint.eq_compares_float_position :
    eqExampleA.peaks.size = eqExampleB.peaks.size ∧
    (∀ p ∈ eqExampleA.peaks.records, ∃ q ∈ eqExampleB.peaks.records,
      p.ix = q.ix ∧ p.iy = q.iy ∧ p.peakValue = q.peakValue) ∧
    eqExampleA.spans = eqExampleB.spans ∧
    (∀ p ∈ eqExampleA.peaks.records, p.fx.Valid ∧ p.fy.Valid ∧ p.peakValue.Valid) ∧
    (∀ p ∈ eqExampleB.peaks.records, p.fx.Valid ∧ p.fy.Valid ∧ p.peakValue.Valid) ∧
    Footprint.eq eqExampleA eqExampleB = false := by
  decide

/-- C6 (amended): `a == b` holds exactly when the peak catalogs have the same
size, every peak of `a` has a peak of `b` with the same `ix`, `iy`, `fx`, `fy`
and peak value, and the SpanSets are equal; the regions and the order of the
peaks play no part. -/
theorem Footprint.eq_spec (a b : Footprint) :
    (Footprint.eq a b = true ↔
      a.peaks.size = b.peaks.size ∧
      (∀ p ∈ a.peaks.records, ∃ q ∈ b.peaks.records,
        p.ix = q.ix ∧ p.iy = q.iy ∧ p.fx = q.fx ∧ p.fy = q.fy ∧ p.peakValue = q.peakValue) ∧
      a.spans = b.spans) ∧
    (∀ r s : Box2I,
      Footprint.eq { a with region := r } { b with region := s } = Footprint.eq a b) ∧
    (∀ c d : Footprint, c.spans = a.spans → d.spans = b.spans →
      c.peaks.records.Perm a.peaks.records → d.peaks.records.Perm b.peaks.records →
      Footprint.eq c d = Footprint.eq a b) := by
  refine ⟨Footprint.eq_iff a b, fun r s => rfl, ?_⟩
  intro c d hc hd pc pd
  rw [Bool.eq_iff_iff, Footprint.eq_iff, Footprint.eq_iff, hc, hd]
  simp only [PeakCatalog.size, pc.length_eq, pd.length_eq]
  constructor
  · rintro ⟨h1, h2, h3⟩
    refine ⟨h1, ?_, h3⟩
    intro p hp
    obtain ⟨q, hq, hm⟩ := h2 p (pc.mem_iff.mpr hp)
    exact ⟨q, pd.mem_iff.mp hq, hm⟩
  · rintro ⟨h1, h2, h3⟩
    refine ⟨h1, ?_, h3⟩
    intro p hp
    obtain ⟨q, hq, hm⟩ := h2 p (pc.mem_iff.mp hp)
    exact ⟨q, pd.mem_iff.mpr hq, hm⟩

/-! ## Footprint::transform -/

/-- C7 (code evaluated at the failing input): with the identity mapping, the
peak at float position (1.0, 2.0) comes out at (1.0, 1.0), because the point
handed to `forwardTransform` is `(getFx(), getFx())`; the mapping applied to the
peak's own x and y would give y = 2.0. -/
theorem Footprint.transform_passes_fx_twice :
    Footprint.transform (fun (_ _ : Unit) => identityTransform) (fun s _ => s)
        transformExample () () ⟨0, 0, 9, 9⟩ false =
      some { spans := ⟨[⟨2, 1, 1⟩]⟩,
             peaks := ⟨PeakTable.makeMinimalSchema, [⟨1, 1, F32.ofInt 1, F32.ofInt 1, F32.ofInt 5⟩]⟩,
             region := ⟨0, 0, 9, 9⟩ } ∧
    (identityTransform.forwardTransform ⟨(F32.ofInt 1).toF64, (F32.ofInt 2).toF64⟩).y.toF32
      = F32.ofInt 2 ∧
    F32.ofInt 1 ≠ F32.ofInt 2 := by
  decide

/-- C8: `transform` reads `f` only and returns a new footprint. Without
clipping its region is the given region, its peak schema is that of `f` and its
spans are the spans of `f` `transformedBy` the mapping built from
`(target, source)`; with clipping the result is the unclipped result after
`clipTo(region)`: its spans are the clipped spans, they lie inside `region`, and
every peak left has its integer position in them. -/
theorem Footprint.transform_spec {Wcs : Type} (XYTransformFromWcsPair : Wcs → Wcs → XYTransform)
    (transformedBy : SpanSet → XYTransform → SpanSet)
    (f : Footprint) (source target : Wcs) (region : Box2I) :
    ∃ g h : Footprint,
      Footprint.transform XYTransformFromWcsPair transformedBy f source target region false
        = some g ∧
      Footprint.transform XYTransformFromWcsPair transformedBy f source target region true
        = some h ∧
      g.region = region ∧ g.peaks.schema = f.peaks.schema ∧
      g.spans = transformedBy f.spans (XYTransformFromWcsPair target source) ∧
      g.clipTo region = some h ∧
      h.region = region ∧ h.peaks.schema = f.peaks.schema ∧
      h.spans = g.spans.clippedTo region ∧
      (∀ pt, h.spans.contains pt = true → region.contains pt = true) ∧
      (∀ p ∈ h.peaks.records, h.spans.contains ⟨p.ix, p.iy⟩ = true) := by
  refine ⟨Footprint.transformPeaks (XYTransformFromWcsPair target source)
      (Footprint.mk3 (transformedBy f.spans (XYTransformFromWcsPair target source))
        f.peaks.schema region) f.peaks.records, _, by simp [Footprint.transform], ?_, ?_, ?_,
    ?_, Footprint.clipTo_eq _ region, ?_, ?_, rfl, ?_, ?_⟩
  · simp [Footprint.transform, Footprint.clipTo_eq]
  · simp [Footprint.transformPeaks_eq, Footprint.mk3]
  · simp [Footprint.transformPeaks_eq, Footprint.mk3]
  · simp [Footprint.transformPeaks_eq, Footprint.mk3]
  · simp [Footprint.transformPeaks_eq, Footprint.mk3]
  · simp [Footprint.transformPeaks_eq, Footprint.mk3]
  · intro pt hpt
    exact SpanSet.clippedTo_within _ _ _ hpt
  · intro p hp
    exact (List.mem_filter.mp hp).2

/-! ## Footprint::addPeak and Footprint::sortPeaks -/

/-- C9 (as stated, refuted): `addPeak` with `fx = 3.0e9f`, a float whose integer
part 3000000000 is not a value of `int`, returns a record with `Fx = 3.0e9f` and
`Ix = -2147483648`, not `fx` truncated toward zero. -/
theorem Footprint.addPeak_out_of_int_range :
    (F32.ofInt 3000000000).Valid ∧
    (F32.ofInt 3000000000).k = 3000000000 * ((2 ^ 149 : Nat) : Int) ∧
    (splitExample.addPeak (F32.ofInt 3000000000) F32.zero (F32.ofInt 1)).2.fx
      = F32.ofInt 3000000000 ∧
    (splitExample.addPeak (F32.ofInt 3000000000) F32.zero (F32.ofInt 1)).2.ix = -2147483648 ∧
    (-2147483648 : Int) ≠ 3000000000 := by
  decide

/-- C9 (amended): `addPeak(fx, fy, height)` appends one record at the end of the
catalog and leaves the earlier records, the schema, the spans and the region
alone; the record has `Fx = fx`, `Fy = fy`, peak value `height`, and `Ix` is
`fx` truncated toward zero when that integer is a value of `int`, likewise `Iy`
for `fy`: the magnitude is the integer part of the magnitude and the sign is
kept; `fx = -0.5` gives `Ix = 0`. -/
theorem Footprint.addPeak_spec (f : Footprint) (fx fy height : F32) :
    (f.addPeak fx fy height).1.peaks.records
      = f.peaks.records ++ [(f.addPeak fx fy height).2] ∧
    (f.addPeak fx fy height).1.peaks.schema = f.peaks.schema ∧
    (f.addPeak fx fy height).1.spans = f.spans ∧
    (f.addPeak fx fy height).1.region = f.region ∧
    (f.addPeak fx fy height).2.fx = fx ∧
    (f.addPeak fx fy height).2.fy = fy ∧
    (f.addPeak fx fy height).2.peakValue = height ∧
    (-2147483648 ≤ Int.tdiv fx.k (F32.one : Nat) ∧ Int.tdiv fx.k (F32.one : Nat) < 2147483648 →
      (f.addPeak fx fy height).2.ix = Int.tdiv fx.k (F32.one : Nat) ∧
      (f.addPeak fx fy height).2.ix.natAbs = fx.k.natAbs / F32.one ∧
      (0 ≤ fx.k → 0 ≤ (f.addPeak fx fy height).2.ix) ∧
      (fx.k ≤ 0 → (f.addPeak fx fy height).2.ix ≤ 0)) ∧
    (-2147483648 ≤ Int.tdiv fy.k (F32.one : Nat) ∧ Int.tdiv fy.k (F32.one : Nat) < 2147483648 →
      (f.addPeak fx fy height).2.iy = Int.tdiv fy.k (F32.one : Nat) ∧
      (f.addPeak fx fy height).2.iy.natAbs = fy.k.natAbs / F32.one ∧
      (0 ≤ fy.k → 0 ≤ (f.addPeak fx fy height).2.iy) ∧
      (fy.k ≤ 0 → (f.addPeak fx fy height).2.iy ≤ 0)) ∧
    (f.addPeak ⟨-((2 ^ 148 : Nat) : Int)⟩ fy height).2.ix = 0 := by
  have key : ∀ x : F32,
      (-2147483648 ≤ Int.tdiv x.k (F32.one : Nat) ∧ Int.tdiv x.k (F32.one : Nat) < 2147483648) →
      x.toInt = Int.tdiv x.k (F32.one : Nat) ∧ x.toInt.natAbs = x.k.natAbs / F32.one ∧
      (0 ≤ x.k → 0 ≤ x.toInt) ∧ (x.k ≤ 0 → x.toInt ≤ 0) := by
    intro x h
    have h1 : x.toInt = x.trunc := F32.toInt_of_inRange x h
    rw [h1]
    exact ⟨rfl, F32.trunc_spec x⟩
  refine ⟨rfl, rfl, rfl, rfl, rfl, rfl, rfl, key fx, key fy, ?_⟩
  simp only [Footprint.addPeak]
  decide

/-- C9 (amended), at a concrete input: `addPeak(1.5, 2.5, 1.0)` on the one-pixel
footprint gives a record with `Ix = 1` and `Iy = 2`. -/
theorem Footprint.addPeak_spec_witness :
    (-2147483648 ≤ Int.tdiv F32.oneAndHalf.k (F32.one : Nat) ∧
      Int.tdiv F32.oneAndHalf.k (F32.one : Nat) < 2147483648) ∧
    (splitExample.addPeak F32.oneAndHalf F32.twoAndHalf (F32.ofInt 1)).2
      = ⟨1, 2, F32.oneAndHalf, F32.twoAndHalf, F32.ofInt 1⟩ ∧
    (splitExample.addPeak F32.oneAndHalf F32.twoAndHalf (F32.ofInt 1)).2.ix
      = Int.tdiv F32.oneAndHalf.k (F32.one : Nat) :=
  ⟨by decide, by decide,
    ((Footprint.addPeak_spec splitExample F32.oneAndHalf F32.twoAndHalf
      (F32.ofInt 1)).2.2.2.2.2.2.2.1 (by decide)).1⟩

/-- C10: after `sortPeaks(key)` the catalog is a permutation of the catalog
before, spans, region and schema are unchanged, and the values of the sort key
are non-increasing along the catalog; the sort key is `key` when it is valid and
the peak value when it is not, as for the default-constructed key. -/
theorem Footprint.sortPeaks_spec (f : Footprint) (key : FloatKey) :
    (f.sortPeaks key).peaks.records.Perm f.peaks.records ∧
    (f.sortPeaks key).spans = f.spans ∧
    (f.sortPeaks key).region = f.region ∧
    (f.sortPeaks key).peaks.schema = f.peaks.schema ∧
    (key.isValid = true → (f.sortPeaks key).peaks.records.Pairwise
      (fun a b => (b.get key).k ≤ (a.get key).k)) ∧
    (key.isValid = false → (f.sortPeaks key).peaks.records.Pairwise
      (fun a b => b.peakValue.k ≤ a.peakValue.k)) ∧
    (f.sortPeaks FloatKey.default).peaks.records.Pairwise
      (fun a b => b.peakValue.k ≤ a.peakValue.k) := by
  have hsorted : ∀ k : FloatKey, (stableSort
      (fun a b : PeakRecord => (a.get k).gt (b.get k)) f.peaks.records).Pairwise
      (fun a b => (b.get k).k ≤ (a.get k).k) :=
    fun k => stableSort_sorted (fun r : PeakRecord => (r.get k).k) f.peaks.records
  refine ⟨stableSort_perm _ _, rfl, rfl, rfl, ?_, ?_, ?_⟩
  · intro hv
    simp only [Footprint.sortPeaks, PeakCatalog.sort, hv, if_true]
    exact hsorted key
  · intro hv
    simp only [Footprint.sortPeaks, PeakCatalog.sort, hv, Bool.false_eq_true, if_false]
    exact hsorted PeakTable.getPeakValueKey
  · exact hsorted PeakTable.getPeakValueKey

/-- C11: `sortPeaks` is stable: two peaks with equal values of the sort key, the
first before the second in the catalog, are in the same order after the call;
for every value the peaks with that value of the sort key come out in the order
in which they went in. -/
theorem Footprint.sortPeaks_stable (f : Footprint) (key : FloatKey) (p q : PeakRecord)
    (hbefore : [p, q].Sublist f.peaks.records)
    (hkey : (p.get (if key.isValid then key else PeakTable.getPeakValueKey)).k
      = (q.get (if key.isValid then key else PeakTable.getPeakValueKey)).k) :
    [p, q].Sublist (f.sortPeaks key).peaks.records ∧
    ∀ v : Int, (f.sortPeaks key).peaks.records.filter
        (fun r => decide ((r.get (if key.isValid then key else PeakTable.getPeakValueKey)).k = v))
      = f.peaks.records.filter
        (fun r => decide ((r.get (if key.isValid then key else PeakTable.getPeakValueKey)).k = v)) := by
  constructor
  · exact stableSort_keeps_order
      (fun r : PeakRecord => (r.get (if key.isValid then key else PeakTable.getPeakValueKey)).k)
      f.peaks.records p q hbefore hkey
  · intro v
    exact stableSort_filter_key
      (fun r : PeakRecord => (r.get (if key.isValid then key else PeakTable.getPeakValueKey)).k)
      v f.peaks.records

/-- C11 at a concrete input: two peaks of equal value sorted by the default key. -/
theorem Footprint.sortPeaks_stable_witness :
    [(⟨5, 0, F32.ofInt 5, F32.ofInt 0, F32.ofInt 1⟩ : PeakRecord),
      ⟨2, 0, F32.ofInt 2, F32.ofInt 0, F32.ofInt 1⟩].Sublist sortExample.peaks.records ∧
    ((⟨5, 0, F32.ofInt 5, F32.ofInt 0, F32.ofInt 1⟩ : PeakRecord).get
        (if FloatKey.default.isValid then FloatKey.default else PeakTable.getPeakValueKey)).k
      = ((⟨2, 0, F32.ofInt 2, F32.ofInt 0, F32.ofInt 1⟩ : PeakRecord).get
        (if FloatKey.default.isValid then FloatKey.default else PeakTable.getPeakValueKey)).k ∧
    [(⟨5, 0, F32.ofInt 5, F32.ofInt 0, F32.ofInt 1⟩ : PeakRecord),
      ⟨2, 0, F32.ofInt 2, F32.ofInt 0, F32.ofInt 1⟩].Sublist
        (sortExample.sortPeaks FloatKey.default).peaks.records :=
  ⟨by decide, by decide,
    (Footprint.sortPeaks_stable sortExample FloatKey.default
      ⟨5, 0, F32.ofInt 5, F32.ofInt 0, F32.ofInt 1⟩ ⟨2, 0, F32.ofInt 2, F32.ofInt 0, F32.ofInt 1⟩
      (by decide) (by decide)).1⟩

/-! ## Footprint::erode -/

/-- C12: `erode(r, stencil)` and `erode(otherSpanSet)` return; afterwards the
spans are the result of the SpanSet's `erode`, every peak left has its integer
position in the new spans, and every peak of `f` whose integer position is in
the new spans is still present, in the old order. -/
theorem Footprint.erode_spec (spanSetErode : SpanSet → Int → Stencil → SpanSet)
    (spanSetErodeBy : SpanSet → SpanSet → SpanSet) (f : Footprint) (r : Int) (s : Stencil)
    (other : SpanSet) :
    (∃ g, f.erode spanSetErode r s = some g ∧
      g.spans = spanSetErode f.spans r s ∧
      g.region = f.region ∧ g.peaks.schema = f.peaks.schema ∧
      (∀ p ∈ g.peaks.records, g.spans.contains ⟨p.ix, p.iy⟩ = true) ∧
      (∀ p ∈ f.peaks.records, g.spans.contains ⟨p.ix, p.iy⟩ = true → p ∈ g.peaks.records) ∧
      g.peaks.records = f.peaks.records.filter (fun p => g.spans.contains ⟨p.ix, p.iy⟩)) ∧
    (∃ g, f.erodeBy spanSetErodeBy other = some g ∧
      g.spans = spanSetErodeBy f.spans other ∧
      g.region = f.region ∧ g.peaks.schema = f.peaks.schema ∧
      (∀ p ∈ g.peaks.records, g.spans.contains ⟨p.ix, p.iy⟩ = true) ∧
      (∀ p ∈ f.peaks.records, g.spans.contains ⟨p.ix, p.iy⟩ = true → p ∈ g.peaks.records) ∧
      g.peaks.records = f.peaks.records.filter (fun p => g.spans.contains ⟨p.ix, p.iy⟩)) := by
  constructor
  · refine ⟨_, Footprint.removeOrphanPeaks_eq _, rfl, rfl, rfl, ?_, ?_, rfl⟩
    · intro p hp
      exact (List.mem_filter.mp hp).2
    · intro p hp hc
      exact List.mem_filter.mpr ⟨hp, hc⟩
  · refine ⟨_, Footprint.removeOrphanPeaks_eq _, rfl, rfl, rfl, ?_, ?_, rfl⟩
    · intro p hp
      exact (List.mem_filter.mp hp).2
    · intro p hp hc
      exact List.mem_filter.mpr ⟨hp, hc⟩

/-! ## Array keys -/

/-- C17: for a variable-length array key `key[i]` raises `LogicError` for every
`i`; for a fixed-length key of size `n` it raises `LengthError` exactly when
`i < 0` or `i >= n`, and otherwise returns the element key extracted at `i`. -/
theorem KeyBase.subscript_spec {K : Type} (extractElement : ArrayKey → Int → K)
    (self : ArrayKey) (i : Int) :
    (self.isVariableLength = true →
      KeyBase.subscript extractElement self i = Outcome.fails Failure.LogicError) ∧
    (self.isVariableLength = false →
      (KeyBase.subscript extractElement self i = Outcome.fails Failure.LengthError ↔
        (i < 0 ∨ i ≥ self.getSize)) ∧
      (¬ (i < 0 ∨ i ≥ self.getSize) →
        KeyBase.subscript extractElement self i = Outcome.ok (extractElement self i))) := by
  refine ⟨?_, ?_⟩
  · intro hv
    simp [KeyBase.subscript, hv]
  · intro hv
    by_cases h : i ≥ self.getSize ∨ i < 0
    · have h2 : i < 0 ∨ i ≥ self.getSize := h.symm
      simp [KeyBase.subscript, hv, h, h2]
    · have h2 : ¬ (i < 0 ∨ i ≥ self.getSize) := fun c => h c.symm
      simp only [KeyBase.subscript, hv, Bool.false_eq_true, if_false, h, h2, iff_false,
        not_false_eq_true, true_implies, and_true]
      intro c
      cases c

/-- C18: `slice(begin, end)` raises `LogicError` for a variable-length key; for
a fixed-length key of size `n` it raises `LengthError` exactly when `begin` or
`end` lies outside `[0, n]`, and otherwise returns `extractRange(begin, end)`:
`begin == n` is accepted, and so is a pair with `begin > end` inside `[0, n]`. -/
theorem KeyBase.slice_spec {K : Type} (extractRange : ArrayKey → Int → Int → K)
    (self : ArrayKey) (begin_ end_ : Int) :
    (self.isVariableLength = true →
      KeyBase.slice extractRange self begin_ end_ = Outcome.fails Failure.LogicError) ∧
    (self.isVariableLength = false →
      (KeyBase.slice extractRange self begin_ end_ = Outcome.fails Failure.LengthError ↔
        ¬ (0 ≤ begin_ ∧ begin_ ≤ self.getSize ∧ 0 ≤ end_ ∧ end_ ≤ self.getSize)) ∧
      ((0 ≤ begin_ ∧ begin_ ≤ self.getSize ∧ 0 ≤ end_ ∧ end_ ≤ self.getSize) →
        KeyBase.slice extractRange self begin_ end_
          = Outcome.ok (extractRange self begin_ end_))) ∧
    (self.isVariableLength = false →
      KeyBase.slice extractRange self self.getSize self.getSize
        = Outcome.ok (extractRange self self.getSize self.getSize)) ∧
    (self.isVariableLength = false → 0 ≤ end_ → end_ < begin_ → begin_ ≤ self.getSize →
      KeyBase.slice extractRange self begin_ end_
        = Outcome.ok (extractRange self begin_ end_)) := by
  have hsize : (0 : Int) ≤ self.getSize := by simp [ArrayKey.getSize]
  refine ⟨?_, ?_, ?_, ?_⟩
  · intro hv
    simp [KeyBase.slice, hv]
  · intro hv
    by_cases hb : begin_ > self.getSize ∨ begin_ < 0
    · have hn : ¬ (0 ≤ begin_ ∧ begin_ ≤ self.getSize ∧ 0 ≤ end_ ∧ end_ ≤ self.getSize) := by
        omega
      simp [KeyBase.slice, hv, hb, hn]
    · by_cases he : end_ > self.getSize ∨ end_ < 0
      · have hn : ¬ (0 ≤ begin_ ∧ begin_ ≤ self.getSize ∧ 0 ≤ end_ ∧ end_ ≤ self.getSize) := by
          omega
        simp [KeyBase.slice, hv, hb, he, hn]
      · have hy : 0 ≤ begin_ ∧ begin_ ≤ self.getSize ∧ 0 ≤ end_ ∧ end_ ≤ self.getSize := by
          omega
        simp only [KeyBase.slice, hv, Bool.false_eq_true, if_false, hb, he, hy, not_true_eq_false,
          iff_false, true_implies, and_true]
        intro c
        cases c
  · intro hv
    have hb : ¬ (self.getSize > self.getSize ∨ self.getSize < 0) := by omega
    simp only [KeyBase.slice, hv, Bool.false_eq_true, if_false, hb]
  · intro hv h0 hlt hle
    have hb : ¬ (begin_ > self.getSize ∨ begin_ < 0) := by omega
    have he : ¬ (end_ > self.getSize ∨ end_ < 0) := by omega
    simp [KeyBase.slice, hv, hb, he]

/-- C19: the three array setters of the Python layer are the same function. For
a fixed-length key of size `n > 0` and a value of length `m` the call raises
`LengthError` exactly when `m != n` and then leaves the record as it was; when
`m == n` it succeeds and the array of the record is the value afterwards. For
a variable-length key (size 0) no length is checked: the call succeeds and the
record holds the value. The key is a key of the record: its elements lie in
the block of the record. -/
theorem arraySetter_spec {U : Type} (key : ArrayKey) (record : ArrayRecord U)
    (value : List U) (hfit : key.offset + key.size ≤ record.block.length) :
    declareBaseRecordArrayOverloads_setter record key value
      = declareKeyAccessors_setter key record value ∧
    addKeyAccessors_setter key record value = declareKeyAccessors_setter key record value ∧
    (0 < key.size →
      ((declareKeyAccessors_setter key record value).2 = Outcome.fails Failure.LengthError ↔
        value.length ≠ key.size) ∧
      (value.length ≠ key.size → (declareKeyAccessors_setter key record value).1 = record) ∧
      (value.length = key.size →
        (declareKeyAccessors_setter key record value).2 = Outcome.ok () ∧
        ((declareKeyAccessors_setter key record value).1).view key = value)) ∧
    (key.size = 0 →
      (declareKeyAccessors_setter key record value).2 = Outcome.ok () ∧
      ((declareKeyAccessors_setter key record value).1).getVariable key = value) := by
  refine ⟨rfl, rfl, ?_, ?_⟩
  · intro hpos
    have hne : ¬ (key.getSize = 0) := by simp [ArrayKey.getSize]; omega
    have hlen := ArrayRecord.view_length record key hfit
    by_cases hm : value.length = key.size
    · have hc : ¬ (value.length ≠ (record.view key).length) := by rw [hlen]; simpa using hm
      have hset : declareKeyAccessors_setter key record value
          = (record.assignView key value, Outcome.ok ()) := by
        simp only [declareKeyAccessors_setter, hne, if_false, hc]
      rw [hset]
      refine ⟨?_, fun c => absurd hm c, fun _ =>
        ⟨rfl, ArrayRecord.view_assignView record key value hfit hm⟩⟩
      constructor
      · intro c
        cases c
      · intro c
        exact absurd hm c
    · have hc : value.length ≠ (record.view key).length := by rw [hlen]; exact hm
      have hset : declareKeyAccessors_setter key record value
          = (record, Outcome.fails Failure.LengthError) := by
        simp only [declareKeyAccessors_setter, hne, if_false]
        exact if_pos hc
      rw [hset]
      exact ⟨⟨fun _ => hm, fun _ => rfl⟩, fun _ => rfl, fun c => absurd c hm⟩
  · intro hz
    have he : key.getSize = 0 := by simp [ArrayKey.getSize, hz]
    simp only [declareKeyAccessors_setter, he, if_true, true_and]
    exact ArrayRecord.getVariable_set record key value

/-- C19 at a concrete input: the two-element array at offset 1 of a four-element record. -/
theorem arraySetter_spec_witness :
    arrayExampleKey.offset + arrayExampleKey.size ≤ arrayExample.block.length ∧
    (declareKeyAccessors_setter arrayExampleKey arrayExample [7, 8, 9]).2
      = Outcome.fails Failure.LengthError ∧
    (declareKeyAccessors_setter arrayExampleKey arrayExample [7, 8]).1.block = [10, 7, 8, 40] ∧
    (0 < arrayExampleKey.size →
      ((declareKeyAccessors_setter arrayExampleKey arrayExample [7, 8]).2
          = Outcome.fails Failure.LengthError ↔ [7, 8].length ≠ arrayExampleKey.size) ∧
      ([7, 8].length ≠ arrayExampleKey.size →
        (declareKeyAccessors_setter arrayExampleKey arrayExample [7, 8]).1 = arrayExample) ∧
      ([7, 8].length = arrayExampleKey.size →
        (declareKeyAccessors_setter arrayExampleKey arrayExample [7, 8]).2 = Outcome.ok () ∧
        ((declareKeyAccessors_setter arrayExampleKey arrayExample [7, 8]).1).view arrayExampleKey
          = [7, 8])) :=
  ⟨by decide, by decide, by decide,
    (arraySetter_spec arrayExampleKey arrayExample [7, 8] (by decide)).2.2.1⟩

/-! ## Persistence -/

/-- C13: for a footprint whose peak schema contains the minimal peak schema and
an archive that gives back the spans for the id under which they were put,
`FootprintFactory::read` applied to the two catalogs that `write` produces
returns a footprint with the same spans and the same peak catalog, equal to the
original under `operator==`. -/
theorem Footprint.write_read_roundtrip (put : SpanSet → Int) (get : Int → SpanSet)
    (f : Footprint) (hget : get (put f.spans) = f.spans)
    (hschema : f.peaks.schema.contains PeakTable.makeMinimalSchema = true) :
    ∃ g, FootprintFactory.read get (f.write put) = Outcome.ok g ∧
      g.spans = f.spans ∧ g.peaks = f.peaks ∧ Footprint.eq g f = true := by
  refine ⟨_, Footprint.read_write_eq put get f hschema, hget, rfl, ?_⟩
  rw [Footprint.eq_iff]
  refine ⟨rfl, ?_, hget⟩
  intro p hp
  exact ⟨p, hp, rfl, rfl, rfl, rfl, rfl⟩

/-- C13 at a concrete input: the one-peak footprint, stored under the id 7. -/
theorem Footprint.write_read_roundtrip_witness :
    (fun _ => shiftExample.spans) ((fun _ => 7) shiftExample.spans) = shiftExample.spans ∧
    shiftExample.peaks.schema.contains PeakTable.makeMinimalSchema = true ∧
    ∃ g, FootprintFactory.read (fun _ => shiftExample.spans) (shiftExample.write (fun _ => 7))
        = Outcome.ok g ∧
      g.spans = shiftExample.spans ∧ g.peaks = shiftExample.peaks ∧
      Footprint.eq g shiftExample = true :=
  ⟨rfl, by decide,
    Footprint.write_read_roundtrip (fun _ => 7) (fun _ => shiftExample.spans) shiftExample rfl
      (by decide)⟩

/-- C14: `FootprintFactory::read` raises the archive error for every catalog
vector whose size is not 2, and `readSpanSet` raises it for every span catalog
whose schema has neither 1 nor 3 fields; no footprint is returned. -/
theorem FootprintFactory.read_malformed (get : Int → SpanSet) (catalogs : List BaseCatalog)
    (catalog : BaseCatalog) (hsize : catalogs.length ≠ 2)
    (hcount : catalog.schema.getFieldCount ≠ 1 ∧ catalog.schema.getFieldCount ≠ 3) :
    FootprintFactory.read get catalogs = Outcome.fails Failure.archiveAssertion ∧
    Footprint.readSpanSet catalog get = Outcome.fails Failure.archiveAssertion ∧
    (∀ g, FootprintFactory.read get catalogs ≠ Outcome.ok g) ∧
    (∀ g, Footprint.readSpanSet catalog get ≠ Outcome.ok g) := by
  have h1 : FootprintFactory.read get catalogs = Outcome.fails Failure.archiveAssertion := by
    have hb : (catalogs.length == 2) = false := by simpa using hsize
    simp only [FootprintFactory.read, archiveAssert, hb, Bool.false_eq_true, if_false, bind,
      Outcome.bind]
  have h2 : Footprint.readSpanSet catalog get = Outcome.fails Failure.archiveAssertion := by
    have hb : (catalog.schema.getFieldCount == 1 || catalog.schema.getFieldCount == 3)
        = false := by
      simp [hcount.1, hcount.2]
    simp only [Footprint.readSpanSet, archiveAssert, hb, Bool.false_eq_true, if_false, bind,
      Outcome.bind]
  refine ⟨h1, h2, ?_, ?_⟩
  · intro g hg
    rw [h1] at hg
    cases hg
  · intro g hg
    rw [h2] at hg
    cases hg

/-- C14 at a concrete input: a vector of one catalog, and a catalog of two fields. -/
theorem FootprintFactory.read_malformed_witness :
    ([legacyPeakCat] : List BaseCatalog).length ≠ 2 ∧
    (({ schema := ⟨["a", "b"]⟩, records := [] } : BaseCatalog).schema.getFieldCount ≠ 1 ∧
      ({ schema := ⟨["a", "b"]⟩, records := [] } : BaseCatalog).schema.getFieldCount ≠ 3) ∧
    FootprintFactory.read (fun _ => ⟨[]⟩) [legacyPeakCat]
      = Outcome.fails Failure.archiveAssertion ∧
    Footprint.readSpanSet { schema := ⟨["a", "b"]⟩, records := [] } (fun _ => ⟨[]⟩)
      = Outcome.fails Failure.archiveAssertion :=
  ⟨by decide, by decide,
    (FootprintFactory.read_malformed (fun _ => ⟨[]⟩) [legacyPeakCat]
      { schema := ⟨["a", "b"]⟩, records := [] } (by decide) (by decide)).1,
    (FootprintFactory.read_malformed (fun _ => ⟨[]⟩) [legacyPeakCat]
      { schema := ⟨["a", "b"]⟩, records := [] } (by decide) (by decide)).2.1⟩

/-- C15 (code evaluated at the failing input): a peak catalog of the old form
with one record (x, y, value) = (1.5, 2.5, 10) is read into a footprint without
peaks. The records are added to the local copy `peaks`, which ends with the
peak (Ix, Iy, Fx, Fy, value) = (1, 2, 1.5, 2.5, 10); the footprint is returned
as it came, with no peak instead of the `peakCat.size() = 1` peaks of the catalog. -/
theorem Footprint.readPeaks_legacy_loses_peaks :
    legacyPeakCat.schema.contains PeakTable.makeMinimalSchema = false ∧
    legacyPeakCat.records.length = 1 ∧
    loadedExample.peaks.records = [] ∧
    Footprint.readPeaks legacyPeakCat loadedExample = Outcome.ok loadedExample ∧
    Footprint.readPeaksLegacy legacyPeakCat loadedExample
      = Outcome.ok (loadedExample, ⟨PeakTable.makeMinimalSchema,
          [⟨1, 2, F32.oneAndHalf, F32.twoAndHalf, F32.ofInt 10⟩]⟩) := by
  decide

/-- C16: for a span catalog with three fields, of rows `(y, x0, x1)`,
`readSpanSet` returns a footprint without peaks whose SpanSet is the one
constructed from the spans `Span(y, x0, x1)` of the rows, in row order, whatever
the archive; for a catalog with one field it returns a footprint without peaks
whose SpanSet is `archive.get(id)` for the id of the first record. -/
theorem Footprint.readSpanSet_spec (a b c name : String) (rows : List (Int × Int × Int))
    (id : Int) (rest : List BaseRecord) (get : Int → SpanSet) :
    (∃ g, Footprint.readSpanSet ⟨⟨[a, b, c]⟩, rows.map (fun r =>
          ⟨[FieldValue.int r.1, FieldValue.int r.2.1, FieldValue.int r.2.2]⟩)⟩ get
        = Outcome.ok g ∧
      g.peaks.records = [] ∧
      g.spans = SpanSet.ofSpans (rows.map (fun r => Span.mk r.1 r.2.1 r.2.2)) true ∧
      ∀ get2 : Int → SpanSet, Footprint.readSpanSet ⟨⟨[a, b, c]⟩, rows.map (fun r =>
          ⟨[FieldValue.int r.1, FieldValue.int r.2.1, FieldValue.int r.2.2]⟩)⟩ get2
        = Outcome.ok g) ∧
    (∃ g, Footprint.readSpanSet ⟨⟨[name]⟩, ⟨[FieldValue.int id]⟩ :: rest⟩ get = Outcome.ok g ∧
      g.peaks.records = [] ∧ g.spans = get id) := by
  have h3 : ∀ get2 : Int → SpanSet, Footprint.readSpanSet ⟨⟨[a, b, c]⟩, rows.map (fun r =>
        ⟨[FieldValue.int r.1, FieldValue.int r.2.1, FieldValue.int r.2.2]⟩)⟩ get2
      = Outcome.ok (Footprint.mk2
          (SpanSet.ofSpans (rows.map (fun r => Span.mk r.1 r.2.1 r.2.2)) true) Box2I.empty) := by
    intro get2
    have hr := Footprint.readSpans_rows rows
    have hc : ((⟨[a, b, c]⟩ : Schema).getFieldCount == 1) = false := rfl
    have hd : ((⟨[a, b, c]⟩ : Schema).getFieldCount == 3) = true := rfl
    simp only [Footprint.readSpanSet, archiveAssert, hc, hd, Bool.false_or, if_true, bind,
      Outcome.bind, Bool.false_eq_true, if_false, hr, pure]
  exact ⟨⟨_, h3 get, rfl, rfl, h3⟩, ⟨_, Footprint.readSpanSet_id name id rest get, rfl, rfl⟩⟩

/-! ## maskToSpanSet -/

/-- C20: `maskToSpanSet(mask, b)` selects exactly the pixels whose value `v`
satisfies `(v & b) == b`. Its spans are the maximal runs of such pixels in the
rows: they are not empty, they come row by row and from left to right without
touching, and the pixels next to the two ends of a span are not selected. The
3x3 mask that is zero but for pixel (1, 1) = 1 gives, for `b = 1`, the single
span (y = 1, x0 = 1, x1 = 1), of area 1. -/
theorem declareMaskToSpanSetFunction_spec (mask : Mask) (bitmask : Nat) :
    (∀ pt, (declareMaskToSpanSetFunction mask bitmask).contains pt = true ↔
      ∃ v, mask.get? pt = some v ∧ v &&& bitmask = bitmask) ∧
    (declareMaskToSpanSetFunction mask bitmask).spans.Pairwise
      (fun s t => s.y < t.y ∨ (s.y = t.y ∧ s.x1 + 1 < t.x0)) ∧
    (∀ s ∈ (declareMaskToSpanSetFunction mask bitmask).spans,
      s.x0 ≤ s.x1 ∧
      (∀ v, mask.get? ⟨s.x0 - 1, s.y⟩ = some v → v &&& bitmask ≠ bitmask) ∧
      (∀ v, mask.get? ⟨s.x1 + 1, s.y⟩ = some v → v &&& bitmask ≠ bitmask)) ∧
    declareMaskToSpanSetFunction maskExample 1 = ⟨[⟨1, 1, 1⟩]⟩ ∧
    (declareMaskToSpanSetFunction maskExample 1).getArea = 1 := by
  refine ⟨?_, scanRows_sorted _ _ _ _ _, ?_, by decide, by decide⟩
  · intro pt
    simp only [declareMaskToSpanSetFunction]
    rw [maskToSpanSet_contains]
    simp
  · intro s hs
    have hl := maskToSpanSet_run mask (fun pixval => (pixval &&& bitmask) == bitmask) s hs
      ⟨s.x0 - 1, s.y⟩ ⟨rfl, Or.inl rfl⟩
    have hr := maskToSpanSet_run mask (fun pixval => (pixval &&& bitmask) == bitmask) s hs
      ⟨s.x1 + 1, s.y⟩ ⟨rfl, Or.inr rfl⟩
    refine ⟨hl.1, ?_, ?_⟩
    · intro v hv
      simpa using hl.2 v hv
    · intro v hv
      simpa using hr.2 v hv

/-! ## Footprint::removeOrphanPeaks -/

/-- C24 (code evaluated at the failing input): on the footprint of one pixel at
(0, 0) whose only peak sits at (5, 5), the loop of `removeOrphanPeaks` erases the
peak at `begin()` and then runs `--iter` there: the iterator is moved before
`begin()`, outside the catalog (the flag `beforeBegin` of the final state). The
loop ends, and the footprint is left with its spans, its region and no peak. -/
theorem Footprint.removeOrphanPeaks_steps_before_begin :
    Footprint.removeOrphanPeaksLoop splitExample.spans (splitExample.peaks.records.length + 1)
        ⟨splitExample.peaks.records, 0, false⟩ = some ⟨[], 0, true⟩ ∧
    splitExample.removeOrphanPeaks
      = some { splitExample with peaks := { splitExample.peaks with records := [] } } := by
  decide

/-! ## Footprint::split with one component -/

/-- C25: when the spans' `split()` gives exactly one component, `split` returns
one footprint, made of that component, the region of `f` and the whole peak
catalog of `f` (same schema, same records in the same order, also the records
outside the component); with two or more components each output keeps only the
peaks whose integer position lies in its component. -/
theorem Footprint.split_one_component (spanSetSplit : SpanSet → List SpanSet) (f : Footprint) :
    (∀ c, spanSetSplit f.spans = [c] →
      f.split spanSetSplit = some [{ spans := c, peaks := f.peaks, region := f.region }]) ∧
    (2 ≤ (spanSetSplit f.spans).length →
      f.split spanSetSplit = some ((spanSetSplit f.spans).map (fun c =>
        { spans := c,
          peaks := { f.peaks with
            records := f.peaks.records.filter (fun p => c.contains ⟨p.ix, p.iy⟩) },
          region := f.region }))) := by
  constructor
  · intro c hc
    rw [Footprint.split_eq, hc]
    simp [Footprint.splitPart]
  · intro h2
    have hgt : (spanSetSplit f.spans).length > 1 := by omega
    rw [Footprint.split_eq]
    simp [Footprint.splitPart, hgt]

/-- C25 at a concrete input: the footprint of one pixel whose only peak, at
(5, 5), is outside the spans, with the spans as their single component. -/
theorem Footprint.split_one_component_witness :
    (fun s : SpanSet => [s]) splitExample.spans = [splitExample.spans] ∧
    splitExample.split (fun s => [s])
      = some [⟨splitExample.spans, splitExample.peaks, splitExample.region⟩] :=
  ⟨rfl, (Footprint.split_one_component (fun s => [s]) splitExample).1 splitExample.spans rfl⟩

/-! ## Footprint::dilate -/

/-- C26: `dilate(r, s)` and `dilate(other)` replace the spans by the SpanSet's
dilate result and leave the peak catalog and the region as they were. -/
theorem Footprint.dilate_spec (spanSetDilate : SpanSet → Int → Stencil → SpanSet)
    (spanSetDilateBy : SpanSet → SpanSet → SpanSet) (f : Footprint) (r : Int) (s : Stencil)
    (other : SpanSet) :
    (f.dilate spanSetDilate r s).spans = spanSetDilate f.spans r s ∧
    (f.dilate spanSetDilate r s).peaks = f.peaks ∧
    (f.dilate spanSetDilate r s).region = f.region ∧
    (f.dilateBy spanSetDilateBy other).spans = spanSetDilateBy f.spans other ∧
    (f.dilateBy spanSetDilateBy other).peaks = f.peaks ∧
    (f.dilateBy spanSetDilateBy other).region = f.region :=
  ⟨rfl, rfl, rfl, rfl, rfl, rfl⟩

/-! ## readSpanSet on an empty catalog -/

/-- C27 (code evaluated at the failing input): for a span catalog with the
one-field schema and no record, `readSpanSet` passes the check of the field count
and evaluates `catalog.front()` on the empty catalog, which is undefined; the
archive error is not raised. -/
theorem Footprint.readSpanSet_front_of_empty (get : Int → SpanSet) :
    Footprint.readSpanSet ⟨⟨["id"]⟩, []⟩ get = Outcome.fails Failure.undefinedBehaviour ∧
    Footprint.readSpanSet ⟨⟨["id"]⟩, []⟩ get ≠ Outcome.fails Failure.archiveAssertion := by
  constructor
  · rfl
  · intro h
    cases h

/-! ## Symmetry of operator== -/

/-- C28 (code evaluated at the failing input): `a` holds the same peak twice, `b`
holds that peak and a different one, and the spans are equal. Every peak of `a`
has a match in `b`, so `a == b` is true; the second peak of `b` has no match in
`a`, so `b == a` is false. -/
theorem Footprint.eq_not_symmetric :
    Footprint.eq eqDuplicateA eqDuplicateB = true ∧
    Footprint.eq eqDuplicateB eqDuplicateA = false := by
  decide

/-! ## The region and persistence -/

/-- C29: the two catalogs that `write` produces hold the id of the spans and the
peak records, and do not depend on the region of the footprint; for a footprint
whose peak schema contains the minimal peak schema and an archive that gives
back the spans for the id under which they were put, `read` rebuilds a footprint
with the empty `Box2I` as region, whatever the region of `f` is, and that
footprint and `f` are equal under `operator==`. -/
theorem Footprint.region_not_persisted (put : SpanSet → Int) (get : Int → SpanSet)
    (f : Footprint) (hget : get (put f.spans) = f.spans)
    (hschema : f.peaks.schema.contains PeakTable.makeMinimalSchema = true) :
    (∀ region : Box2I, ({ f with region := region } : Footprint).write put = f.write put) ∧
    f.write put = [⟨⟨["id"]⟩, [⟨[FieldValue.int (put f.spans)]⟩]⟩,
      ⟨f.peaks.schema, f.peaks.records.map (PeakRecord.toBase f.peaks.schema)⟩] ∧
    ∃ g, FootprintFactory.read get (f.write put) = Outcome.ok g ∧
      g.region = Box2I.empty ∧ g.spans = f.spans ∧ g.peaks = f.peaks ∧
      Footprint.eq g f = true ∧ Footprint.eq f g = true := by
  refine ⟨fun _ => rfl, rfl, _, Footprint.read_write_eq put get f hschema,
    rfl, hget, rfl, ?_, ?_⟩
  · rw [Footprint.eq_iff]
    exact ⟨rfl, fun p hp => ⟨p, hp, rfl, rfl, rfl, rfl, rfl⟩, hget⟩
  · rw [Footprint.eq_iff]
    exact ⟨rfl, fun p hp => ⟨p, hp, rfl, rfl, rfl, rfl, rfl⟩, hget.symm⟩

/-- C29 at a concrete input: the one-peak footprint with region (0, 0)-(9, 9),
stored under the id 7; the footprint read back has the empty region. -/
theorem Footprint.region_not_persisted_witness :
    (fun _ => shiftExample.spans) ((fun _ => 7) shiftExample.spans) = shiftExample.spans ∧
    shiftExample.peaks.schema.contains PeakTable.makeMinimalSchema = true ∧
    shiftExample.region ≠ Box2I.empty ∧
    ∃ g, FootprintFactory.read (fun _ => shiftExample.spans) (shiftExample.write (fun _ => 7))
        = Outcome.ok g ∧
      g.region = Box2I.empty ∧ g.spans = shiftExample.spans ∧ g.peaks = shiftExample.peaks ∧
      Footprint.eq g shiftExample = true ∧ Footprint.eq shiftExample g = true :=
  ⟨rfl, by decide, by decide,
    (Footprint.region_not_persisted (fun _ => 7) (fun _ => shiftExample.spans) shiftExample rfl
      (by decide)).2.2⟩

/-! ## Properties (formatters/Utils.cc) -/

/-- C21: for a set whose properties `ampId` and `ccdId` are single `int` values,
`extractAmpId` returns a value exactly when `ampId` lies in [0, 63] and `ccdId` in
[0, 255], and raises `RangeError` otherwise; the value is
`(ccdId << 6) + ampId = 64 * ccdId + ampId`, it lies in [0, 16383], and two sets
for which the same value is returned have the same `ccdId` and the same `ampId`. -/
theorem extractAmpId_spec (p : PropertySet) (ampId ccdId : Int)
    (hamp : p.find "ampId" = some ⟨"ampId", [], PropertyValue.int ampId⟩)
    (hccd : p.find "ccdId" = some ⟨"ccdId", [], PropertyValue.int ccdId⟩) :
    ((∃ v, extractAmpId (some p) = Outcome.ok v) ↔
      (0 ≤ ampId ∧ ampId ≤ 63 ∧ 0 ≤ ccdId ∧ ccdId ≤ 255)) ∧
    (¬ (0 ≤ ampId ∧ ampId ≤ 63 ∧ 0 ≤ ccdId ∧ ccdId ≤ 255) →
      extractAmpId (some p) = Outcome.fails Failure.RangeError) ∧
    (∀ v, extractAmpId (some p) = Outcome.ok v →
      v = (ccdId <<< (6 : Int)) + ampId ∧ v = 64 * ccdId + ampId ∧ 0 ≤ v ∧ v ≤ 16383) ∧
    (∀ (q : PropertySet) (ampId2 ccdId2 : Int),
      q.find "ampId" = some ⟨"ampId", [], PropertyValue.int ampId2⟩ →
      q.find "ccdId" = some ⟨"ccdId", [], PropertyValue.int ccdId2⟩ →
      ∀ v, extractAmpId (some p) = Outcome.ok v → extractAmpId (some q) = Outcome.ok v →
        ccdId = ccdId2 ∧ ampId = ampId2) := by
  have hshift : ∀ c : Int, c <<< (6 : Int) = 64 * c := by
    intro c
    have := Int.shiftLeft_eq_mul_pow c 6
    simp only [Nat.cast_ofNat] at this
    rw [this]
    norm_num
    ring
  have key : ∀ (q : PropertySet) (a c : Int),
      q.find "ampId" = some ⟨"ampId", [], PropertyValue.int a⟩ →
      q.find "ccdId" = some ⟨"ccdId", [], PropertyValue.int c⟩ →
      ∀ v, extractAmpId (some q) = Outcome.ok v →
        (0 ≤ a ∧ a ≤ 63 ∧ 0 ≤ c ∧ c ≤ 255) ∧ v = (c <<< (6 : Int)) + a := by
    intro q a c ha hc v hv
    rw [extractAmpId_eq q a c ha hc] at hv
    split_ifs at hv with h1 h2 h3 h4
    simp only [Outcome.ok.injEq] at hv
    exact ⟨⟨by omega, by omega, by omega, by omega⟩, hv.symm⟩
  refine ⟨⟨?_, ?_⟩, ?_, ?_, ?_⟩
  · rintro ⟨v, hv⟩
    exact (key p ampId ccdId hamp hccd v hv).1
  · rintro ⟨h1, h2, h3, h4⟩
    refine ⟨(ccdId <<< (6 : Int)) + ampId, ?_⟩
    rw [extractAmpId_eq p ampId ccdId hamp hccd]
    simp [not_lt.mpr h1, not_lt.mpr h2, not_lt.mpr h3, not_lt.mpr h4]
  · intro hnot
    rw [extractAmpId_eq p ampId ccdId hamp hccd]
    split_ifs with h1 h2 h3 h4
    · rfl
    · rfl
    · rfl
    · rfl
    · exact absurd ⟨by omega, by omega, by omega, by omega⟩ hnot
  · intro v hv
    obtain ⟨⟨h1, h2, h3, h4⟩, hval⟩ := key p ampId ccdId hamp hccd v hv
    rw [hshift] at hval
    refine ⟨by rw [hshift]; exact hval, hval, by omega, by omega⟩
  · intro q a2 c2 ha hc v hv hv2
    obtain ⟨⟨h1, h2, h3, h4⟩, hval⟩ := key p ampId ccdId hamp hccd v hv
    obtain ⟨⟨g1, g2, g3, g4⟩, hval2⟩ := key q a2 c2 ha hc v hv2
    rw [hshift] at hval hval2
    constructor <;> omega

/-- C21 at a concrete input: `ampId` = 3 and `ccdId` = 2 give 131. -/
theorem extractAmpId_spec_witness :
    ampExample.find "ampId" = some ⟨"ampId", [], PropertyValue.int 3⟩ ∧
    ampExample.find "ccdId" = some ⟨"ccdId", [], PropertyValue.int 2⟩ ∧
    extractAmpId (some ampExample) = Outcome.ok 131 ∧
    ((∃ v, extractAmpId (some ampExample) = Outcome.ok v) ↔
      ((0 : Int) ≤ 3 ∧ (3 : Int) ≤ 63 ∧ (0 : Int) ≤ 2 ∧ (2 : Int) ≤ 255)) :=
  ⟨by decide, by decide, by decide,
    (extractAmpId_spec ampExample 3 2 (by decide) (by decide)).1⟩

/-- C22: for a set whose property `fpaExposureId` is a single `int64_t` value
`v`, `extractFpaExposureId` returns `v` when `0 ≤ v < 2^33` and raises
`RangeError` for every other `v`. -/
theorem extractFpaExposureId_spec (p : PropertySet) (v : Int)
    (hlo : -((2 ^ 63 : Nat) : Int) ≤ v) (hhi : v < ((2 ^ 63 : Nat) : Int))
    (hfind : p.find "fpaExposureId" = some ⟨"fpaExposureId", [], PropertyValue.int64 v⟩) :
    (extractFpaExposureId (some p) = Outcome.ok v ↔ (0 ≤ v ∧ v < ((2 ^ 33 : Nat) : Int))) ∧
    (¬ (0 ≤ v ∧ v < ((2 ^ 33 : Nat) : Int)) →
      extractFpaExposureId (some p) = Outcome.fails Failure.RangeError) := by
  have heq : extractFpaExposureId (some p) =
      if v < 0 then Outcome.fails Failure.RangeError
      else if (v % ((2 ^ 64 : Nat) : Int)).toNat &&& 0xfffffffe00000000 ≠ 0 then
        Outcome.fails Failure.RangeError
      else Outcome.ok v := by
    simp only [extractFpaExposureId, PropertySet.isArray, PropertySet.getAsInt64, hfind,
      List.isEmpty_nil, Bool.not_true, Bool.false_eq_true, if_false, bind, Outcome.bind, pure]
  have hmask : 0 ≤ v → ((v % ((2 ^ 64 : Nat) : Int)).toNat &&& 0xfffffffe00000000 = 0 ↔
      v < ((2 ^ 33 : Nat) : Int)) := by
    intro h0
    obtain ⟨e1, e2⟩ := int64_toUnsigned v h0 hhi
    rw [e1, land_idMask_eq_zero_iff v.toNat e2]
    have : (v.toNat : Int) = v := Int.toNat_of_nonneg h0
    omega
  rw [heq]
  constructor
  · constructor
    · intro h
      split_ifs at h with h1 h2
      have h0 : 0 ≤ v := by omega
      exact ⟨h0, (hmask h0).mp (by simpa using h2)⟩
    · rintro ⟨h0, h33⟩
      rw [if_neg (not_lt.mpr h0), if_neg (not_not.mpr ((hmask h0).mpr h33))]
  · intro hnot
    split_ifs with h1 h2
    · rfl
    · rfl
    · have h0 : 0 ≤ v := by omega
      exact absurd ⟨h0, (hmask h0).mp (by simpa using h2)⟩ hnot

/-- C22 at a concrete input: the largest accepted value, 2^33 - 1. -/
theorem extractFpaExposureId_spec_witness :
    -((2 ^ 63 : Nat) : Int) ≤ 8589934591 ∧ (8589934591 : Int) < ((2 ^ 63 : Nat) : Int) ∧
    fpaExample.find "fpaExposureId"
      = some ⟨"fpaExposureId", [], PropertyValue.int64 8589934591⟩ ∧
    (extractFpaExposureId (some fpaExample) = Outcome.ok 8589934591 ↔
      ((0 : Int) ≤ 8589934591 ∧ (8589934591 : Int) < ((2 ^ 33 : Nat) : Int))) :=
  ⟨by decide, by decide, by decide,
    (extractFpaExposureId_spec fpaExample 8589934591 (by decide) (by decide) (by decide)).1⟩

/-- C23 (code evaluated at the failing inputs): for a property `flag` with the two
values false, true the call returns true, the last value, although the property
is not unique; for a property `flag` of type `int` the call does not return
false, it ends with the `TypeError` of `getAsBool`. -/
theorem extractOptionalFlag_ignores_unique_and_type :
    flagArrayExample.isArray "flag" = true ∧
    extractOptionalFlag (some flagArrayExample) "flag" = Outcome.ok true ∧
    flagIntExample.typeOf "flag" = Outcome.ok PropertyType.int ∧
    extractOptionalFlag (some flagIntExample) "flag" = Outcome.fails Failure.TypeError := by
  decide

/-- C30 (as stated, refuted): the only parameter, `A`, is a string holding `x`, a
NUL and `y`. One card of 80 characters is built, and the string returned, made
from `sout.c_str()`, ends before the NUL: it has 12 characters, not
80 * `countFitsHeaderCards` = 80. -/
theorem formatFitsProperties_cut_at_nul :
    formatFitsProperties (fun _ => []) (some fitsNulExample)
      = Outcome.ok (String.mk ("A       = ".data ++ [Char.ofNat 39, 'x'])) ∧
    (String.mk ("A       = ".data ++ [Char.ofNat 39, 'x'])).length = 12 ∧
    countFitsHeaderCards (some fitsNulExample) = Outcome.ok 1 ∧
    ((String.mk ("A       = ".data ++ [Char.ofNat 39, 'x'])).length : Int) ≠ 80 * 1 := by
  decide

/-- C30 (amended): `formatFitsProperties` builds one card of exactly 80
characters per parameter name, in the order of `paramNames`, as many as
`countFitsHeaderCards` counts, and returns the text of their concatenation up to
its first NUL; when no card holds a NUL it returns the whole concatenation, of
length 80 * `countFitsHeaderCards`. Each card is the first 80 characters of a
line that starts with the part of the parameter name after its last period,
left-justified in 8 columns and followed by `= ` when that part has at most 8
characters, and with `HIERARCH = ` and that part otherwise. -/
theorem formatFitsProperties_spec (format20g : F64 → List Char) (p : PropertySet) :
    ∃ cards : List (List Char),
      formatFitsProperties format20g (some p) = Outcome.ok (String.mk (cstr cards.flatten)) ∧
      countFitsHeaderCards (some p) = Outcome.ok (cards.length : Int) ∧
      (∀ card ∈ cards, card.length = 80) ∧
      cards.flatten.length = 80 * cards.length ∧
      ((∀ card ∈ cards, Char.ofNat 0 ∉ card) →
        formatFitsProperties format20g (some p) = Outcome.ok (String.mk cards.flatten) ∧
        (String.mk cards.flatten).length = 80 * cards.length) ∧
      List.Forall₂ (fun (i : String) (card : List Char) =>
        ∃ part rest : List Char,
          '.' ∉ part ∧ (i.data = part ∨ ∃ pre, i.data = pre ++ '.' :: part) ∧
          card = ((if part.length ≤ 8 then
                    part ++ List.replicate (8 - part.length) ' ' ++ ['=', ' ']
                  else "HIERARCH = ".data ++ part) ++ rest).take 80)
        (p.paramNames false) cards := by
  have hfind := PropertySet.find_of_paramName p
  have hres : formatFitsProperties format20g (some p) = Outcome.ok
      (String.mk (cstr ((p.paramNames false).map (fitsCardText format20g p)).flatten)) := by
    simp only [formatFitsProperties, formatFitsLoop_eq format20g p _ [] hfind, bind,
      Outcome.bind, pure, List.nil_append]
  have hlen : ∀ card ∈ (p.paramNames false).map (fitsCardText format20g p),
      card.length = 80 := by
    intro card hcard
    obtain ⟨i, hi, rfl⟩ := List.mem_map.mp hcard
    obtain ⟨e, he⟩ := hfind i hi
    exact fitsCardText_length format20g p i e he
  have hjoin := flatten_length_of_all 80 _ hlen
  refine ⟨(p.paramNames false).map (fitsCardText format20g p), hres, ?_, hlen, hjoin, ?_, ?_⟩
  · simp [countFitsHeaderCards]
  · intro hnul
    have hno : Char.ofNat 0 ∉ ((p.paramNames false).map (fitsCardText format20g p)).flatten := by
      intro hmem
      obtain ⟨card, hcard, hc⟩ := List.mem_flatten.mp hmem
      exact hnul card hcard hc
    rw [hres, cstr_of_no_nul _ hno]
    exact ⟨rfl, hjoin⟩
  · rw [List.forall₂_map_right_iff]
    apply List.forall₂_same.mpr
    intro i hi
    obtain ⟨e, he⟩ := hfind i hi
    obtain ⟨h1, h2⟩ := fitsName_spec i
    refine ⟨fitsName i, fitsValue format20g e.last ++ List.replicate
      (80 - (fitsKeyword (fitsName i) ++ fitsValue format20g e.last).length) ' ', h1, h2, ?_⟩
    simp only [fitsCardText, he, fitsKeyword, leftJustify]
    by_cases h8 : (fitsName i).length ≤ 8
    · have : ¬ (fitsName i).length > 8 := by omega
      simp only [h8, this, if_true, if_false, List.append_assoc]
    · have : (fitsName i).length > 8 := by omega
      simp only [h8, this, if_true, if_false, List.append_assoc]

/-- C30 at a concrete input: three parameters give three cards and 240 characters. -/
theorem formatFitsProperties_spec_witness :
    countFitsHeaderCards (some fitsExample) = Outcome.ok 3 ∧
    (formatFitsProperties (fun _ => []) (some fitsExample)).bind
        (fun s => Outcome.ok (s.length, s.data.take 10, (s.data.drop 80).take 22))
      = Outcome.ok (240, "NAXIS   = ".data, "HIERARCH = LONGKEYWORD".data) ∧
    ∃ cards : List (List Char),
      formatFitsProperties (fun _ => []) (some fitsExample)
        = Outcome.ok (String.mk (cstr cards.flatten)) ∧
      countFitsHeaderCards (some fitsExample) = Outcome.ok (cards.length : Int) :=
  ⟨by decide, by decide,
    (formatFitsProperties_spec (fun _ => []) fitsExample).imp (fun _ h => ⟨h.1, h.2.1⟩)⟩

end Afw
